import Mathlib

/-!
Shallow embedding of the Canoga rule engine (web implementation:
`Web/Source/js/model/Board.js`, `GameRound.js`, `Tournament.js`,
`ComputerPlayer.js`, `Serializer.js`, `GameSession.js`, and the backend
`JS/backend/models/Game.js`), together with theorems checking the
natural-language specification against the code.
-/

namespace Canoga

/-- Player identifiers, `"HUMAN"` / `"COMPUTER"` in the JS sources. -/
inductive PlayerId where
  | HUMAN : PlayerId
  | COMPUTER : PlayerId
deriving DecidableEq, Repr

/-- `GameRound.getOpponentId`: the other player's id. -/
def getOpponentId : PlayerId → PlayerId
  | .HUMAN => .COMPUTER
  | .COMPUTER => .HUMAN

/-! ## Board (`Web/Source/js/model/Board.js`)

`_covered` is the JS array `new Array(size + 1).fill(false)`, index `0`
unused; square `num` (1-based) is covered iff `_covered[num]`. -/

structure Board where
  size : Nat
  covered : List Bool
deriving DecidableEq, Repr

/-- The `Board` constructor: `size` squares, all uncovered. -/
def mkBoard (size : Nat) : Board :=
  { size := size, covered := List.replicate (size + 1) false }

namespace Board

/-- Read `_covered[num]` (out-of-bounds reads give `false`, as JS
`undefined` is falsy). -/
def coveredAt (b : Board) (num : Nat) : Bool :=
  b.covered.getD num false

/-- `_validateSquareNumber`: `1 ≤ num ≤ size` (integrality is the Nat type). -/
def validSquare (b : Board) (num : Nat) : Bool :=
  decide (1 ≤ num) && decide (num ≤ b.size)

/-- `cover(num)`: throws if out of range or already covered. -/
def cover (b : Board) (num : Nat) : Except String Board :=
  if ! b.validSquare num then .error "Square number out of range"
  else if b.coveredAt num then .error "Square is already covered"
  else .ok { b with covered := b.covered.set num true }

/-- `uncover(num)`: throws if out of range or already uncovered. -/
def uncover (b : Board) (num : Nat) : Except String Board :=
  if ! b.validSquare num then .error "Square number out of range"
  else if ! b.coveredAt num then .error "Square is already uncovered"
  else .ok { b with covered := b.covered.set num false }

/-- `coverSquares(nums)`: `nums.forEach((n) => this.cover(n))`.  A thrown
exception aborts the loop; the mutations already made remain, so the
result is the partially updated board together with the error, if any. -/
def coverSquaresTrace (b : Board) (nums : List Nat) : Board × Option String :=
  match nums with
  | [] => (b, none)
  | n :: rest =>
    match b.cover n with
    | .ok b' => coverSquaresTrace b' rest
    | .error e => (b, some e)

/-- `uncoverSquares(nums)`, with the same exception semantics. -/
def uncoverSquaresTrace (b : Board) (nums : List Nat) : Board × Option String :=
  match nums with
  | [] => (b, none)
  | n :: rest =>
    match b.uncover n with
    | .ok b' => uncoverSquaresTrace b' rest
    | .error e => (b, some e)

/-- `getCoveredNumbers()`: covered squares in ascending order. -/
def getCoveredNumbers (b : Board) : List Nat :=
  (List.range' 1 b.size).filter (fun i => b.coveredAt i)

/-- `getUncoveredNumbers()`: uncovered squares in ascending order. -/
def getUncoveredNumbers (b : Board) : List Nat :=
  (List.range' 1 b.size).filter (fun i => ¬ b.coveredAt i)

/-- `areAllCovered()`. -/
def areAllCovered (b : Board) : Bool :=
  b.getUncoveredNumbers.length == 0

/-- `areAllUncovered()`. -/
def areAllUncovered (b : Board) : Bool :=
  b.getCoveredNumbers.length == 0

/-- The `backtrack` closure inside `_getCombosForSum`, with the loop over
`i = startIndex .. sorted.length-1` unfolded as recursion on the remaining
candidate suffix.  The JS `remaining < 0` branch is unreachable because the
loop breaks on `n > remaining` before recursing, so `remaining` stays a
`Nat`. -/
def backtrack (cands : List Nat) (remaining : Nat) (path : List Nat) :
    List (List Nat) :=
  if remaining = 0 then
    if 1 ≤ path.length ∧ path.length ≤ 4 then [path] else []
  else if path.length = 4 then []
  else
    match cands with
    | [] => []
    | n :: rest =>
      if n > remaining then []
      else
        backtrack rest (remaining - n) (path ++ [n]) ++
          backtrack rest remaining path

/-- `_getCombosForSum(candidates, targetSum)`: sort ascending, then
backtrack. -/
def _getCombosForSum (candidates : List Nat) (targetSum : Nat) :
    List (List Nat) :=
  backtrack (candidates.mergeSort (fun a b => a ≤ b)) targetSum []

/-- `getCoverCombos(targetSum)`: combinations of uncovered squares. -/
def getCoverCombos (b : Board) (targetSum : Nat) : List (List Nat) :=
  _getCombosForSum b.getUncoveredNumbers targetSum

/-- `getUncoverCombos(targetSum)`: combinations of covered squares. -/
def getUncoverCombos (b : Board) (targetSum : Nat) : List (List Nat) :=
  _getCombosForSum b.getCoveredNumbers targetSum

/-- `toNumberArrayFormat()`: `0` for covered squares, the square's own
number for uncovered ones. -/
def toNumberArrayFormat (b : Board) : List Nat :=
  (List.range' 1 b.size).map (fun i => if b.coveredAt i then 0 else i)

/-- `canUseOneDie()`: true iff `size < 7` or squares `7..size` are all
covered. -/
def canUseOneDie (b : Board) : Bool :=
  if b.size < 7 then true
  else (List.range' 7 (b.size - 6)).all (fun i => b.coveredAt i)

end Board

end Canoga

namespace Canoga

namespace Board

theorem backtrack_zero (cands : List Nat) (p : List Nat) :
    backtrack cands 0 p =
      if 1 ≤ p.length ∧ p.length ≤ 4 then [p] else [] := by
  cases cands <;> rfl

theorem backtrack_nil (r : Nat) (p : List Nat) (hr : r ≠ 0) :
    backtrack [] r p = [] := by
  unfold backtrack
  simp [hr]

theorem backtrack_path4 (cands : List Nat) (r : Nat) (p : List Nat)
    (hr : r ≠ 0) (hp : p.length = 4) :
    backtrack cands r p = [] := by
  unfold backtrack
  simp [hr, hp]

theorem backtrack_cons (n : Nat) (rest : List Nat) (r : Nat) (p : List Nat)
    (hr : r ≠ 0) (hp : p.length ≠ 4) :
    backtrack (n :: rest) r p =
      if n > r then []
      else backtrack rest (r - n) (p ++ [n]) ++ backtrack rest r p := by
  conv_lhs => unfold backtrack
  simp [hr, hp]

/-- Everything `backtrack` emits is the path followed by a combination of
remaining candidates summing to the remaining target. -/
theorem backtrack_shape :
    ∀ (cands : List Nat) (r : Nat) (p q : List Nat), 1 ≤ r → p.length ≤ 4 →
      q ∈ backtrack cands r p →
      ∃ l, q = p ++ l ∧ l.Sublist cands ∧ l.sum = r
  | cands, r, p, q, hr, hp4, hq => by
    have hr0 : r ≠ 0 := by omega
    by_cases hp : p.length = 4
    · rw [backtrack_path4 _ _ _ hr0 hp] at hq
      simp at hq
    · match cands with
      | [] =>
        rw [backtrack_nil _ _ hr0] at hq
        simp at hq
      | n :: rest =>
        rw [backtrack_cons _ _ _ _ hr0 hp] at hq
        by_cases hnr : n > r
        · simp [hnr] at hq
        · simp only [hnr, if_false, List.mem_append] at hq
          rcases hq with hq | hq
          · by_cases hrn : r - n = 0
            · rw [hrn, backtrack_zero] at hq
              have hlen : 1 ≤ (p ++ [n]).length ∧ (p ++ [n]).length ≤ 4 := by
                constructor <;> simp <;> omega
              simp only [hlen, if_true, List.mem_singleton] at hq
              refine ⟨[n], by simpa using hq, ?_, ?_⟩
              · exact (List.singleton_sublist.mpr (List.mem_cons_self n rest))
              · simp; omega
            · obtain ⟨l, hql, hsub, hsum⟩ :=
                backtrack_shape rest (r - n) (p ++ [n]) q (by omega)
                  (by simp; omega) hq
              refine ⟨n :: l, ?_, ?_, ?_⟩
              · simpa using hql
              · exact List.Sublist.cons₂ n hsub
              · simp [hsum]; omega
          · obtain ⟨l, hql, hsub, hsum⟩ :=
              backtrack_shape rest r p q hr hp4 hq
            exact ⟨l, hql, hsub.cons n, hsum⟩

/-- Any nonempty sublist of a `≤`-sorted list whose head is larger than `r`
has sum exceeding `r` (all candidates are positive). -/
theorem sum_gt_of_sublist_head_gt {n r : Nat} {rest l : List Nat}
    (hsort : (n :: rest).Sorted (· ≤ ·)) (hpos : ∀ x ∈ n :: rest, 1 ≤ x)
    (hsub : l.Sublist (n :: rest)) (hne : l ≠ []) (hnr : n > r) :
    r < l.sum := by
  obtain ⟨x, hx⟩ := List.exists_mem_of_ne_nil l hne
  have hxm : x ∈ n :: rest := hsub.subset hx
  have hnx : n ≤ x := by
    rcases List.mem_cons.mp hxm with rfl | hxr
    · exact le_refl x
    · exact (List.pairwise_cons.mp hsort).1 x hxr
  have hxs : x ≤ l.sum := List.single_le_sum (by intro y _; exact Nat.zero_le y) x hx
  omega

/-- The combination search is complete and sound: `backtrack` emits exactly
the path-extensions by sublists of the candidates summing to the remaining
target, subject to the total-length-4 cap. -/
theorem mem_backtrack_iff :
    ∀ (cands : List Nat) (r : Nat) (p q : List Nat), 1 ≤ r → p.length ≤ 3 →
      (∀ x ∈ cands, 1 ≤ x) → cands.Sorted (· ≤ ·) →
      (q ∈ backtrack cands r p ↔
        ∃ l, l.Sublist cands ∧ l.sum = r ∧ p.length + l.length ≤ 4 ∧
          q = p ++ l)
  | cands, r, p, q, hr, hp3, hpos, hsort => by
    have hr0 : r ≠ 0 := by omega
    have hp4 : p.length ≠ 4 := by omega
    match cands with
    | [] =>
      rw [backtrack_nil _ _ hr0]
      simp only [List.not_mem_nil, false_iff]
      rintro ⟨l, hsub, hsum, -, -⟩
      rw [List.sublist_nil.mp hsub] at hsum
      simp at hsum
      omega
    | n :: rest =>
      rw [backtrack_cons _ _ _ _ hr0 hp4]
      have hpos' : ∀ x ∈ rest, 1 ≤ x := fun x hx => hpos x (List.mem_cons_of_mem n hx)
      have hsort' : rest.Sorted (· ≤ ·) := (List.pairwise_cons.mp hsort).2
      by_cases hnr : n > r
      · simp only [hnr, if_true, List.not_mem_nil, false_iff]
        rintro ⟨l, hsub, hsum, -, -⟩
        have hne : l ≠ [] := by
          intro h
          rw [h] at hsum
          simp at hsum
          omega
        have := sum_gt_of_sublist_head_gt hsort hpos hsub hne hnr
        omega
      · simp only [hnr, if_false, List.mem_append]
        have hn1 : 1 ≤ n := hpos n (List.mem_cons_self n rest)
        constructor
        · rintro (hq | hq)
          · -- combinations that use `n`
            by_cases hrn : r - n = 0
            · rw [hrn, backtrack_zero] at hq
              have hlen : 1 ≤ (p ++ [n]).length ∧ (p ++ [n]).length ≤ 4 := by
                constructor <;> simp <;> omega
              rw [if_pos hlen] at hq
              simp only [List.mem_singleton] at hq
              refine ⟨[n], List.singleton_sublist.mpr (List.mem_cons_self n rest),
                ?_, ?_, hq⟩
              · simp; omega
              · simp; omega
            · by_cases hp2 : p.length ≤ 2
              · obtain ⟨l, hsub, hsum, hlen, hql⟩ :=
                  (mem_backtrack_iff rest (r - n) (p ++ [n]) q (by omega)
                    (by simp; omega) hpos' hsort').mp hq
                refine ⟨n :: l, List.Sublist.cons₂ n hsub, ?_, ?_, ?_⟩
                · simp [hsum]; omega
                · simp at hlen ⊢; omega
                · simpa using hql
              · rw [backtrack_path4 _ _ _ (by omega) (by simp; omega)] at hq
                simp at hq
          · -- combinations that skip `n`
            obtain ⟨l, hsub, hsum, hlen, hql⟩ :=
              (mem_backtrack_iff rest r p q hr hp3 hpos' hsort').mp hq
            exact ⟨l, hsub.cons n, hsum, hlen, hql⟩
        · rintro ⟨l, hsub, hsum, hlen, hql⟩
          rcases List.sublist_cons_iff.mp hsub with hsub | ⟨l', rfl, hsub'⟩
          · -- `l` avoids `n`
            right
            exact
              (mem_backtrack_iff rest r p q hr hp3 hpos' hsort').mpr
                ⟨l, hsub, hsum, hlen, hql⟩
          · -- `l = n :: l'`
            left
            by_cases hrn : r - n = 0
            · have hl' : l' = [] := by
                have hsumn : n + l'.sum = r := by simpa using hsum
                have hz : l'.sum = 0 := by omega
                cases l' with
                | nil => rfl
                | cons a t =>
                  have ha : 1 ≤ a := hpos' a (hsub'.subset (List.mem_cons_self a t))
                  simp at hz
                  omega
              subst hl'
              rw [hrn, backtrack_zero]
              have hlen' : 1 ≤ (p ++ [n]).length ∧ (p ++ [n]).length ≤ 4 := by
                constructor <;> simp <;> omega
              rw [if_pos hlen']
              simp only [List.mem_singleton]
              simpa using hql
            · have hl'ne : l' ≠ [] := by
                rintro rfl
                have : n = r := by simpa using hsum
                omega
              have hl'len : 1 ≤ l'.length := by
                cases l' with
                | nil => exact absurd rfl hl'ne
                | cons a t => simp
              refine (mem_backtrack_iff rest (r - n) (p ++ [n]) q (by omega)
                (by simp at hlen ⊢; omega) hpos' hsort').mpr ⟨l', hsub', ?_, ?_, ?_⟩
              · have hsumn : n + l'.sum = r := by simpa using hsum
                omega
              · simp at hlen ⊢; omega
              · simpa using hql

theorem lex_append_left {u v : List Nat} (p : List Nat)
    (h : List.Lex (· < ·) u v) : List.Lex (· < ·) (p ++ u) (p ++ v) := by
  induction p with
  | nil => exact h
  | cons a t ih => exact List.Lex.cons ih

/-- A nonempty sublist of `rest` begins with an element of `rest`. -/
theorem sublist_head_mem {l rest : List Nat} (hsub : l.Sublist rest)
    {m : Nat} {l' : List Nat} (hl : l = m :: l') : m ∈ rest := by
  subst hl
  exact hsub.subset (List.mem_cons_self m l')

/-- No duplicate combinations: each subset is emitted at most once. -/
theorem backtrack_nodup :
    ∀ (cands : List Nat) (r : Nat) (p : List Nat), 1 ≤ r → p.length ≤ 4 →
      (∀ x ∈ cands, 1 ≤ x) → cands.Sorted (· < ·) →
      (backtrack cands r p).Nodup
  | cands, r, p, hr, hp4, hpos, hsort => by
    have hr0 : r ≠ 0 := by omega
    by_cases hp : p.length = 4
    · rw [backtrack_path4 _ _ _ hr0 hp]
      exact List.nodup_nil
    · match cands with
      | [] =>
        rw [backtrack_nil _ _ hr0]
        exact List.nodup_nil
      | n :: rest =>
        rw [backtrack_cons _ _ _ _ hr0 hp]
        by_cases hnr : n > r
        · simp [hnr]
        · simp only [hnr, if_false]
          have hpos' : ∀ x ∈ rest, 1 ≤ x := fun x hx => hpos x (List.mem_cons_of_mem n hx)
          have hsort' : rest.Sorted (· < ·) := (List.pairwise_cons.mp hsort).2
          have hnotmem : n ∉ rest := by
            intro hmem
            exact absurd ((List.pairwise_cons.mp hsort).1 n hmem) (lt_irrefl n)
          have hB2 : (backtrack rest r p).Nodup :=
            backtrack_nodup rest r p hr hp4 hpos' hsort'
          have hdisj : ∀ q, q ∈ backtrack rest (r - n) (p ++ [n]) →
              q ∉ backtrack rest r p := by
            intro q hq1 hq2
            obtain ⟨l₂, hql₂, hsub₂, hsum₂⟩ :=
              backtrack_shape rest r p q hr hp4 hq2
            have hne₂ : l₂ ≠ [] := by
              rintro rfl
              simp at hsum₂
              omega
            by_cases hrn : r - n = 0
            · rw [hrn, backtrack_zero] at hq1
              by_cases hc : 1 ≤ (p ++ [n]).length ∧ (p ++ [n]).length ≤ 4
              · rw [if_pos hc] at hq1
                simp only [List.mem_singleton] at hq1
                rw [hq1] at hql₂
                have hl₂ : [n] = l₂ := List.append_cancel_left hql₂
                exact hnotmem (sublist_head_mem hsub₂ hl₂.symm)
              · rw [if_neg hc] at hq1
                simp at hq1
            · obtain ⟨l₁, hql₁, hsub₁, hsum₁⟩ :=
                backtrack_shape rest (r - n) (p ++ [n]) q (by omega)
                  (by simp; omega) hq1
              rw [hql₁] at hql₂
              have hl₂ : l₂ = n :: l₁ := by
                have h := hql₂
                rw [List.append_assoc] at h
                have := List.append_cancel_left h
                simpa using this.symm
              exact hnotmem (sublist_head_mem hsub₂ hl₂)
          have hB1 : (backtrack rest (r - n) (p ++ [n])).Nodup := by
            by_cases hrn : r - n = 0
            · rw [hrn, backtrack_zero]
              by_cases hc : 1 ≤ (p ++ [n]).length ∧ (p ++ [n]).length ≤ 4
              · rw [if_pos hc]; exact List.nodup_singleton _
              · rw [if_neg hc]; exact List.nodup_nil
            · by_cases hc : (p ++ [n]).length ≤ 4
              · exact backtrack_nodup rest (r - n) (p ++ [n]) (by omega) hc
                  hpos' hsort'
              · rw [backtrack_path4 _ _ _ (by omega) (by simp at hc ⊢; omega)]
                exact List.nodup_nil
          exact List.Nodup.append hB1 hB2 (fun q hq1 hq2 => hdisj q hq1 hq2)

/-- Combinations are emitted in strictly increasing lexicographic order. -/
theorem backtrack_pairwise_lex :
    ∀ (cands : List Nat) (r : Nat) (p : List Nat), 1 ≤ r → p.length ≤ 4 →
      (∀ x ∈ cands, 1 ≤ x) → cands.Sorted (· < ·) →
      (backtrack cands r p).Pairwise (fun x y => List.Lex (· < ·) x y)
  | cands, r, p, hr, hp4, hpos, hsort => by
    have hr0 : r ≠ 0 := by omega
    by_cases hp : p.length = 4
    · rw [backtrack_path4 _ _ _ hr0 hp]
      exact List.Pairwise.nil
    · match cands with
      | [] =>
        rw [backtrack_nil _ _ hr0]
        exact List.Pairwise.nil
      | n :: rest =>
        rw [backtrack_cons _ _ _ _ hr0 hp]
        by_cases hnr : n > r
        · simp [hnr]
        · simp only [hnr, if_false]
          have hpos' : ∀ x ∈ rest, 1 ≤ x := fun x hx => hpos x (List.mem_cons_of_mem n hx)
          have hsort' : rest.Sorted (· < ·) := (List.pairwise_cons.mp hsort).2
          rw [List.pairwise_append]
          refine ⟨?_, backtrack_pairwise_lex rest r p hr hp4 hpos' hsort', ?_⟩
          · by_cases hrn : r - n = 0
            · rw [hrn, backtrack_zero]
              by_cases hc : 1 ≤ (p ++ [n]).length ∧ (p ++ [n]).length ≤ 4
              · rw [if_pos hc]; exact List.pairwise_singleton _ _
              · rw [if_neg hc]; exact List.Pairwise.nil
            · by_cases hc : (p ++ [n]).length ≤ 4
              · exact backtrack_pairwise_lex rest (r - n) (p ++ [n]) (by omega) hc
                  hpos' hsort'
              · rw [backtrack_path4 _ _ _ (by omega) (by simp at hc ⊢; omega)]
                exact List.Pairwise.nil
          · intro x hx y hy
            -- `x` extends `p` with a combination starting at `n`,
            -- `y` extends `p` with a combination from `rest` only.
            obtain ⟨l₂, hyl₂, hsub₂, hsum₂⟩ :=
              backtrack_shape rest r p y hr hp4 hy
            have hne₂ : l₂ ≠ [] := by
              rintro rfl
              simp at hsum₂
              omega
            obtain ⟨m, l₂', rfl⟩ := List.exists_cons_of_ne_nil hne₂
            have hm : m ∈ rest := sublist_head_mem hsub₂ rfl
            have hnm : n < m := (List.pairwise_cons.mp hsort).1 m hm
            have hx' : ∃ l₁, x = (p ++ [n]) ++ l₁ := by
              by_cases hrn : r - n = 0
              · rw [hrn, backtrack_zero] at hx
                by_cases hc : 1 ≤ (p ++ [n]).length ∧ (p ++ [n]).length ≤ 4
                · rw [if_pos hc] at hx
                  simp only [List.mem_singleton] at hx
                  exact ⟨[], by simpa using hx⟩
                · rw [if_neg hc] at hx
                  simp at hx
              · by_cases hc : (p ++ [n]).length ≤ 4
                · obtain ⟨l₁, hxl₁, -, -⟩ :=
                    backtrack_shape rest (r - n) (p ++ [n]) x (by omega) hc hx
                  exact ⟨l₁, hxl₁⟩
                · rw [backtrack_path4 _ _ _ (by omega) (by simp at hc ⊢; omega)] at hx
                  simp at hx
            obtain ⟨l₁, rfl⟩ := hx'
            rw [hyl₂, List.append_assoc]
            exact lex_append_left p (List.Lex.rel hnm)

/-- The uncovered-square list is strictly ascending. -/
theorem uncovered_sorted (b : Board) :
    b.getUncoveredNumbers.Sorted (· < ·) :=
  (List.pairwise_lt_range' 1 b.size).filter _

/-- The covered-square list is strictly ascending. -/
theorem covered_sorted (b : Board) :
    b.getCoveredNumbers.Sorted (· < ·) :=
  (List.pairwise_lt_range' 1 b.size).filter _

theorem uncovered_pos (b : Board) : ∀ x ∈ b.getUncoveredNumbers, 1 ≤ x := by
  intro x hx
  have := List.mem_range'_1.mp (List.mem_of_mem_filter hx)
  omega

theorem covered_pos (b : Board) : ∀ x ∈ b.getCoveredNumbers, 1 ≤ x := by
  intro x hx
  have := List.mem_range'_1.mp (List.mem_of_mem_filter hx)
  omega

/-- A strictly ascending list of positive integers with at least 5 entries
sums to at least 15; hence for dice totals (≤ 12) the 4-term cap in
`_getCombosForSum` never excludes a combination. -/
theorem length_le_four_of_sum_lt_15 {l : List Nat}
    (hsort : l.Sorted (· < ·)) (hpos : ∀ x ∈ l, 1 ≤ x)
    (hsum : l.sum < 15) : l.length ≤ 4 := by
  by_contra hlen
  push_neg at hlen
  match l, hlen with
  | a :: b :: c :: d :: e :: t, _ =>
    have hab : a < b := (List.pairwise_cons.mp hsort).1 b (by simp)
    have hbc : b < c := (List.pairwise_cons.mp (List.pairwise_cons.mp hsort).2).1 c (by simp)
    have hcd : c < d :=
      (List.pairwise_cons.mp (List.pairwise_cons.mp (List.pairwise_cons.mp hsort).2).2).1 d (by simp)
    have hde : d < e :=
      (List.pairwise_cons.mp (List.pairwise_cons.mp (List.pairwise_cons.mp (List.pairwise_cons.mp hsort).2).2).2).1 e (by simp)
    have ha : 1 ≤ a := hpos a (by simp)
    have hs : a + (b + (c + (d + (e + t.sum)))) < 15 := by simpa using hsum
    omega

/-- Characterization of `_getCombosForSum` over a sorted distinct positive
candidate list, for targets in dice range. -/
theorem mem_getCombosForSum_iff (candidates : List Nat) (t : Nat)
    (h1 : 1 ≤ t) (h12 : t ≤ 12)
    (hsort : candidates.Sorted (· < ·)) (hpos : ∀ x ∈ candidates, 1 ≤ x)
    (q : List Nat) :
    q ∈ _getCombosForSum candidates t ↔
      q.Sublist candidates ∧ q.sum = t := by
  have hms : candidates.mergeSort (fun a b => a ≤ b) = candidates :=
    List.mergeSort_eq_self (hsort.imp le_of_lt)
  rw [_getCombosForSum, hms]
  rw [mem_backtrack_iff candidates t [] q h1 (by simp) hpos (hsort.imp le_of_lt)]
  constructor
  · rintro ⟨l, hsub, hsum, -, rfl⟩
    simpa using ⟨hsub, hsum⟩
  · rintro ⟨hsub, hsum⟩
    refine ⟨q, hsub, hsum, ?_, by simp⟩
    have hq4 : q.length ≤ 4 :=
      length_le_four_of_sum_lt_15 (List.Pairwise.sublist hsub hsort)
        (fun x hx => hpos x (hsub.subset hx)) (by omega)
    simpa using hq4

theorem getCombosForSum_nodup (candidates : List Nat) (t : Nat)
    (h1 : 1 ≤ t) (hsort : candidates.Sorted (· < ·))
    (hpos : ∀ x ∈ candidates, 1 ≤ x) :
    (_getCombosForSum candidates t).Nodup := by
  have hms : candidates.mergeSort (fun a b => a ≤ b) = candidates :=
    List.mergeSort_eq_self (hsort.imp le_of_lt)
  rw [_getCombosForSum, hms]
  exact backtrack_nodup candidates t [] h1 (by simp) hpos hsort

theorem getCombosForSum_pairwise_lex (candidates : List Nat) (t : Nat)
    (h1 : 1 ≤ t) (hsort : candidates.Sorted (· < ·))
    (hpos : ∀ x ∈ candidates, 1 ≤ x) :
    (_getCombosForSum candidates t).Pairwise (fun x y => List.Lex (· < ·) x y) := by
  have hms : candidates.mergeSort (fun a b => a ≤ b) = candidates :=
    List.mergeSort_eq_self (hsort.imp le_of_lt)
  rw [_getCombosForSum, hms]
  exact backtrack_pairwise_lex candidates t [] h1 (by simp) hpos hsort

end Board

unseal List.merge List.mergeSort in
/-- Concrete evaluation of the combination search on a fresh size-9 board. -/
theorem combos_fresh9_7 :
    (mkBoard 9).getCoverCombos 7 = [[1,2,4],[1,6],[2,5],[3,4],[7]] := by
  decide

unseal List.merge List.mergeSort in
/-- Claim C1, counterexample: on a fresh size-9 board with dice total 7 the
cover options are NOT exactly the four subsets `{7}, {1,6}, {2,5}, {3,4}`
named by the claim: the code also returns `{1,2,4}` (a fifth subset of
distinct uncovered squares summing to 7). -/
theorem C1_counterexample :
    [1,2,4] ∈ (mkBoard 9).getCoverCombos 7 ∧
      ([1,2,4] : List Nat) ∉ [[7],[1,6],[2,5],[3,4]] := by
  decide

/-- Claim C1 (amended): for every board state and dice total `t` (dice
totals are 1–12), `getCoverCombos` returns exactly the subsets of distinct
currently-uncovered squares summing to `t` (as ascending sublists), each
exactly once; `getUncoverCombos` is the analogue over covered squares; the
4-term cap in `_getCombosForSum` excludes nothing for such `t` (five
distinct positive squares already sum to ≥ 15).  On a fresh size-9 board
with `t = 7` the cover options are exactly
`{1,2,4}, {1,6}, {2,5}, {3,4}, {7}` — the claim's list misses `{1,2,4}`. -/
theorem C1_combos_amended (b : Board) (t : Nat) (h1 : 1 ≤ t) (h12 : t ≤ 12) :
    ((∀ q, q ∈ b.getCoverCombos t ↔
        q.Sublist b.getUncoveredNumbers ∧ q.sum = t)
      ∧ (b.getCoverCombos t).Nodup)
    ∧ ((∀ q, q ∈ b.getUncoverCombos t ↔
        q.Sublist b.getCoveredNumbers ∧ q.sum = t)
      ∧ (b.getUncoverCombos t).Nodup)
    ∧ (mkBoard 9).getCoverCombos 7 = [[1,2,4],[1,6],[2,5],[3,4],[7]] := by
  refine ⟨⟨?_, ?_⟩, ⟨?_, ?_⟩, ?_⟩
  · intro q
    exact Board.mem_getCombosForSum_iff _ t h1 h12 (Board.uncovered_sorted b)
      (Board.uncovered_pos b) q
  · exact Board.getCombosForSum_nodup _ t h1 (Board.uncovered_sorted b)
      (Board.uncovered_pos b)
  · intro q
    exact Board.mem_getCombosForSum_iff _ t h1 h12 (Board.covered_sorted b)
      (Board.covered_pos b) q
  · exact Board.getCombosForSum_nodup _ t h1 (Board.covered_sorted b)
      (Board.covered_pos b)
  · exact combos_fresh9_7

/-- Witness for C1 (amended) at the concrete scenario input. -/
theorem C1_witness :
    (mkBoard 9).getCoverCombos 7 = [[1,2,4],[1,6],[2,5],[3,4],[7]] :=
  (C1_combos_amended (mkBoard 9) 7 (by decide) (by decide)).2.2

/-! ## GameRound (`Web/Source/js/model/GameRound.js`)

The two `Player` objects (`Player.js`) contribute their `totalScore`
fields; boards are stored per player. -/

/-- Win kinds, the strings `"cover"` / `"uncover"` in the JS source. -/
inductive WinType where
  | cover : WinType
  | uncover : WinType
deriving DecidableEq, Repr

/-- `advantageInfo` as produced by `Tournament.updateAdvantageForNextRound`
(`digitSum` is a JS number and may lie outside the board range). -/
structure AdvantageInfo where
  playerId : PlayerId
  digitSum : Int
deriving DecidableEq, Repr

/-- The advantage lock installed by `_applyAdvantageIfAny`. -/
structure AdvantageLock where
  playerId : PlayerId
  squareNumber : Nat
  unlocked : Bool
deriving DecidableEq, Repr

structure GameRound where
  boardSize : Nat
  humanBoard : Board
  computerBoard : Board
  humanTotalScore : Int
  computerTotalScore : Int
  firstPlayerId : PlayerId
  currentPlayerId : PlayerId
  advantageInfo : Option AdvantageInfo
  advantageLock : Option AdvantageLock
  roundOver : Bool
  roundWinnerId : Option PlayerId
  winType : Option WinType
  roundScore : Int
  humanEverCovered : Bool
  computerEverCovered : Bool
deriving DecidableEq, Repr

namespace GameRound

/-- `getPlayerById(id).board`. -/
def getBoard (r : GameRound) : PlayerId → Board
  | .HUMAN => r.humanBoard
  | .COMPUTER => r.computerBoard

/-- Writing back `getPlayerById(id).board` after a mutation. -/
def setBoard (r : GameRound) (id : PlayerId) (b : Board) : GameRound :=
  match id with
  | .HUMAN => { r with humanBoard := b }
  | .COMPUTER => { r with computerBoard := b }

/-- `getPlayerById(id).totalScore`. -/
def getTotalScore (r : GameRound) : PlayerId → Int
  | .HUMAN => r.humanTotalScore
  | .COMPUTER => r.computerTotalScore

/-- `Player.addToScore(delta)` on the winner. -/
def addToScore (r : GameRound) (id : PlayerId) (delta : Int) : GameRound :=
  match id with
  | .HUMAN => { r with humanTotalScore := r.humanTotalScore + delta }
  | .COMPUTER => { r with computerTotalScore := r.computerTotalScore + delta }

/-- `_applyAdvantageIfAny()`: pre-cover the advantage square on the
holder's board and install the (locked) advantage lock, skipping silently
when the square is out of range. -/
def _applyAdvantageIfAny (r : GameRound) : GameRound :=
  match r.advantageInfo with
  | none => r
  | some info =>
    if info.digitSum < 1 ∨ info.digitSum > (r.boardSize : Int) then r
    else
      let squareNumber := info.digitSum.toNat
      let b := (r.getBoard info.playerId).coverSquaresTrace [squareNumber]
      let r' := r.setBoard info.playerId b.1
      { r' with
          advantageLock := some (AdvantageLock.mk info.playerId squareNumber false) }

/-- The `GameRound` constructor: fresh boards, first player to move,
advantage applied, `everCovered` flags seeded from the (possibly
pre-covered) boards. -/
def mkGameRound (boardSize : Nat) (humanTotalScore computerTotalScore : Int)
    (firstPlayerId : PlayerId) (advantageInfo : Option AdvantageInfo) :
    GameRound :=
  let base : GameRound :=
    { boardSize := boardSize
      humanBoard := mkBoard boardSize
      computerBoard := mkBoard boardSize
      humanTotalScore := humanTotalScore
      computerTotalScore := computerTotalScore
      firstPlayerId := firstPlayerId
      currentPlayerId := firstPlayerId
      advantageInfo := advantageInfo
      advantageLock := none
      roundOver := false
      roundWinnerId := none
      winType := none
      roundScore := 0
      humanEverCovered := false
      computerEverCovered := false }
  let r := _applyAdvantageIfAny base
  { r with
      humanEverCovered := r.humanBoard.getCoveredNumbers.length > 0
      computerEverCovered := r.computerBoard.getCoveredNumbers.length > 0 }

/-- `notifyTurnEnded(playerId)`: the lock is unlocked when the *holder*
completes a turn (`this.advantageLock.playerId === playerId`). -/
def notifyTurnEnded (r : GameRound) (playerId : PlayerId) : GameRound :=
  match r.advantageLock with
  | none => r
  | some lock =>
    if lock.playerId = playerId ∧ lock.unlocked = false then
      { r with advantageLock := some { lock with unlocked := true } }
    else r

/-- `getCoverOptions(playerId, sum)`. -/
def getCoverOptions (r : GameRound) (playerId : PlayerId) (sum : Nat) :
    List (List Nat) :=
  (r.getBoard playerId).getCoverCombos sum

/-- `getUncoverOptions(playerId, sum)`: combos on the opponent's board,
with the locked advantage square filtered out while the lock is active and
the actor is not the holder. -/
def getUncoverOptions (r : GameRound) (playerId : PlayerId) (sum : Nat) :
    List (List Nat) :=
  let combos := (r.getBoard (getOpponentId playerId)).getUncoverCombos sum
  match r.advantageLock with
  | some lock =>
    if lock.unlocked = false ∧ playerId ≠ lock.playerId then
      combos.filter (fun combo => ¬ combo.contains lock.squareNumber)
    else combos
  | none => combos

/-- `_hadAnyCovered(player)`. -/
def _hadAnyCovered (r : GameRound) : PlayerId → Bool
  | .HUMAN => r.humanEverCovered
  | .COMPUTER => r.computerEverCovered

/-- `_computeRoundScore(winnerId, winType)`. -/
def _computeRoundScore (r : GameRound) (winnerId : PlayerId)
    (winType : WinType) : Int :=
  match winType with
  | .cover => ((r.getBoard (getOpponentId winnerId)).getUncoveredNumbers.sum : Int)
  | .uncover => ((r.getBoard winnerId).getCoveredNumbers.sum : Int)

/-- `_checkForRoundEnd()`: the win-condition chain; freezes the result and
credits the winner's tournament score when a winner is found. -/
def _checkForRoundEnd (r : GameRound) : GameRound :=
  let humanCoveredAll := r.humanBoard.areAllCovered
  let compCoveredAll := r.computerBoard.areAllCovered
  let humanCoveredCount := r.humanBoard.getCoveredNumbers.length
  let compCoveredCount := r.computerBoard.getCoveredNumbers.length
  let result : Option (PlayerId × WinType) :=
    if humanCoveredAll then some (.HUMAN, .cover)
    else if compCoveredAll then some (.COMPUTER, .cover)
    else if compCoveredCount = 0 ∧ r._hadAnyCovered .COMPUTER then
      some (.HUMAN, .uncover)
    else if humanCoveredCount = 0 ∧ r._hadAnyCovered .HUMAN then
      some (.COMPUTER, .uncover)
    else none
  match result with
  | none => r
  | some (winnerId, winType) =>
    let score := r._computeRoundScore winnerId winType
    let r' := { r with roundOver := true, roundWinnerId := some winnerId,
                       winType := some winType, roundScore := score }
    r'.addToScore winnerId score

/-- `applyCoverMove(playerId, squares)`: cover on the actor's own board;
a thrown exception propagates, skipping the flag update and the round-end
check but keeping the board mutations already made. -/
def applyCoverMove (r : GameRound) (playerId : PlayerId)
    (squares : List Nat) : GameRound × Option String :=
  let res := (r.getBoard playerId).coverSquaresTrace squares
  let r1 := r.setBoard playerId res.1
  match res.2 with
  | some e => (r1, some e)
  | none =>
    let r2 :=
      match playerId with
      | .HUMAN => { r1 with humanEverCovered := true }
      | .COMPUTER => { r1 with computerEverCovered := true }
    (r2._checkForRoundEnd, none)

/-- `applyUncoverMove(playerId, squares)`: uncover on the opponent's
board, same exception semantics. -/
def applyUncoverMove (r : GameRound) (playerId : PlayerId)
    (squares : List Nat) : GameRound × Option String :=
  let opp := getOpponentId playerId
  let res := (r.getBoard opp).uncoverSquaresTrace squares
  let r1 := r.setBoard opp res.1
  match res.2 with
  | some e => (r1, some e)
  | none => (r1._checkForRoundEnd, none)

/-- `switchTurn()`. -/
def switchTurn (r : GameRound) : GameRound :=
  { r with currentPlayerId := getOpponentId r.currentPlayerId }

end GameRound

/-- A round started with the computer holding a (still locked) advantage on
square 5 of a size-9 board. -/
def lockedRound : GameRound :=
  GameRound.mkGameRound 9 0 0 .HUMAN (some ⟨.COMPUTER, 5⟩)

/-- Claim C3, counterexample: with an existing, not-yet-unlocked lock held
by COMPUTER, `notifyTurnEnded(HUMAN)` (the holder's *opponent*) leaves the
lock untouched, and `notifyTurnEnded(COMPUTER)` (the holder) sets
`unlocked`: the code unlocks on the holder's own turn end, not the
opponent's. -/
theorem C3_counterexample :
    lockedRound.advantageLock = some ⟨.COMPUTER, 5, false⟩ ∧
    lockedRound.notifyTurnEnded .HUMAN = lockedRound ∧
    (lockedRound.notifyTurnEnded .COMPUTER).advantageLock =
      some ⟨.COMPUTER, 5, true⟩ := by
  decide

/-- Claim C3 (amended): `notifyTurnEnded(playerId)` sets the advantage
lock's `unlocked` flag to true if and only if a lock exists, it is not yet
unlocked, and `playerId` is the lock's *holder*; in every other case the
round is left unchanged.  (The spec's "opponent of the holder" does not
match the code, which unlocks after the holder's own turn.) -/
theorem C3_notify_amended (r : GameRound) (p : PlayerId) :
    (r.advantageLock = none → r.notifyTurnEnded p = r)
    ∧ (∀ lock, r.advantageLock = some lock →
        (lock.playerId = p ∧ lock.unlocked = false →
          r.notifyTurnEnded p =
            { r with advantageLock := some { lock with unlocked := true } })
        ∧ (lock.playerId ≠ p ∨ lock.unlocked = true →
          r.notifyTurnEnded p = r)) := by
  constructor
  · intro h
    unfold GameRound.notifyTurnEnded
    rw [h]
  · intro lock hlock
    constructor
    · rintro ⟨h1, h2⟩
      unfold GameRound.notifyTurnEnded
      rw [hlock]
      simp [h1, h2]
    · intro h
      unfold GameRound.notifyTurnEnded
      rw [hlock]
      rcases h with h | h
      · simp [h]
      · simp [h]

/-- Witness for C3 (amended): the concrete locked round, holder ends a
turn. -/
theorem C3_witness :
    lockedRound.notifyTurnEnded .COMPUTER =
      { lockedRound with advantageLock := some ⟨.COMPUTER, 5, true⟩ } :=
  ((C3_notify_amended lockedRound .COMPUTER).2 ⟨.COMPUTER, 5, false⟩
    (by decide)).1 (by decide)

/-- Claim C9 (confirmed): while an advantage lock is active and not yet
unlocked, no combination returned by the uncover-move search of a
non-holder (whose uncover moves target the holder's board) contains the
locked square. -/
theorem C9_lock_filter (r : GameRound) (lock : AdvantageLock)
    (hlock : r.advantageLock = some lock) (hunl : lock.unlocked = false)
    (p : PlayerId) (hp : p ≠ lock.playerId) (sum : Nat) (q : List Nat)
    (hq : q ∈ r.getUncoverOptions p sum) : lock.squareNumber ∉ q := by
  unfold GameRound.getUncoverOptions at hq
  rw [hlock] at hq
  simp only [hunl, hp, ne_eq, not_false_iff, true_and, if_true] at hq
  have := (List.mem_filter.mp hq).2
  simpa using this

/-- A state where the holder's board has a non-advantage covered square,
so the uncover search returns a nonempty, filtered option list. -/
def lockedRound2 : GameRound :=
  (lockedRound.applyCoverMove .COMPUTER [3]).1

unseal List.merge List.mergeSort in
/-- Witness for C9 at a concrete state: `[3]` is an uncover option for the
human against the computer's board and avoids the locked square 5. -/
theorem C9_witness : (5 : Nat) ∉ ([3] : List Nat) :=
  C9_lock_filter lockedRound2 ⟨.COMPUTER, 5, false⟩ (by decide) rfl
    .HUMAN (by decide) 3 [3] (by decide)

/-! ## Atomicity of the square-toggling operations (claim C7) -/

namespace Board

theorem getD_set (l : List Bool) (n k : Nat) (a d : Bool) :
    (l.set n a).getD k d =
      if n = k ∧ n < l.length then a else l.getD k d := by
  rw [List.getD_eq_getElem?_getD, List.getD_eq_getElem?_getD,
    List.getElem?_set]
  rcases Decidable.em (n = k) with h | h
  · subst h
    rcases Decidable.em (n < l.length) with h2 | h2
    · simp [h2]
    · have hnone : l[n]? = none := List.getElem?_eq_none (by omega)
      simp [h2, hnone]
  · simp [h]

/-- A successful single `cover` step: the named square becomes covered,
nothing else changes. -/
theorem cover_ok {b b' : Board} {n : Nat} (hwf : b.covered.length = b.size + 1)
    (h : b.cover n = .ok b') :
    b'.size = b.size ∧ b'.covered.length = b'.size + 1 ∧
      (∀ k, b'.coveredAt k = (b.coveredAt k || n == k)) ∧
      b.validSquare n = true ∧ b.coveredAt n = false := by
  unfold cover at h
  cases hv : b.validSquare n with
  | false => rw [hv] at h; simp at h
  | true =>
    rw [hv] at h
    cases hc : b.coveredAt n with
    | true => rw [hc] at h; simp at h
    | false =>
      rw [hc] at h
      simp only [Bool.not_true, Bool.false_eq_true, if_false] at h
      cases h
      have hn : n < b.covered.length := by
        unfold validSquare at hv
        simp at hv
        omega
      refine ⟨rfl, by simpa using hwf, ?_, rfl, rfl⟩
      intro k
      show (b.covered.set n true).getD k false = _
      rw [getD_set]
      rcases Decidable.em (n = k) with h | h
      · subst h
        simp [hn]
      · have hne : (n == k) = false := by simpa using h
        simp [h, hne, coveredAt]

/-- A successful single `uncover` step. -/
theorem uncover_ok {b b' : Board} {n : Nat} (hwf : b.covered.length = b.size + 1)
    (h : b.uncover n = .ok b') :
    b'.size = b.size ∧ b'.covered.length = b'.size + 1 ∧
      (∀ k, b'.coveredAt k = (b.coveredAt k && ! (n == k))) ∧
      b.validSquare n = true ∧ b.coveredAt n = true := by
  unfold uncover at h
  cases hv : b.validSquare n with
  | false => rw [hv] at h; simp at h
  | true =>
    rw [hv] at h
    cases hc : b.coveredAt n with
    | false => rw [hc] at h; simp at h
    | true =>
      rw [hc] at h
      simp only [Bool.not_true, Bool.false_eq_true, if_false] at h
      cases h
      have hn : n < b.covered.length := by
        unfold validSquare at hv
        simp at hv
        omega
      refine ⟨rfl, by simpa using hwf, ?_, rfl, rfl⟩
      intro k
      show (b.covered.set n false).getD k false = _
      rw [getD_set]
      rcases Decidable.em (n = k) with h | h
      · subst h
        simp [hn]
      · have hne : (n == k) = false := by simpa using h
        simp [h, hne, coveredAt]

theorem coverSquaresTrace_cons (b : Board) (n : Nat) (rest : List Nat) :
    b.coverSquaresTrace (n :: rest) =
      match b.cover n with
      | .ok c => c.coverSquaresTrace rest
      | .error e => (b, some e) := rfl

theorem uncoverSquaresTrace_cons (b : Board) (n : Nat) (rest : List Nat) :
    b.uncoverSquaresTrace (n :: rest) =
      match b.uncover n with
      | .ok c => c.uncoverSquaresTrace rest
      | .error e => (b, some e) := rfl

/-- Success case of `coverSquares`: with distinct, in-range, currently
uncovered squares the whole list is covered and nothing else changes. -/
theorem coverSquaresTrace_ok :
    ∀ (b : Board) (nums : List Nat), b.covered.length = b.size + 1 →
      nums.Nodup → (∀ n ∈ nums, b.validSquare n = true ∧ b.coveredAt n = false) →
      (b.coverSquaresTrace nums).2 = none ∧
        (b.coverSquaresTrace nums).1.size = b.size ∧
        (∀ k, (b.coverSquaresTrace nums).1.coveredAt k =
          (b.coveredAt k || nums.contains k))
  | b, [], hwf, hnd, hok => by
    simp [coverSquaresTrace]
  | b, n :: rest, hwf, hnd, hok => by
    have hn := hok n (List.mem_cons_self n rest)
    have hcov : ∃ b', b.cover n = .ok b' := by
      unfold cover
      simp [hn.1, hn.2]
    obtain ⟨b', hb'⟩ := hcov
    obtain ⟨hsz, hwf', hpt, -, -⟩ := cover_ok hwf hb'
    have hrest : ∀ m ∈ rest, b'.validSquare m = true ∧ b'.coveredAt m = false := by
      intro m hm
      have hm2 := hok m (List.mem_cons_of_mem n hm)
      have hmn : (n == m) = false := by
        have : n ≠ m := by
          rintro rfl
          exact (List.nodup_cons.mp hnd).1 hm
        simpa using this
      refine ⟨?_, ?_⟩
      · unfold validSquare at hm2 ⊢
        rw [hsz]
        exact hm2.1
      · rw [hpt m, hm2.2, hmn]
        rfl
    obtain ⟨h1, h2, h3⟩ :=
      coverSquaresTrace_ok b' rest (by rw [hwf', hsz]) (List.nodup_cons.mp hnd).2 hrest
    have hstep : b.coverSquaresTrace (n :: rest) = b'.coverSquaresTrace rest := by
      simp only [coverSquaresTrace_cons, hb']
    rw [hstep]
    refine ⟨h1, by rw [h2, hsz], ?_⟩
    intro k
    rw [h3 k, hpt k, List.contains_cons]
    rcases Decidable.em (n = k) with hk | hk
    · subst hk
      cases b.coveredAt n <;> cases rest.contains n <;> simp
    · have h1 : (n == k) = false := by simpa using hk
      have h2 : (k == n) = false := by simpa using (Ne.symm hk)
      rw [h1, h2]
      cases b.coveredAt k <;> cases rest.contains k <;> simp

/-- Failure case of `coverSquares`: after a clean prefix, the first
offending square aborts the loop, keeping the prefix toggles. -/
theorem coverSquaresTrace_fail :
    ∀ (b : Board) (pre : List Nat) (n : Nat) (rest : List Nat) (e : String),
      (b.coverSquaresTrace pre).2 = none →
      (b.coverSquaresTrace pre).1.cover n = .error e →
      b.coverSquaresTrace (pre ++ n :: rest) =
        ((b.coverSquaresTrace pre).1, some e)
  | b, [], n, rest, e, hpre, herr => by
    have herr' : b.cover n = .error e := herr
    simp only [List.nil_append, coverSquaresTrace_cons, herr']
    rfl
  | b, m :: pre', n, rest, e, hpre, herr => by
    rcases hm : b.cover m with e' | b'
    · rw [coverSquaresTrace_cons, hm] at hpre
      simp at hpre
    · have hstep : b.coverSquaresTrace (m :: pre') = b'.coverSquaresTrace pre' := by
        simp only [coverSquaresTrace_cons, hm]
      rw [hstep] at hpre herr
      have hgoal : b.coverSquaresTrace ((m :: pre') ++ n :: rest) =
          b'.coverSquaresTrace (pre' ++ n :: rest) := by
        simp only [List.cons_append, coverSquaresTrace_cons, hm]
      rw [hgoal, hstep]
      exact coverSquaresTrace_fail b' pre' n rest e hpre herr

/-- Success case of `uncoverSquares`. -/
theorem uncoverSquaresTrace_ok :
    ∀ (b : Board) (nums : List Nat), b.covered.length = b.size + 1 →
      nums.Nodup → (∀ n ∈ nums, b.validSquare n = true ∧ b.coveredAt n = true) →
      (b.uncoverSquaresTrace nums).2 = none ∧
        (b.uncoverSquaresTrace nums).1.size = b.size ∧
        (∀ k, (b.uncoverSquaresTrace nums).1.coveredAt k =
          (b.coveredAt k && ! nums.contains k))
  | b, [], hwf, hnd, hok => by
    simp [uncoverSquaresTrace]
  | b, n :: rest, hwf, hnd, hok => by
    have hn := hok n (List.mem_cons_self n rest)
    have hcov : ∃ b', b.uncover n = .ok b' := by
      unfold uncover
      simp [hn.1, hn.2]
    obtain ⟨b', hb'⟩ := hcov
    obtain ⟨hsz, hwf', hpt, -, -⟩ := uncover_ok hwf hb'
    have hrest : ∀ m ∈ rest, b'.validSquare m = true ∧ b'.coveredAt m = true := by
      intro m hm
      have hm2 := hok m (List.mem_cons_of_mem n hm)
      have hmn : (n == m) = false := by
        have : n ≠ m := by
          rintro rfl
          exact (List.nodup_cons.mp hnd).1 hm
        simpa using this
      refine ⟨?_, ?_⟩
      · unfold validSquare at hm2 ⊢
        rw [hsz]
        exact hm2.1
      · rw [hpt m, hm2.2, hmn]
        rfl
    obtain ⟨h1, h2, h3⟩ :=
      uncoverSquaresTrace_ok b' rest (by rw [hwf', hsz]) (List.nodup_cons.mp hnd).2 hrest
    have hstep : b.uncoverSquaresTrace (n :: rest) = b'.uncoverSquaresTrace rest := by
      simp only [uncoverSquaresTrace_cons, hb']
    rw [hstep]
    refine ⟨h1, by rw [h2, hsz], ?_⟩
    intro k
    rw [h3 k, hpt k, List.contains_cons]
    rcases Decidable.em (n = k) with hk | hk
    · subst hk
      cases b.coveredAt n <;> cases rest.contains n <;> simp
    · have h1 : (n == k) = false := by simpa using hk
      have h2 : (k == n) = false := by simpa using (Ne.symm hk)
      rw [h1, h2]
      cases b.coveredAt k <;> cases rest.contains k <;> simp

/-- Failure case of `uncoverSquares`. -/
theorem uncoverSquaresTrace_fail :
    ∀ (b : Board) (pre : List Nat) (n : Nat) (rest : List Nat) (e : String),
      (b.uncoverSquaresTrace pre).2 = none →
      (b.uncoverSquaresTrace pre).1.uncover n = .error e →
      b.uncoverSquaresTrace (pre ++ n :: rest) =
        ((b.uncoverSquaresTrace pre).1, some e)
  | b, [], n, rest, e, hpre, herr => by
    have herr' : b.uncover n = .error e := herr
    simp only [List.nil_append, uncoverSquaresTrace_cons, herr']
    rfl
  | b, m :: pre', n, rest, e, hpre, herr => by
    rcases hm : b.uncover m with e' | b'
    · rw [uncoverSquaresTrace_cons, hm] at hpre
      simp at hpre
    · have hstep : b.uncoverSquaresTrace (m :: pre') = b'.uncoverSquaresTrace pre' := by
        simp only [uncoverSquaresTrace_cons, hm]
      rw [hstep] at hpre herr
      have hgoal : b.uncoverSquaresTrace ((m :: pre') ++ n :: rest) =
          b'.uncoverSquaresTrace (pre' ++ n :: rest) := by
        simp only [List.cons_append, uncoverSquaresTrace_cons, hm]
      rw [hgoal, hstep]
      exact uncoverSquaresTrace_fail b' pre' n rest e hpre herr

end Board

/-- A size-9 board with square 2 covered. -/
def cexBoard7 : Board := ((mkBoard 9).coverSquaresTrace [2]).1

/-- Claim C7, counterexample: `coverSquares([1, 2])` on a board where 2 is
already covered throws, but square 1 — covered before the exception — stays
covered: the operation is not all-or-nothing. -/
theorem C7_counterexample :
    ((cexBoard7.coverSquaresTrace [1, 2]).2).isSome = true ∧
      (cexBoard7.coverSquaresTrace [1, 2]).1 ≠ cexBoard7 ∧
      (cexBoard7.coverSquaresTrace [1, 2]).1.coveredAt 1 = true ∧
      cexBoard7.coveredAt 1 = false := by
  decide

/-- Claim C7 (amended): `coverSquares` / `uncoverSquares` toggle one
square at a time.  With a list of distinct, in-range squares in the
expected state the whole list toggles and the call succeeds; but a list
containing an offending square (already covered / already uncovered /
out of range) aborts at the first offender, keeping the toggles made
before it — the operations are not all-or-nothing. -/
theorem C7_toggle_amended (b : Board) (hwf : b.covered.length = b.size + 1) :
    (∀ nums, nums.Nodup →
      (∀ n ∈ nums, b.validSquare n = true ∧ b.coveredAt n = false) →
      (b.coverSquaresTrace nums).2 = none ∧
        (∀ k, (b.coverSquaresTrace nums).1.coveredAt k =
          (b.coveredAt k || nums.contains k)))
    ∧ (∀ pre n rest e, (b.coverSquaresTrace pre).2 = none →
        (b.coverSquaresTrace pre).1.cover n = .error e →
        b.coverSquaresTrace (pre ++ n :: rest) =
          ((b.coverSquaresTrace pre).1, some e))
    ∧ (∀ nums, nums.Nodup →
      (∀ n ∈ nums, b.validSquare n = true ∧ b.coveredAt n = true) →
      (b.uncoverSquaresTrace nums).2 = none ∧
        (∀ k, (b.uncoverSquaresTrace nums).1.coveredAt k =
          (b.coveredAt k && ! nums.contains k)))
    ∧ (∀ pre n rest e, (b.uncoverSquaresTrace pre).2 = none →
        (b.uncoverSquaresTrace pre).1.uncover n = .error e →
        b.uncoverSquaresTrace (pre ++ n :: rest) =
          ((b.uncoverSquaresTrace pre).1, some e)) := by
  refine ⟨?_, ?_, ?_, ?_⟩
  · intro nums hnd hok
    obtain ⟨h1, -, h3⟩ := Board.coverSquaresTrace_ok b nums hwf hnd hok
    exact ⟨h1, h3⟩
  · intro pre n rest e h1 h2
    exact Board.coverSquaresTrace_fail b pre n rest e h1 h2
  · intro nums hnd hok
    obtain ⟨h1, -, h3⟩ := Board.uncoverSquaresTrace_ok b nums hwf hnd hok
    exact ⟨h1, h3⟩
  · intro pre n rest e h1 h2
    exact Board.uncoverSquaresTrace_fail b pre n rest e h1 h2

/-- Witness for C7 (amended): covering `[1, 3]` on a fresh size-9 board
succeeds and covers exactly those squares. -/
theorem C7_witness :
    ((mkBoard 9).coverSquaresTrace [1, 3]).2 = none ∧
      ((mkBoard 9).coverSquaresTrace [1, 3]).1.coveredAt 3 = true :=
  have h := (C7_toggle_amended (mkBoard 9) (by decide)).1 [1, 3]
    (by decide) (by decide)
  ⟨h.1, by rw [h.2 3]; decide⟩

/-! ## Tournament (`Web/Source/js/model/Tournament.js`) -/

/-- One pass of the digit-sum loop in `Tournament._digitSum`:
`while (x > 0) { sum += x % 10; x = Math.floor(x / 10); }`. -/
def digitSumOnce (x : Nat) : Nat :=
  if h : x = 0 then 0
  else x % 10 + digitSumOnce (x / 10)
decreasing_by exact Nat.div_lt_self (Nat.pos_of_ne_zero h) (by norm_num)

theorem digitSumOnce_le (x : Nat) : digitSumOnce x ≤ x := by
  induction x using Nat.strong_induction_on with
  | _ x ih =>
    unfold digitSumOnce
    by_cases h : x = 0
    · simp [h]
    · simp only [h, dif_neg, not_false_iff]
      have hdiv : x / 10 < x := Nat.div_lt_self (Nat.pos_of_ne_zero h) (by norm_num)
      have := ih (x / 10) hdiv
      have hmod : x % 10 + 10 * (x / 10) = x := Nat.mod_add_div x 10
      omega

theorem digitSumOnce_lt (x : Nat) (hx : 10 ≤ x) : digitSumOnce x < x := by
  unfold digitSumOnce
  have h : x ≠ 0 := by omega
  simp only [h, dif_neg, not_false_iff]
  have hdiv1 : 1 ≤ x / 10 := (Nat.le_div_iff_mul_le (by norm_num)).mpr (by omega)
  have := digitSumOnce_le (x / 10)
  have hmod : x % 10 + 10 * (x / 10) = x := Nat.mod_add_div x 10
  omega

/-- The recursive reduction in `_digitSum`: re-reduce while the digit sum
is still ≥ 10 (the `if (x === 0) return 0` guard is the first branch). -/
def digitSumAbs (x : Nat) : Nat :=
  if hx : x = 0 then 0
  else
    let sum := digitSumOnce x
    if h10 : sum ≥ 10 then digitSumAbs sum
    else sum
decreasing_by
  exact lt_of_lt_of_le (digitSumOnce_lt x (by
    by_contra hlt
    push_neg at hlt
    have : digitSumOnce x ≤ x := digitSumOnce_le x
    omega)) (le_refl x)

/-- `Tournament._digitSum(n)`: works on `Math.abs(Math.trunc(n))`. -/
def _digitSum (n : Int) : Nat :=
  digitSumAbs n.natAbs

theorem digitSumAbs_le_9 (x : Nat) : digitSumAbs x ≤ 9 := by
  induction x using Nat.strong_induction_on with
  | _ x ih =>
    unfold digitSumAbs
    by_cases hx : x = 0
    · simp [hx]
    · simp only [hx, dif_neg, not_false_iff]
      by_cases h10 : digitSumOnce x ≥ 10
      · simp only [h10, dif_pos]
        have hxin : 10 ≤ x := by
          by_contra hlt
          push_neg at hlt
          have := digitSumOnce_le x
          omega
        exact ih (digitSumOnce x) (digitSumOnce_lt x hxin)
      · simp only [h10, dif_neg, not_false_iff]
        omega

/-- The structure returned by `updateAdvantageForNextRound` and consumed by
round construction needs no new type: it is `AdvantageInfo`. -/
def updateAdvantageForNextRound (round : Option GameRound) :
    Option AdvantageInfo :=
  match round with
  | none => none
  | some r =>
    if r.roundOver = false then none
    else
      match r.roundWinnerId with
      | none => none
      | some winnerId =>
        if r.roundScore ≤ 0 then none
        else
          let recipientId :=
            if winnerId = r.firstPlayerId then getOpponentId winnerId
            else winnerId
          some { playerId := recipientId,
                 digitSum := Int.ofNat (_digitSum r.roundScore) }

unseal digitSumOnce digitSumAbs in
theorem digitSum_23 : _digitSum 23 = 5 := by decide

/-- Claim C4 (confirmed): for a finished round the next-round advantage is
`none` exactly when there is no winner or the round score is ≤ 0;
otherwise it is the repeated digit sum of the score (a single decimal
digit, e.g. `digitSum 23 = 5`), granted to the winner's opponent exactly
when the winner was also the round's first mover, else to the winner. -/
theorem C4_advantage (r : GameRound) (hover : r.roundOver = true) :
    (updateAdvantageForNextRound (some r) = none ↔
      (r.roundWinnerId = none ∨ r.roundScore ≤ 0))
    ∧ (∀ w, r.roundWinnerId = some w → 0 < r.roundScore →
        updateAdvantageForNextRound (some r) =
          some { playerId := if w = r.firstPlayerId then getOpponentId w else w,
                 digitSum := Int.ofNat (_digitSum r.roundScore) })
    ∧ (∀ n : Int, _digitSum n ≤ 9)
    ∧ _digitSum 23 = 5 := by
  refine ⟨?_, ?_, fun n => digitSumAbs_le_9 n.natAbs, digitSum_23⟩
  · unfold updateAdvantageForNextRound
    simp only [hover, Bool.true_eq_false, if_false]
    rcases hw : r.roundWinnerId with _ | w
    · simp
    · simp only [Option.some.injEq]
      by_cases hs : r.roundScore ≤ 0
      · simp [hs]
      · simp [hs]
  · intro w hw hs
    unfold updateAdvantageForNextRound
    simp only [hover, Bool.true_eq_false, if_false, hw]
    rw [if_neg (by omega)]

/-! ## ComputerPlayer (`Web/Source/js/ComputerPlayer.js`, `src/unnamed/part_005`) -/

/-- The record returned by `ComputerPlayer.decideMove`. -/
structure Decision where
  action : String
  squares : List Nat
  reason : String
  allCoverOptions : List (List Nat)
  allUncoverOptions : List (List Nat)
deriving DecidableEq, Repr

/-- `_pickBestCombo(options)`: start from `options[0]`, replace on strictly
more squares, or on equal squares and strictly larger sum. -/
def _pickBestCombo (options : List (List Nat)) : List Nat :=
  match options with
  | [] => []
  | first :: rest =>
    rest.foldl
      (fun best candidate =>
        if candidate.length > best.length then candidate
        else if candidate.length = best.length ∧ candidate.sum > best.sum then
          candidate
        else best)
      first

/-- `decideMove(round, playerId, diceSum)`: no-move when both option sets
are empty; then an immediately winning cover, then an immediately winning
uncover, then the best cover, then the best uncover. -/
def decideMove (r : GameRound) (playerId : PlayerId) (diceSum : Nat) :
    Decision :=
  let coverOptions := r.getCoverOptions playerId diceSum
  let uncoverOptions := r.getUncoverOptions playerId diceSum
  if coverOptions.length = 0 ∧ uncoverOptions.length = 0 then
    { action := "none", squares := []
      reason := "No valid cover or uncover moves available for this dice sum."
      allCoverOptions := [], allUncoverOptions := [] }
  else
    let selfUncovered := (r.getBoard playerId).getUncoveredNumbers
    let oppCovered := (r.getBoard (getOpponentId playerId)).getCoveredNumbers
    match coverOptions.find? (fun combo => combo.length == selfUncovered.length) with
    | some combo =>
      { action := "cover", squares := combo
        reason := "This move COVERS all your remaining squares and wins the round immediately."
        allCoverOptions := coverOptions, allUncoverOptions := uncoverOptions }
    | none =>
      match uncoverOptions.find? (fun combo => combo.length == oppCovered.length) with
      | some combo =>
        { action := "uncover", squares := combo
          reason := "This move UNCOVERS all opponent squares and wins the round immediately."
          allCoverOptions := coverOptions, allUncoverOptions := uncoverOptions }
      | none =>
        if coverOptions.length > 0 then
          { action := "cover", squares := _pickBestCombo coverOptions
            reason := "No immediate win available. Chose to COVER own squares using the combination that makes the most progress (more / larger squares)."
            allCoverOptions := coverOptions, allUncoverOptions := uncoverOptions }
        else
          { action := "uncover", squares := _pickBestCombo uncoverOptions
            reason := "No immediate win available and no cover move. Chose to UNCOVER opponent's squares using the strongest combination (more / larger squares)."
            allCoverOptions := coverOptions, allUncoverOptions := uncoverOptions }

/-- `ComputerPlayer.chooseNumDice(board)`: one die iff squares `7..size`
are all covered. -/
def chooseNumDice (board : Board) : Nat :=
  if (List.range' 7 (board.size - 6)).all (fun i => board.coveredAt i) then 1
  else 2

/-- The claim's tie-break metric: the single highest square value in a
combination. -/
def maxSquare (l : List Nat) : Nat :=
  l.foldr max 0

/-- With equal sums the sum tie-break in `_pickBestCombo` never fires, so a
fold step keeps the earlier combination unless the candidate is strictly
longer. -/
theorem pick_step_eq (best c : List Nat) (h : c.sum = best.sum) :
    (if c.length > best.length then c
     else if c.length = best.length ∧ c.sum > best.sum then c
     else best)
    = if best.length < c.length then c else best := by
  rcases Decidable.em (best.length < c.length) with hlt | hlt
  · simp [hlt]
  · have h2 : ¬ (c.length = best.length ∧ c.sum > best.sum) := by omega
    simp [hlt, h2]

/-- The `_pickBestCombo` fold over equal-sum combinations keeps the first
combination of maximal length; any other combination of the same length
comes later in the list order `R`. -/
theorem pickBest_fold (R : List Nat → List Nat → Prop) (t : Nat) :
    ∀ (opts : List (List Nat)) (best : List Nat),
      (∀ o ∈ opts, o.sum = t) → best.sum = t →
      opts.Pairwise R → (∀ o ∈ opts, R best o) →
      letI res := opts.foldl
        (fun best candidate =>
          if candidate.length > best.length then candidate
          else if candidate.length = best.length ∧ candidate.sum > best.sum then
            candidate
          else best) best
      (res = best ∨ res ∈ opts) ∧ res.sum = t ∧
        best.length ≤ res.length ∧
        (∀ o ∈ opts, o.length ≤ res.length) ∧
        (best.length = res.length → res = best) ∧
        (∀ o ∈ opts, o.length = res.length → o = res ∨ R res o)
  | [], best, hsums, hbt, hpw, hbest => by
    refine ⟨Or.inl rfl, hbt, le_refl _, ?_, fun _ => rfl, ?_⟩ <;> simp
  | c :: rest, best, hsums, hbt, hpw, hbest => by
    have hc : c.sum = t := hsums c (List.mem_cons_self c rest)
    have hstep := pick_step_eq best c (by rw [hc, hbt])
    have hfold : (c :: rest).foldl
        (fun best candidate =>
          if candidate.length > best.length then candidate
          else if candidate.length = best.length ∧ candidate.sum > best.sum then
            candidate
          else best) best
        = rest.foldl
          (fun best candidate =>
            if candidate.length > best.length then candidate
            else if candidate.length = best.length ∧ candidate.sum > best.sum then
              candidate
            else best) (if best.length < c.length then c else best) := by
      rw [List.foldl_cons, hstep]
    rw [hfold]
    have hsums' : ∀ o ∈ rest, o.sum = t :=
      fun o ho => hsums o (List.mem_cons_of_mem c ho)
    have hpw' : rest.Pairwise R := (List.pairwise_cons.mp hpw).2
    rcases Decidable.em (best.length < c.length) with hlt | hlt
    · rw [if_pos hlt]
      have hbest' : ∀ o ∈ rest, R c o := (List.pairwise_cons.mp hpw).1
      obtain ⟨m1, m2, m3, m4, m5, m6⟩ :=
        pickBest_fold R t rest c hsums' hc hpw' hbest'
      refine ⟨?_, m2, ?_, ?_, ?_, ?_⟩
      · rcases m1 with h | h
        · exact Or.inr (by rw [h]; exact List.mem_cons_self c rest)
        · exact Or.inr (List.mem_cons_of_mem c h)
      · omega
      · intro o ho
        rcases List.mem_cons.mp ho with rfl | ho'
        · exact m3
        · exact m4 o ho'
      · intro hlen
        omega
      · intro o ho hlen
        rcases List.mem_cons.mp ho with rfl | ho'
        · exact Or.inl (m5 hlen).symm
        · exact m6 o ho' hlen
    · rw [if_neg hlt]
      have hbest' : ∀ o ∈ rest, R best o :=
        fun o ho => hbest o (List.mem_cons_of_mem c ho)
      obtain ⟨m1, m2, m3, m4, m5, m6⟩ :=
        pickBest_fold R t rest best hsums' hbt hpw' hbest'
      refine ⟨?_, m2, m3, ?_, m5, ?_⟩
      · rcases m1 with h | h
        · exact Or.inl h
        · exact Or.inr (List.mem_cons_of_mem c h)
      · intro o ho
        rcases List.mem_cons.mp ho with rfl | ho'
        · omega
        · exact m4 o ho'
      · intro o ho hlen
        rcases List.mem_cons.mp ho with rfl | ho'
        · right
          have hres : (rest.foldl _ best) = best := m5 (by omega)
          rw [hres]
          exact hbest o (List.mem_cons_self o rest)
        · exact m6 o ho' hlen

/-- A strictly sorted list that is a subset of another strictly sorted
list is a sublist of it. -/
theorem sorted_subset_sublist :
    ∀ {c l : List Nat}, l.Sorted (· < ·) → c.Sorted (· < ·) →
      (∀ x ∈ l, x ∈ c) → l.Sublist c
  | c, [], _, _, _ => List.nil_sublist c
  | [], x :: l', _, _, hsub => absurd (hsub x (List.mem_cons_self x l')) (by simp)
  | y :: c', x :: l', hl, hc, hsub => by
    rcases Decidable.em (x = y) with rfl | hxy
    · refine List.Sublist.cons₂ x (sorted_subset_sublist
        (List.pairwise_cons.mp hl).2 (List.pairwise_cons.mp hc).2 ?_)
      intro z hz
      have hzx : x < z := (List.pairwise_cons.mp hl).1 z hz
      have := hsub z (List.mem_cons_of_mem x hz)
      rcases List.mem_cons.mp this with rfl | h
      · omega
      · exact h
    · have hx : x ∈ c' := by
        have := hsub x (List.mem_cons_self x l')
        rcases List.mem_cons.mp this with rfl | h
        · exact absurd rfl hxy
        · exact h
      have hyx : y < x := (List.pairwise_cons.mp hc).1 x hx
      refine List.Sublist.cons y (sorted_subset_sublist hl
        (List.pairwise_cons.mp hc).2 ?_)
      intro z hz
      have := hsub z hz
      rcases List.mem_cons.mp this with rfl | h
      · rcases List.mem_cons.mp hz with rfl | hz'
        · exact absurd rfl hxy
        · have := (List.pairwise_cons.mp hl).1 z hz'
          omega
      · exact h

theorem maxSquare_cons (x : Nat) (xs : List Nat) :
    maxSquare (x :: xs) = max x (maxSquare xs) := rfl

/-- The arithmetic heart of the tie-break analysis: among equal-length,
equal-sum strictly ascending combinations with sum at most 12, an earlier
combination (in lexicographic order) has the larger maximum square — except
for the single pair `[1,5,6]` before `[2,3,7]` at sum 12. -/
theorem lex_max_core :
    ∀ (a b : List Nat), a.Sorted (· < ·) → b.Sorted (· < ·) →
      (∀ x ∈ a, 1 ≤ x) → (∀ x ∈ b, 1 ≤ x) → a.length = b.length →
      a.sum = b.sum → a.sum ≤ 12 → List.Lex (· < ·) a b →
      maxSquare b ≤ maxSquare a ∨ (a = [1,5,6] ∧ b = [2,3,7] ∧ a.sum = 12) := by
  intro a b hsa hsb hpa hpb hlen hsum h12 hlex
  have hb4 : b.length ≤ 4 :=
    Board.length_le_four_of_sum_lt_15 hsb hpb (by omega)
  have ha4 : a.length ≤ 4 := by omega
  match a, b with
  | [], [] => cases hlex
  | [a1], [b1] =>
    left
    cases hlex with
    | rel h => simp at hsum; omega
    | cons h => cases h
  | [a1, a2], [b1, b2] =>
    left
    have s1 : a1 < a2 := (List.pairwise_cons.mp hsa).1 a2 (by simp)
    have t1 : b1 < b2 := (List.pairwise_cons.mp hsb).1 b2 (by simp)
    simp only [List.sum_cons, List.sum_nil] at hsum h12
    simp only [maxSquare, List.foldr_cons, List.foldr_nil]
    cases hlex with
    | rel h => omega
    | cons h' =>
      cases h' with
      | rel h => omega
      | cons h => cases h
  | [a1, a2, a3], [b1, b2, b3] =>
    have s1 : a1 < a2 := (List.pairwise_cons.mp hsa).1 a2 (by simp)
    have s2 : a2 < a3 :=
      (List.pairwise_cons.mp (List.pairwise_cons.mp hsa).2).1 a3 (by simp)
    have t1 : b1 < b2 := (List.pairwise_cons.mp hsb).1 b2 (by simp)
    have t2 : b2 < b3 :=
      (List.pairwise_cons.mp (List.pairwise_cons.mp hsb).2).1 b3 (by simp)
    have p1 : 1 ≤ a1 := hpa a1 (by simp)
    have p2 : 1 ≤ b1 := hpb b1 (by simp)
    simp only [List.sum_cons, List.sum_nil] at hsum h12
    cases hlex with
    | rel h =>
      rcases Decidable.em (b3 ≤ a3) with hm | hm
      · left
        simp only [maxSquare, List.foldr_cons, List.foldr_nil]
        omega
      · right
        push_neg at hm
        have key : a1 = 1 ∧ a2 = 5 ∧ a3 = 6 ∧ b1 = 2 ∧ b2 = 3 ∧ b3 = 7 := by
          omega
        obtain ⟨k1, k2, k3, k4, k5, k6⟩ := key
        subst k1
        subst k2
        subst k3
        subst k4
        subst k5
        subst k6
        exact ⟨rfl, rfl, by decide⟩
    | cons h' =>
      left
      simp only [maxSquare, List.foldr_cons, List.foldr_nil]
      cases h' with
      | rel h => omega
      | cons h'' =>
        cases h'' with
        | rel h => omega
        | cons h => cases h
  | [a1, a2, a3, a4], [b1, b2, b3, b4] =>
    left
    have s1 : a1 < a2 := (List.pairwise_cons.mp hsa).1 a2 (by simp)
    have s2 : a2 < a3 :=
      (List.pairwise_cons.mp (List.pairwise_cons.mp hsa).2).1 a3 (by simp)
    have s3 : a3 < a4 :=
      (List.pairwise_cons.mp (List.pairwise_cons.mp (List.pairwise_cons.mp hsa).2).2).1 a4 (by simp)
    have t1 : b1 < b2 := (List.pairwise_cons.mp hsb).1 b2 (by simp)
    have t2 : b2 < b3 :=
      (List.pairwise_cons.mp (List.pairwise_cons.mp hsb).2).1 b3 (by simp)
    have t3 : b3 < b4 :=
      (List.pairwise_cons.mp (List.pairwise_cons.mp (List.pairwise_cons.mp hsb).2).2).1 b4 (by simp)
    have p1 : 1 ≤ a1 := hpa a1 (by simp)
    have p2 : 1 ≤ b1 := hpb b1 (by simp)
    simp only [List.sum_cons, List.sum_nil] at hsum h12
    simp only [maxSquare, List.foldr_cons, List.foldr_nil]
    cases hlex with
    | rel h => omega
    | cons h1 =>
      cases h1 with
      | rel h => omega
      | cons h2 =>
        cases h2 with
        | rel h => omega
        | cons h3 =>
          cases h3 with
          | rel h => omega
          | cons h => cases h
  | a1 :: a2 :: a3 :: a4 :: a5 :: arest, b =>
    exact absurd ha4 (by simp)

/-- Membership in `getUncoverOptions`: a combination of covered squares of
the targeted (opponent) board summing to the dice total, avoiding the
locked advantage square whenever the lock is active and the actor is not
the holder. -/
theorem mem_getUncoverOptions_iff (r : GameRound) (p : PlayerId) (t : Nat)
    (h1 : 1 ≤ t) (h12 : t ≤ 12) (q : List Nat) :
    q ∈ r.getUncoverOptions p t ↔
      (q.Sublist (r.getBoard (getOpponentId p)).getCoveredNumbers ∧
        q.sum = t ∧
        (∀ lock, r.advantageLock = some lock → lock.unlocked = false →
          p ≠ lock.playerId → lock.squareNumber ∉ q)) := by
  have hbase : ∀ x, x ∈ (r.getBoard (getOpponentId p)).getUncoverCombos t ↔
      x.Sublist (r.getBoard (getOpponentId p)).getCoveredNumbers ∧ x.sum = t :=
    Board.mem_getCombosForSum_iff _ t h1 h12 (Board.covered_sorted _)
      (Board.covered_pos _)
  unfold GameRound.getUncoverOptions
  cases hlk : r.advantageLock with
  | none =>
    simp only [hlk]
    rw [hbase q]
    constructor
    · rintro ⟨h1', h2'⟩
      exact ⟨h1', h2', by rintro lock hl; cases hl⟩
    · rintro ⟨h1', h2', -⟩
      exact ⟨h1', h2'⟩
  | some lock =>
    simp only
    by_cases hcond : lock.unlocked = false ∧ p ≠ lock.playerId
    · rw [if_pos hcond]
      rw [List.mem_filter]
      rw [hbase q]
      constructor
      · rintro ⟨⟨hs, hq⟩, hf⟩
        refine ⟨hs, hq, ?_⟩
        rintro lock' hl' - -
        cases hl'
        intro hmem
        rw [decide_eq_true_iff] at hf
        exact hf (by simpa [List.elem_iff] using hmem)
      · rintro ⟨hs, hq, hlock⟩
        refine ⟨⟨hs, hq⟩, ?_⟩
        rw [decide_eq_true_iff]
        intro hc
        exact hlock lock rfl hcond.1 hcond.2 (by simpa [List.elem_iff] using hc)
    · rw [if_neg hcond]
      rw [hbase q]
      constructor
      · rintro ⟨h1', h2'⟩
        refine ⟨h1', h2', ?_⟩
        rintro lock' hl' hu hp
        cases hl'
        exact absurd ⟨hu, hp⟩ hcond
      · rintro ⟨h1', h2', -⟩
        exact ⟨h1', h2'⟩

theorem getUncoverOptions_pairwise (r : GameRound) (p : PlayerId) (t : Nat)
    (h1 : 1 ≤ t) :
    (r.getUncoverOptions p t).Pairwise (fun x y => List.Lex (· < ·) x y) := by
  have hbase : ((r.getBoard (getOpponentId p)).getUncoverCombos t).Pairwise
      (fun x y => List.Lex (· < ·) x y) :=
    Board.getCombosForSum_pairwise_lex _ t h1 (Board.covered_sorted _)
      (Board.covered_pos _)
  unfold GameRound.getUncoverOptions
  cases r.advantageLock with
  | none => exact hbase
  | some lock =>
    simp only
    split
    · exact hbase.filter _
    · exact hbase

/-- The combination chosen by `_pickBestCombo` maximizes the square count
and, among equal-length options, the highest single square — given that the
option list is an equal-sum, lexicographically ordered family of ascending
combinations that is closed under recombining two options into a new
ascending combination of the same sum.  (Cover and uncover option lists
both satisfy the closure property.) -/
theorem pickBest_spec (options : List (List Nat)) (t : Nat)
    (h12 : t ≤ 12) (hne : options ≠ [])
    (hsum : ∀ o ∈ options, o.sum = t)
    (hsorted : ∀ o ∈ options, o.Sorted (· < ·))
    (hpos : ∀ o ∈ options, ∀ x ∈ o, 1 ≤ x)
    (hpw : options.Pairwise (fun x y => List.Lex (· < ·) x y))
    (hclosed : ∀ o₁ ∈ options, ∀ o₂ ∈ options, ∀ w : List Nat,
      w.Sorted (· < ·) → (∀ x ∈ w, x ∈ o₁ ∨ x ∈ o₂) → w.sum = t →
      w ∈ options) :
    _pickBestCombo options ∈ options ∧
      (∀ o ∈ options, o.length ≤ (_pickBestCombo options).length) ∧
      (∀ o ∈ options, o.length = (_pickBestCombo options).length →
        maxSquare o ≤ maxSquare (_pickBestCombo options)) := by
  match options, hne with
  | c₀ :: rest, _ =>
    have hpick : _pickBestCombo (c₀ :: rest) = rest.foldl
        (fun best candidate =>
          if candidate.length > best.length then candidate
          else if candidate.length = best.length ∧ candidate.sum > best.sum then
            candidate
          else best) c₀ := rfl
    obtain ⟨m1, m2, m3, m4, m5, m6⟩ :=
      pickBest_fold (fun x y => List.Lex (· < ·) x y) t rest c₀
        (fun o ho => hsum o (List.mem_cons_of_mem c₀ ho))
        (hsum c₀ (List.mem_cons_self c₀ rest))
        (List.pairwise_cons.mp hpw).2
        (List.pairwise_cons.mp hpw).1
    rw [hpick]
    set res := rest.foldl
        (fun best candidate =>
          if candidate.length > best.length then candidate
          else if candidate.length = best.length ∧ candidate.sum > best.sum then
            candidate
          else best) c₀ with hres
    have hresmem : res ∈ c₀ :: rest := by
      rcases m1 with h | h
      · rw [h]
        exact List.mem_cons_self c₀ rest
      · exact List.mem_cons_of_mem c₀ h
    have hbound : ∀ o ∈ c₀ :: rest, o.length ≤ res.length := by
      intro o ho
      rcases List.mem_cons.mp ho with rfl | ho'
      · exact m3
      · exact m4 o ho'
    refine ⟨hresmem, hbound, ?_⟩
    intro o ho hlen
    have horres : o = res ∨ List.Lex (· < ·) res o := by
      rcases List.mem_cons.mp ho with rfl | ho'
      · exact Or.inl (m5 hlen).symm
      · exact m6 o ho' hlen
    rcases horres with rfl | hlex
    · exact le_refl _
    · have hcore := lex_max_core res o (hsorted res hresmem) (hsorted o ho)
        (hpos res hresmem) (hpos o ho) hlen.symm
        (by rw [hsum res hresmem, hsum o ho])
        (by rw [hsum res hresmem]; omega) hlex
      rcases hcore with h | ⟨hres156, ho237, hsum12⟩
      · exact h
      · exfalso
        have ht : t = 12 := by
          have := hsum res hresmem
          omega
        have hw : ([1,2,3,6] : List Nat) ∈ c₀ :: rest := by
          refine hclosed res hresmem o ho [1,2,3,6] (by decide) ?_ (by rw [ht]; decide)
          intro x hx
          rw [hres156, ho237]
          fin_cases hx <;> decide
        have hcontr := hbound [1,2,3,6] hw
        rw [hres156] at hcontr
        simp at hcontr

/-- Claim C6 (confirmed): `decideMove` returns no move exactly when both
option sets are empty; an immediately winning cover (covering every
remaining square) is taken first, then an immediately winning uncover;
otherwise cover is preferred whenever any cover option exists; and the
chosen combination maximizes the square count with ties of equal length
broken by the single highest square value. -/
theorem C6_decide (r : GameRound) (p : PlayerId) (t : Nat)
    (h1 : 1 ≤ t) (h12 : t ≤ 12) :
    ((decideMove r p t).action = "none" ↔
      (r.getCoverOptions p t = [] ∧ r.getUncoverOptions p t = []))
    ∧ ((∃ c ∈ r.getCoverOptions p t,
          c.length = (r.getBoard p).getUncoveredNumbers.length) →
        (decideMove r p t).action = "cover" ∧
          (decideMove r p t).squares ∈ r.getCoverOptions p t ∧
          (decideMove r p t).squares.length =
            (r.getBoard p).getUncoveredNumbers.length)
    ∧ ((¬ ∃ c ∈ r.getCoverOptions p t,
          c.length = (r.getBoard p).getUncoveredNumbers.length) →
        (∃ u ∈ r.getUncoverOptions p t,
          u.length = (r.getBoard (getOpponentId p)).getCoveredNumbers.length) →
        (decideMove r p t).action = "uncover")
    ∧ ((¬ ∃ u ∈ r.getUncoverOptions p t,
          u.length = (r.getBoard (getOpponentId p)).getCoveredNumbers.length) →
        r.getCoverOptions p t ≠ [] → (decideMove r p t).action = "cover")
    ∧ (r.getCoverOptions p t = [] → r.getUncoverOptions p t ≠ [] →
        (decideMove r p t).action = "uncover")
    ∧ ((decideMove r p t).action = "cover" →
        (decideMove r p t).squares ∈ r.getCoverOptions p t ∧
        ∀ o ∈ r.getCoverOptions p t,
          o.length ≤ (decideMove r p t).squares.length ∧
          (o.length = (decideMove r p t).squares.length →
            maxSquare o ≤ maxSquare (decideMove r p t).squares))
    ∧ ((decideMove r p t).action = "uncover" →
        (decideMove r p t).squares ∈ r.getUncoverOptions p t ∧
        ∀ o ∈ r.getUncoverOptions p t,
          o.length ≤ (decideMove r p t).squares.length ∧
          (o.length = (decideMove r p t).squares.length →
            maxSquare o ≤ maxSquare (decideMove r p t).squares)) := by
  have hcoIff : ∀ q, q ∈ r.getCoverOptions p t ↔
      q.Sublist (r.getBoard p).getUncoveredNumbers ∧ q.sum = t := fun q =>
    Board.mem_getCombosForSum_iff _ t h1 h12 (Board.uncovered_sorted _)
      (Board.uncovered_pos _) q
  have huoIff : ∀ q, q ∈ r.getUncoverOptions p t ↔
      (q.Sublist (r.getBoard (getOpponentId p)).getCoveredNumbers ∧
        q.sum = t ∧
        (∀ lock, r.advantageLock = some lock → lock.unlocked = false →
          p ≠ lock.playerId → lock.squareNumber ∉ q)) := fun q =>
    mem_getUncoverOptions_iff r p t h1 h12 q
  have hcoPick : r.getCoverOptions p t ≠ [] →
      _pickBestCombo (r.getCoverOptions p t) ∈ r.getCoverOptions p t ∧
        (∀ o ∈ r.getCoverOptions p t,
          o.length ≤ (_pickBestCombo (r.getCoverOptions p t)).length) ∧
        (∀ o ∈ r.getCoverOptions p t,
          o.length = (_pickBestCombo (r.getCoverOptions p t)).length →
          maxSquare o ≤ maxSquare (_pickBestCombo (r.getCoverOptions p t))) := by
    intro hne
    refine pickBest_spec _ t h12 hne ?_ ?_ ?_ ?_ ?_
    · exact fun o ho => ((hcoIff o).mp ho).2
    · intro o ho
      exact List.Pairwise.sublist ((hcoIff o).mp ho).1 (Board.uncovered_sorted _)
    · intro o ho x hx
      exact Board.uncovered_pos _ x (((hcoIff o).mp ho).1.subset hx)
    · exact Board.getCombosForSum_pairwise_lex _ t h1 (Board.uncovered_sorted _)
        (Board.uncovered_pos _)
    · intro o₁ h₁ o₂ h₂ w hws hwsub hwsum
      refine (hcoIff w).mpr ⟨?_, hwsum⟩
      refine sorted_subset_sublist hws (Board.uncovered_sorted _) ?_
      intro x hx
      rcases hwsub x hx with h | h
      · exact ((hcoIff o₁).mp h₁).1.subset h
      · exact ((hcoIff o₂).mp h₂).1.subset h
  have huoPick : r.getUncoverOptions p t ≠ [] →
      _pickBestCombo (r.getUncoverOptions p t) ∈ r.getUncoverOptions p t ∧
        (∀ o ∈ r.getUncoverOptions p t,
          o.length ≤ (_pickBestCombo (r.getUncoverOptions p t)).length) ∧
        (∀ o ∈ r.getUncoverOptions p t,
          o.length = (_pickBestCombo (r.getUncoverOptions p t)).length →
          maxSquare o ≤ maxSquare (_pickBestCombo (r.getUncoverOptions p t))) := by
    intro hne
    refine pickBest_spec _ t h12 hne ?_ ?_ ?_ ?_ ?_
    · exact fun o ho => ((huoIff o).mp ho).2.1
    · intro o ho
      exact List.Pairwise.sublist ((huoIff o).mp ho).1 (Board.covered_sorted _)
    · intro o ho x hx
      exact Board.covered_pos _ x (((huoIff o).mp ho).1.subset hx)
    · exact getUncoverOptions_pairwise r p t h1
    · intro o₁ h₁ o₂ h₂ w hws hwsub hwsum
      refine (huoIff w).mpr ⟨?_, hwsum, ?_⟩
      · refine sorted_subset_sublist hws (Board.covered_sorted _) ?_
        intro x hx
        rcases hwsub x hx with h | h
        · exact ((huoIff o₁).mp h₁).1.subset h
        · exact ((huoIff o₂).mp h₂).1.subset h
      · intro lock hl hu hp hmem
        rcases hwsub lock.squareNumber hmem with h | h
        · exact ((huoIff o₁).mp h₁).2.2 lock hl hu hp h
        · exact ((huoIff o₂).mp h₂).2.2 lock hl hu hp h
  by_cases hempty : (r.getCoverOptions p t).length = 0 ∧
      (r.getUncoverOptions p t).length = 0
  · have hd : decideMove r p t =
        { action := "none", squares := []
          reason := "No valid cover or uncover moves available for this dice sum."
          allCoverOptions := [], allUncoverOptions := [] } := by
      unfold decideMove
      rw [if_pos hempty]
    have hco : r.getCoverOptions p t = [] := List.length_eq_zero.mp hempty.1
    have huo : r.getUncoverOptions p t = [] := List.length_eq_zero.mp hempty.2
    rw [hd]
    refine ⟨⟨fun _ => ⟨hco, huo⟩, fun _ => rfl⟩, ?_, ?_, ?_, ?_, ?_, ?_⟩
    · rintro ⟨c, hc, -⟩
      rw [hco] at hc
      cases hc
    · intro hnc hex
      obtain ⟨u, hu, -⟩ := hex
      rw [huo] at hu
      cases hu
    · intro hnu hne
      exact absurd hco hne
    · intro hc hne
      exact absurd huo hne
    · intro h
      exact absurd (show ("none" : String) = "cover" from h) (by decide)
    · intro h
      exact absurd (show ("none" : String) = "uncover" from h) (by decide)
  · have hdm : decideMove r p t =
        (match (r.getCoverOptions p t).find?
            (fun combo => combo.length == (r.getBoard p).getUncoveredNumbers.length) with
        | some combo =>
          { action := "cover", squares := combo
            reason := "This move COVERS all your remaining squares and wins the round immediately."
            allCoverOptions := r.getCoverOptions p t
            allUncoverOptions := r.getUncoverOptions p t }
        | none =>
          match (r.getUncoverOptions p t).find?
              (fun combo => combo.length ==
                (r.getBoard (getOpponentId p)).getCoveredNumbers.length) with
          | some combo =>
            { action := "uncover", squares := combo
              reason := "This move UNCOVERS all opponent squares and wins the round immediately."
              allCoverOptions := r.getCoverOptions p t
              allUncoverOptions := r.getUncoverOptions p t }
          | none =>
            if (r.getCoverOptions p t).length > 0 then
              { action := "cover", squares := _pickBestCombo (r.getCoverOptions p t)
                reason := "No immediate win available. Chose to COVER own squares using the combination that makes the most progress (more / larger squares)."
                allCoverOptions := r.getCoverOptions p t
                allUncoverOptions := r.getUncoverOptions p t }
            else
              { action := "uncover", squares := _pickBestCombo (r.getUncoverOptions p t)
                reason := "No immediate win available and no cover move. Chose to UNCOVER opponent's squares using the strongest combination (more / larger squares)."
                allCoverOptions := r.getCoverOptions p t
                allUncoverOptions := r.getUncoverOptions p t }) := by
      unfold decideMove
      rw [if_neg hempty]
    rcases hfc : (r.getCoverOptions p t).find?
        (fun combo => combo.length == (r.getBoard p).getUncoveredNumbers.length)
      with _ | w
    · rcases hfu : (r.getUncoverOptions p t).find?
          (fun combo => combo.length ==
            (r.getBoard (getOpponentId p)).getCoveredNumbers.length)
        with _ | w
      · by_cases hcne : (r.getCoverOptions p t).length > 0
        · have hd : decideMove r p t =
              { action := "cover", squares := _pickBestCombo (r.getCoverOptions p t)
                reason := "No immediate win available. Chose to COVER own squares using the combination that makes the most progress (more / larger squares)."
                allCoverOptions := r.getCoverOptions p t
                allUncoverOptions := r.getUncoverOptions p t } := by
            rw [hdm, hfc, hfu, if_pos hcne]
          have hcols : r.getCoverOptions p t ≠ [] := by
            intro h
            rw [h] at hcne
            simp at hcne
          obtain ⟨pk1, pk2, pk3⟩ := hcoPick hcols
          rw [hd]
          refine ⟨⟨fun h => absurd (show ("cover" : String) = "none" from h)
              (by decide), fun h => absurd h.1 hcols⟩,
            ?_, ?_, ?_, ?_, ?_, ?_⟩
          · rintro ⟨c, hc, hcl⟩
            have := List.find?_eq_none.mp hfc c hc
            simp [hcl] at this
          · intro hnc hex
            obtain ⟨u, hu, hul⟩ := hex
            have := List.find?_eq_none.mp hfu u hu
            simp [hul] at this
          · intro hnu hne
            rfl
          · intro hc hnu
            exact absurd hc hcols
          · intro h
            exact ⟨pk1, fun o ho => ⟨pk2 o ho, pk3 o ho⟩⟩
          · intro h
            exact absurd (show ("cover" : String) = "uncover" from h) (by decide)
        · have hd : decideMove r p t =
              { action := "uncover", squares := _pickBestCombo (r.getUncoverOptions p t)
                reason := "No immediate win available and no cover move. Chose to UNCOVER opponent's squares using the strongest combination (more / larger squares)."
                allCoverOptions := r.getCoverOptions p t
                allUncoverOptions := r.getUncoverOptions p t } := by
            rw [hdm, hfc, hfu, if_neg hcne]
          have hco : r.getCoverOptions p t = [] := by
            rcases hl : r.getCoverOptions p t with _ | ⟨a, as⟩
            · rfl
            · rw [hl] at hcne
              simp at hcne
          have huols : r.getUncoverOptions p t ≠ [] := by
            intro h
            exact hempty ⟨by rw [hco]; rfl, by rw [h]; rfl⟩
          obtain ⟨pk1, pk2, pk3⟩ := huoPick huols
          rw [hd]
          refine ⟨⟨fun h => absurd (show ("uncover" : String) = "none" from h)
              (by decide), fun h => absurd h.2 huols⟩,
            ?_, ?_, ?_, ?_, ?_, ?_⟩
          · rintro ⟨c, hc, -⟩
            rw [hco] at hc
            cases hc
          · intro hnc hex
            rfl
          · intro hnu hne
            exact absurd hco hne
          · intro hc hne
            rfl
          · intro h
            exact absurd (show ("uncover" : String) = "cover" from h) (by decide)
          · intro h
            exact ⟨pk1, fun o ho => ⟨pk2 o ho, pk3 o ho⟩⟩
      · have hd : decideMove r p t =
            { action := "uncover", squares := w
              reason := "This move UNCOVERS all opponent squares and wins the round immediately."
              allCoverOptions := r.getCoverOptions p t
              allUncoverOptions := r.getUncoverOptions p t } := by
          rw [hdm, hfc, hfu]
        have hwmem : w ∈ r.getUncoverOptions p t :=
          List.mem_of_find?_eq_some hfu
        have hwlen : w.length =
            (r.getBoard (getOpponentId p)).getCoveredNumbers.length := by
          have := List.find?_some hfu
          simpa using this
        have hweq : w = (r.getBoard (getOpponentId p)).getCoveredNumbers :=
          List.Sublist.eq_of_length ((huoIff w).mp hwmem).1 hwlen
        have huols : r.getUncoverOptions p t ≠ [] := by
          intro h
          rw [h] at hwmem
          cases hwmem
        rw [hd]
        refine ⟨⟨fun h => absurd (show ("uncover" : String) = "none" from h)
            (by decide), fun h => absurd h.2 huols⟩,
          ?_, ?_, ?_, ?_, ?_, ?_⟩
        · rintro ⟨c, hc, hcl⟩
          have := List.find?_eq_none.mp hfc c hc
          simp [hcl] at this
        · intro hnc hex
          rfl
        · intro hnu hne
          exact absurd ⟨w, hwmem, hwlen⟩ hnu
        · intro hc hne
          rfl
        · intro h
          exact absurd (show ("uncover" : String) = "cover" from h) (by decide)
        · intro h
          refine ⟨hwmem, ?_⟩
          intro o ho
          have hosub := ((huoIff o).mp ho).1
          have holen : o.length ≤ w.length := by
            rw [hwlen]
            exact hosub.length_le
          refine ⟨holen, ?_⟩
          intro heq
          have hoeq : o = (r.getBoard (getOpponentId p)).getCoveredNumbers :=
            List.Sublist.eq_of_length hosub (by rw [← hwlen, heq])
          rw [hoeq, ← hweq]
    · have hd : decideMove r p t =
          { action := "cover", squares := w
            reason := "This move COVERS all your remaining squares and wins the round immediately."
            allCoverOptions := r.getCoverOptions p t
            allUncoverOptions := r.getUncoverOptions p t } := by
        rw [hdm, hfc]
      have hwmem : w ∈ r.getCoverOptions p t :=
        List.mem_of_find?_eq_some hfc
      have hwlen : w.length = (r.getBoard p).getUncoveredNumbers.length := by
        have := List.find?_some hfc
        simpa using this
      have hweq : w = (r.getBoard p).getUncoveredNumbers :=
        List.Sublist.eq_of_length ((hcoIff w).mp hwmem).1 hwlen
      have hcols : r.getCoverOptions p t ≠ [] := by
        intro h
        rw [h] at hwmem
        cases hwmem
      rw [hd]
      refine ⟨⟨fun h => absurd (show ("cover" : String) = "none" from h)
          (by decide), fun h => absurd h.1 hcols⟩,
        ?_, ?_, ?_, ?_, ?_, ?_⟩
      · intro hex
        exact ⟨rfl, hwmem, hwlen⟩
      · intro hnc hex
        exact absurd ⟨w, hwmem, hwlen⟩ hnc
      · intro hnu hne
        rfl
      · intro hc hne
        exact absurd hc hcols
      · intro h
        refine ⟨hwmem, ?_⟩
        intro o ho
        have hosub := ((hcoIff o).mp ho).1
        have holen : o.length ≤ w.length := by
          rw [hwlen]
          exact hosub.length_le
        refine ⟨holen, ?_⟩
        intro heq
        have hoeq : o = (r.getBoard p).getUncoveredNumbers :=
          List.Sublist.eq_of_length hosub (by rw [← hwlen, heq])
        rw [hoeq, ← hweq]
      · intro h
        exact absurd (show ("cover" : String) = "uncover" from h) (by decide)

unseal List.merge List.mergeSort in
/-- Witness for C6 at a concrete state: with dice total 7 on the advantage
round, the computer-strategy move for the human is a cover. -/
theorem C6_witness : (decideMove lockedRound .HUMAN 7).action = "cover" :=
  (C6_decide lockedRound .HUMAN 7 (by decide) (by decide)).2.2.2.1
    (by decide) (by decide)

/-- A concrete finished round: HUMAN won with score 23 while also having
moved first. -/
def finishedRound : GameRound :=
  { lockedRound with
      roundOver := true
      roundWinnerId := some .HUMAN
      firstPlayerId := .HUMAN
      roundScore := 23 }

/-- Witness for C4: the advantage square is `digitSum 23 = 5` and goes to
the winner's opponent because the winner moved first. -/
theorem C4_witness :
    updateAdvantageForNextRound (some finishedRound) =
      some { playerId := .COMPUTER, digitSum := 5 } := by
  have h := (C4_advantage finishedRound rfl).2.1 .HUMAN rfl (by decide)
  have h2 : finishedRound.roundScore = (23 : Int) := rfl
  have h3 : finishedRound.firstPlayerId = .HUMAN := rfl
  rw [h2, h3] at h
  rw [h, digitSum_23]
  rfl

/-! ## Backend engine (`JS/backend/models/Game.js`)

The backend `Board` class (`src/unnamed/part_000`, CommonJS
`module.exports = Board`) stores its state as `squares`, an array of
numbers where a covered square holds `0` and an uncovered square holds its
own 1-based index; `Game.isGameOver` only consults its `allCovered()` and
`allUncovered()` predicates.  The backend player record is
`src/Web/backend/models/Player.js`. -/

/-- The backend `Board` of `src/unnamed/part_000`: `this.squares` holds
`0` for a covered square and the square's own number otherwise (the
`size`/`game`/`tournament` fields play no part in the two predicates used
here). -/
structure BackendBoard where
  squares : List Nat
deriving DecidableEq, Repr

/-- `Board.allCovered()`: `this.squares.every((square) => square === 0)`. -/
def BackendBoard.allCovered (b : BackendBoard) : Bool :=
  b.squares.all (fun sq => sq == 0)

/-- `Board.allUncovered()`:
`this.squares.every((square) => square !== 0)`. -/
def BackendBoard.allUncovered (b : BackendBoard) : Bool :=
  b.squares.all (fun sq => sq != 0)

/-- The backend `Player` of `src/Web/backend/models/Player.js`: a board, a
score, and the `hasFirstTurnBeenPlayed` flag (the `tournament` reference
is irrelevant to `isGameOver` and omitted). -/
structure BackendPlayer where
  board : BackendBoard
  score : Int
  hasFirstTurnBeenPlayed : Bool
deriving DecidableEq, Repr

structure BackendGame where
  player1 : BackendPlayer
  player2 : BackendPlayer
deriving DecidableEq, Repr

/-- `Game.isGameOver()` from `JS/backend/models/Game.js`: no winner is ever
reported before both players have played their first turn (the `gameOver`
flag assignment is omitted; only the return value matters here). -/
def BackendGame.isGameOver (g : BackendGame) : Option String :=
  if ¬ g.player1.hasFirstTurnBeenPlayed ∨ ¬ g.player2.hasFirstTurnBeenPlayed then
    none
  else if g.player1.board.allCovered then some "player1"
  else if g.player2.board.allUncovered then some "player1"
  else if g.player2.board.allCovered then some "player2"
  else if g.player1.board.allUncovered then some "player2"
  else none

/-! ## Reachable round states of the web engine

The driver protocol of the spec (§4.2 / `GameSession`): per turn, a roll
(two dice, totals 2–12), then either applying one combination chosen from
the current legal options, or nothing when no options exist; the turn then
ends (`notifyTurnEnded` + `switchTurn`) unless the round is already over.
Ghost counters record how many turns each player has completed. -/

structure RoundExt where
  round : GameRound
  humanTurns : Nat
  computerTurns : Nat
deriving DecidableEq, Repr

/-- Ghost bookkeeping: the player completed one more turn. -/
def bumpTurns (s : RoundExt) : PlayerId → RoundExt
  | .HUMAN => { s with humanTurns := s.humanTurns + 1 }
  | .COMPUTER => { s with computerTurns := s.computerTurns + 1 }

/-- `GameSession.endTurn`: notify the round that the current player's turn
ended; if the round is not over, switch the turn. -/
def endTurnStep (s : RoundExt) : RoundExt :=
  let p := s.round.currentPlayerId
  let r1 := s.round.notifyTurnEnded p
  let s1 := bumpTurns { s with round := r1 } p
  if r1.roundOver then s1
  else { s1 with round := r1.switchTurn }

/-- A move is applied; if it wins the round the driver stops (the round is
frozen before the mover's turn formally completes), otherwise the turn
ends. -/
def afterMove (s : RoundExt) (r' : GameRound) : RoundExt :=
  if r'.roundOver then { s with round := r' }
  else endTurnStep { s with round := r' }

def coverStep (s : RoundExt) (m : List Nat) : RoundExt :=
  afterMove s (s.round.applyCoverMove s.round.currentPlayerId m).1

def uncoverStep (s : RoundExt) (m : List Nat) : RoundExt :=
  afterMove s (s.round.applyUncoverMove s.round.currentPlayerId m).1

/-- Round states reachable through the driver protocol: a first round with
no advantage, later rounds seeded by `updateAdvantageForNextRound`, and
turns made of legal cover moves, legal uncover moves, or no-move passes. -/
inductive Reachable : RoundExt → Prop where
  | start : ∀ (boardSize : Nat) (first : PlayerId),
      9 ≤ boardSize → boardSize ≤ 11 →
      Reachable ⟨GameRound.mkGameRound boardSize 0 0 first none, 0, 0⟩
  | nextRound : ∀ (s : RoundExt) (boardSize : Nat) (first : PlayerId),
      Reachable s → s.round.roundOver = true →
      9 ≤ boardSize → boardSize ≤ 11 →
      Reachable ⟨GameRound.mkGameRound boardSize
        s.round.humanTotalScore s.round.computerTotalScore first
        (updateAdvantageForNextRound (some s.round)), 0, 0⟩
  | coverMove : ∀ (s : RoundExt) (t : Nat) (m : List Nat),
      Reachable s → s.round.roundOver = false →
      2 ≤ t → t ≤ 12 →
      m ∈ s.round.getCoverOptions s.round.currentPlayerId t →
      Reachable (coverStep s m)
  | uncoverMove : ∀ (s : RoundExt) (t : Nat) (m : List Nat),
      Reachable s → s.round.roundOver = false →
      2 ≤ t → t ≤ 12 →
      m ∈ s.round.getUncoverOptions s.round.currentPlayerId t →
      Reachable (uncoverStep s m)
  | noMove : ∀ (s : RoundExt) (t : Nat),
      Reachable s → s.round.roundOver = false →
      2 ≤ t → t ≤ 12 →
      s.round.getCoverOptions s.round.currentPlayerId t = [] →
      s.round.getUncoverOptions s.round.currentPlayerId t = [] →
      Reachable (endTurnStep s)

/-! A concrete reachable play: round 1 is won by the COMPUTER (who moved
first) with round score 2, so round 2 gives HUMAN a pre-covered, locked
advantage on square 2.  HUMAN (moving first) rolls 2 and has no legal move;
that no-move turn already unlocks the advantage (the holder's own turn
ended).  COMPUTER then rolls 2 and uncovers square 2, emptying HUMAN's
board — the round ends although COMPUTER has completed zero turns. -/

def c2s0 : RoundExt := ⟨GameRound.mkGameRound 9 0 0 .COMPUTER none, 0, 0⟩
def c2s1 : RoundExt := coverStep c2s0 [1,2,4]
def c2s2 : RoundExt := coverStep c2s1 [3,4]
def c2s3 : RoundExt := coverStep c2s2 [3,5]
def c2s4 : RoundExt := coverStep c2s3 [5,7]
def c2s5 : RoundExt := coverStep c2s4 [6]
def c2s6 : RoundExt := coverStep c2s5 [1,8]
def c2s7 : RoundExt := coverStep c2s6 [7]
def c2s8 : RoundExt := coverStep c2s7 [6]
def c2s9 : RoundExt := coverStep c2s8 [8]
def c2s10 : RoundExt := coverStep c2s9 [9]
def c2s11 : RoundExt := coverStep c2s10 [9]
def c2s12 : RoundExt :=
  ⟨GameRound.mkGameRound 9 c2s11.round.humanTotalScore
    c2s11.round.computerTotalScore .HUMAN
    (updateAdvantageForNextRound (some c2s11.round)), 0, 0⟩
def c2s13 : RoundExt := endTurnStep c2s12
def c2final : RoundExt := uncoverStep c2s13 [2]

set_option maxRecDepth 100000 in
unseal List.merge List.mergeSort digitSumOnce digitSumAbs in
/-- Claim C2, counterexample: a reachable web-engine round state in which
the COMPUTER has completed zero turns this round, yet the round-end check
has already declared the COMPUTER the winner (`GameRound._checkForRoundEnd`
has no "both players have taken a turn" gate; only the `everCovered` flags,
which a carried-over advantage pre-sets). -/
theorem C2_counterexample :
    Reachable c2final ∧ c2final.computerTurns = 0 ∧
      c2final.round.roundOver = true ∧
      c2final.round.roundWinnerId = some .COMPUTER := by
  refine ⟨?_, by decide, by decide, by decide⟩
  have h0 : Reachable c2s0 := Reachable.start 9 .COMPUTER (by decide) (by decide)
  have h1 : Reachable c2s1 :=
    Reachable.coverMove c2s0 7 [1,2,4] h0 (by decide) (by decide) (by decide)
      (by decide)
  have h2 : Reachable c2s2 :=
    Reachable.coverMove c2s1 7 [3,4] h1 (by decide) (by decide) (by decide)
      (by decide)
  have h3 : Reachable c2s3 :=
    Reachable.coverMove c2s2 8 [3,5] h2 (by decide) (by decide) (by decide)
      (by decide)
  have h4 : Reachable c2s4 :=
    Reachable.coverMove c2s3 12 [5,7] h3 (by decide) (by decide) (by decide)
      (by decide)
  have h5 : Reachable c2s5 :=
    Reachable.coverMove c2s4 6 [6] h4 (by decide) (by decide) (by decide)
      (by decide)
  have h6 : Reachable c2s6 :=
    Reachable.coverMove c2s5 9 [1,8] h5 (by decide) (by decide) (by decide)
      (by decide)
  have h7 : Reachable c2s7 :=
    Reachable.coverMove c2s6 7 [7] h6 (by decide) (by decide) (by decide)
      (by decide)
  have h8 : Reachable c2s8 :=
    Reachable.coverMove c2s7 6 [6] h7 (by decide) (by decide) (by decide)
      (by decide)
  have h9 : Reachable c2s9 :=
    Reachable.coverMove c2s8 8 [8] h8 (by decide) (by decide) (by decide)
      (by decide)
  have h10 : Reachable c2s10 :=
    Reachable.coverMove c2s9 9 [9] h9 (by decide) (by decide) (by decide)
      (by decide)
  have h11 : Reachable c2s11 :=
    Reachable.coverMove c2s10 9 [9] h10 (by decide) (by decide) (by decide)
      (by decide)
  have h12 : Reachable c2s12 :=
    Reachable.nextRound c2s11 9 .HUMAN h11 (by decide) (by decide) (by decide)
  have h13 : Reachable c2s13 :=
    Reachable.noMove c2s12 2 h12 (by decide) (by decide) (by decide)
      (by decide) (by decide)
  exact Reachable.uncoverMove c2s13 2 [2] h13 (by decide) (by decide)
    (by decide) (by decide)

theorem coveredAt_mkBoard (size i : Nat) : (mkBoard size).coveredAt i = false := by
  unfold mkBoard Board.coveredAt
  simp only
  rw [List.getD_eq_getElem?_getD, List.getElem?_replicate]
  rcases Decidable.em (i < size + 1) with h | h <;> simp [h]

theorem mkBoard_areAllCovered (size : Nat) (h : 1 ≤ size) :
    (mkBoard size).areAllCovered = false := by
  have hms : (mkBoard size).size = size := rfl
  have h1 : (1 : Nat) ∈ (mkBoard size).getUncoveredNumbers := by
    unfold Board.getUncoveredNumbers
    rw [List.mem_filter]
    constructor
    · refine List.mem_range'_1.mpr ?_
      rw [hms]
      omega
    · rw [decide_eq_true_iff, coveredAt_mkBoard]
      simp
  unfold Board.areAllCovered
  rw [beq_eq_false_iff_ne]
  intro hlen
  exact List.ne_nil_of_mem h1 (List.length_eq_zero.mp hlen)

theorem oneCovered_areAllCovered (size k : Nat) (h2 : 2 ≤ size)
    (hk1 : 1 ≤ k) (hks : size ≥ k) :
    (((mkBoard size).coverSquaresTrace [k]).1).areAllCovered = false := by
  obtain ⟨-, hsz', hpt⟩ := Board.coverSquaresTrace_ok (mkBoard size) [k]
    (by simp [mkBoard]) (by simp)
    (by
      intro n hn
      simp at hn
      subst hn
      refine ⟨?_, coveredAt_mkBoard size _⟩
      unfold Board.validSquare mkBoard
      simp
      omega)
  set b' := ((mkBoard size).coverSquaresTrace [k]).1
  have hbsz : b'.size = size := hsz'.trans rfl
  have hi : (if k = 1 then 2 else 1) ∈ b'.getUncoveredNumbers := by
    unfold Board.getUncoveredNumbers
    rw [List.mem_filter]
    constructor
    · refine List.mem_range'_1.mpr ?_
      rw [hbsz]
      rcases Decidable.em (k = 1) with h | h <;> simp [h] <;> omega
    · rw [decide_eq_true_iff, hpt, coveredAt_mkBoard]
      have hne : ([k].contains (if k = 1 then 2 else 1)) = false := by
        rcases Decidable.em (k = 1) with h | h <;> simp [h] <;> omega
      rw [hne]
      simp
  unfold Board.areAllCovered
  rw [beq_eq_false_iff_ne]
  intro hlen
  exact List.ne_nil_of_mem hi (List.length_eq_zero.mp hlen)

/-- If neither board is fully covered and each `everCovered` flag implies a
nonzero covered count on the same board, the round-end check changes
nothing. -/
theorem check_no_win (r : GameRound)
    (h1 : r.humanBoard.areAllCovered = false)
    (h2 : r.computerBoard.areAllCovered = false)
    (h3 : r.humanEverCovered = true → r.humanBoard.getCoveredNumbers.length ≠ 0)
    (h4 : r.computerEverCovered = true →
      r.computerBoard.getCoveredNumbers.length ≠ 0) :
    r._checkForRoundEnd = r := by
  unfold GameRound._checkForRoundEnd
  simp only [h1, h2, Bool.false_eq_true, if_false]
  have hc3 : ¬ (r.computerBoard.getCoveredNumbers.length = 0 ∧
      r._hadAnyCovered .COMPUTER = true) := by
    rintro ⟨hz, hflag⟩
    exact h4 hflag hz
  have hc4 : ¬ (r.humanBoard.getCoveredNumbers.length = 0 ∧
      r._hadAnyCovered .HUMAN = true) := by
    rintro ⟨hz, hflag⟩
    exact h3 hflag hz
  rw [if_neg hc3, if_neg hc4]

theorem applyAdv_none (r : GameRound) (h : r.advantageInfo = none) :
    r._applyAdvantageIfAny = r := by
  unfold GameRound._applyAdvantageIfAny
  rw [h]

theorem applyAdv_skip (r : GameRound) (info : AdvantageInfo)
    (h : r.advantageInfo = some info)
    (hout : info.digitSum < 1 ∨ info.digitSum > (r.boardSize : Int)) :
    r._applyAdvantageIfAny = r := by
  unfold GameRound._applyAdvantageIfAny
  rw [h]
  simp only [hout, if_true]

theorem applyAdv_apply (r : GameRound) (info : AdvantageInfo)
    (h : r.advantageInfo = some info)
    (hin : ¬ (info.digitSum < 1 ∨ info.digitSum > (r.boardSize : Int))) :
    r._applyAdvantageIfAny =
      { (r.setBoard info.playerId
          ((r.getBoard info.playerId).coverSquaresTrace
            [info.digitSum.toNat]).1) with
        advantageLock :=
          some (AdvantageLock.mk info.playerId info.digitSum.toNat false) } := by
  unfold GameRound._applyAdvantageIfAny
  rw [h]
  simp only [hin, if_false]

/-- Claim C2 (amended): at the start of any round the web round-end check
declares no winner (a fresh board's fully-uncovered win shape is gated by
the `everCovered` flags), and the backend `isGameOver` never reports a
winner before both players have played a first turn.  The web check,
however, has no both-players gate: a winner can be declared while a player
has completed zero turns this round (see the counterexample). -/
theorem C2_roundend_amended :
    (∀ (boardSize : Nat) (hts cts : Int) (first : PlayerId)
        (adv : Option AdvantageInfo), 2 ≤ boardSize →
      (GameRound.mkGameRound boardSize hts cts first adv).roundOver = false ∧
      (GameRound.mkGameRound boardSize hts cts first adv)._checkForRoundEnd =
        GameRound.mkGameRound boardSize hts cts first adv)
    ∧ (∀ g : BackendGame,
        (g.player1.hasFirstTurnBeenPlayed = false ∨
          g.player2.hasFirstTurnBeenPlayed = false) →
        g.isGameOver = none) := by
  constructor
  · intro boardSize hts cts first adv hsz
    have hbase : ∀ (r0 : GameRound), r0.humanBoard.areAllCovered = false →
        r0.computerBoard.areAllCovered = false →
        r0.roundOver = false →
        letI r := { r0 with
          humanEverCovered := r0.humanBoard.getCoveredNumbers.length > 0
          computerEverCovered := r0.computerBoard.getCoveredNumbers.length > 0 }
        r.roundOver = false ∧ r._checkForRoundEnd = r := by
      intro r0 hh hc hro
      refine ⟨hro, ?_⟩
      apply check_no_win
      · exact hh
      · exact hc
      · intro hflag
        show r0.humanBoard.getCoveredNumbers.length ≠ 0
        have h' : 0 < r0.humanBoard.getCoveredNumbers.length :=
          of_decide_eq_true hflag
        omega
      · intro hflag
        show r0.computerBoard.getCoveredNumbers.length ≠ 0
        have h' : 0 < r0.computerBoard.getCoveredNumbers.length :=
          of_decide_eq_true hflag
        omega
    show letI base : GameRound :=
        ⟨boardSize, mkBoard boardSize, mkBoard boardSize, hts, cts, first,
          first, adv, none, false, none, none, 0, false, false⟩
      letI r0 := base._applyAdvantageIfAny
      letI r := { r0 with
        humanEverCovered := r0.humanBoard.getCoveredNumbers.length > 0
        computerEverCovered := r0.computerBoard.getCoveredNumbers.length > 0 }
      r.roundOver = false ∧ r._checkForRoundEnd = r
    set base : GameRound :=
      ⟨boardSize, mkBoard boardSize, mkBoard boardSize, hts, cts, first,
        first, adv, none, false, none, none, 0, false, false⟩ with hbasedef
    rcases adv with _ | ⟨pid, ds⟩
    · rw [applyAdv_none base rfl]
      exact hbase base (mkBoard_areAllCovered _ (by omega))
        (mkBoard_areAllCovered _ (by omega)) rfl
    · by_cases hrange : ds < 1 ∨ ds > (boardSize : Int)
      · rw [applyAdv_skip base ⟨pid, ds⟩ rfl (by simpa using hrange)]
        exact hbase base (mkBoard_areAllCovered _ (by omega))
          (mkBoard_areAllCovered _ (by omega)) rfl
      · rw [applyAdv_apply base ⟨pid, ds⟩ rfl (by simpa using hrange)]
        have hds1 : 1 ≤ ds.toNat := by omega
        have hds2 : boardSize ≥ ds.toNat := by omega
        cases pid with
        | HUMAN =>
          exact hbase _
            (oneCovered_areAllCovered boardSize ds.toNat hsz hds1 hds2)
            (mkBoard_areAllCovered _ (by omega)) rfl
        | COMPUTER =>
          exact hbase _ (mkBoard_areAllCovered _ (by omega))
            (oneCovered_areAllCovered boardSize ds.toNat hsz hds1 hds2) rfl
  · intro g h
    unfold BackendGame.isGameOver
    rcases h with h | h <;> simp [h]

/-- Witness for C2 (amended): a size-9 round that starts with HUMAN's
square 2 pre-covered declares no winner, and a backend game whose second
board is fully uncovered (a win shape) reports no winner because player 1
has not had a first turn. -/
theorem C2_witness :
    (GameRound.mkGameRound 9 0 0 .HUMAN
        (some ⟨.HUMAN, 2⟩))._checkForRoundEnd =
      GameRound.mkGameRound 9 0 0 .HUMAN (some ⟨.HUMAN, 2⟩) ∧
    (BackendGame.mk ⟨⟨[1, 2]⟩, 0, false⟩
        ⟨⟨[1, 2]⟩, 0, true⟩).isGameOver = none :=
  ⟨(C2_roundend_amended.1 9 0 0 .HUMAN (some ⟨.HUMAN, 2⟩) (by decide)).2,
   C2_roundend_amended.2 _ (Or.inl rfl)⟩

/-! ## Serializer (`Web/Source/js/Serializer.js`, `src/unnamed/part_004`)

Text is modelled at the character level (`List Char`).  JS `Number(...)`
is modelled by `jsNumber`, restricted to the decimal strings that occur in
snapshots; `none` stands for `NaN` (and, in parsed dice/roll slots, for JS
`null` as well — both are rejected alike downstream). -/

def isWS (c : Char) : Bool := c.isWhitespace

/-- JS `String.prototype.trim` (left part). -/
def trimLeftC (l : List Char) : List Char := l.dropWhile isWS

/-- JS `String.prototype.trim`. -/
def trimC (l : List Char) : List Char :=
  ((l.dropWhile isWS).reverse.dropWhile isWS).reverse

/-- JS `split(sep)` for a single-character separator: keeps empty pieces,
always returns at least one piece. -/
def splitOnChar (sep : Char) : List Char → List (List Char)
  | [] => [[]]
  | c :: rest =>
    if c = sep then [] :: splitOnChar sep rest
    else
      match splitOnChar sep rest with
      | h :: t => (c :: h) :: t
      | [] => [[c]]

/-- JS `split(/\r?\n/)`: split on newlines, a preceding `\r` is consumed. -/
def stripCR (l : List Char) : List Char :=
  if l.getLast? = some '\r' then l.dropLast else l

def splitLinesC (text : List Char) : List (List Char) :=
  (splitOnChar '\n' text).map stripCR

/-- JS `startsWith`. -/
def startsWithC (l pre : List Char) : Bool :=
  decide (l.take pre.length = pre)

/-- Case-insensitive prefix test (for the `/sum=.../i` regex). -/
def startsWithCI : List Char → List Char → Bool
  | _, [] => true
  | [], _ :: _ => false
  | c :: rest, p :: ps => (Char.toLower c = Char.toLower p) && startsWithCI rest ps

/-- Word scanner behind `splitWS`: `acc` holds the reversed current word. -/
def wordsAux : List Char → List Char → List (List Char)
  | [], acc => if acc = [] then [] else [acc.reverse]
  | c :: rest, acc =>
    if isWS c then
      if acc = [] then wordsAux rest []
      else acc.reverse :: wordsAux rest []
    else wordsAux rest (c :: acc)

/-- JS `split(/\s+/)` on trimmed input (no empty pieces). -/
def splitWS (l : List Char) : List (List Char) := wordsAux l []

/-- JS `"".split(/\s+/)` is `[""]`, not `[]`. -/
def splitWSJS (l : List Char) : List (List Char) :=
  match splitWS l with
  | [] => [[]]
  | parts => parts

def natFromDigits (l : List Char) : Nat :=
  l.foldl (fun acc c => acc * 10 + (c.toNat - 48)) 0

/-- JS `Number(...)` on the strings that occur in snapshot fields: empty
string is `0`, an optional minus sign followed by digits is that integer,
anything else is `NaN` (`none`). -/
def jsNumber (l : List Char) : Option Int :=
  if l = [] then some 0
  else if l.head? = some '-' then
    if l.tail ≠ [] ∧ l.tail.all Char.isDigit then
      some (-(natFromDigits l.tail : Int))
    else none
  else if l.all Char.isDigit then some (natFromDigits l : Int) else none

def digitChar : Nat → Char
  | 0 => '0'
  | 1 => '1'
  | 2 => '2'
  | 3 => '3'
  | 4 => '4'
  | 5 => '5'
  | 6 => '6'
  | 7 => '7'
  | 8 => '8'
  | _ => '9'

/-- Decimal rendering of a natural number (JS template-literal coercion). -/
def natToChars (n : Nat) : List Char :=
  if h : n < 10 then [digitChar n]
  else natToChars (n / 10) ++ [digitChar (n % 10)]
decreasing_by exact Nat.div_lt_self (by omega) (by norm_num)

/-- Decimal rendering of an integer. -/
def intToChars (i : Int) : List Char :=
  if i < 0 then '-' :: natToChars i.natAbs else natToChars i.natAbs

/-- `arr.join(sep)`. -/
def joinSep (sep : List Char) : List (List Char) → List Char
  | [] => []
  | [x] => x
  | x :: y :: rest => x ++ sep ++ joinSep sep (y :: rest)

/-- Join lines, terminating each with a newline (the serializer's output
ends in `"\n"`). -/
def joinNl (lines : List (List Char)) : List Char :=
  lines.foldr (fun l acc => l ++ '\n' :: acc) []

def playerIdChars : PlayerId → List Char
  | .HUMAN => "HUMAN".toList
  | .COMPUTER => "COMPUTER".toList

/-- `currentDice` as handed to the serializer (`d1`, `d2`, `sum` are JS
numbers or `null`). -/
structure DiceVal where
  d1 : Option Nat
  d2 : Option Nat
  sum : Option Nat
deriving DecidableEq, Repr

/-- A queued deterministic roll (`{d1, d2}` with `d2` possibly `null`). -/
structure QueuedRoll where
  d1 : Nat
  d2 : Option Nat
deriving DecidableEq, Repr

structure ParsedDice where
  d1 : Option Int
  d2 : Option Int
  sum : Option Int
deriving DecidableEq, Repr

structure ParsedLock where
  playerId : List Char
  squareNumber : Option Int
  unlocked : Bool
deriving DecidableEq, Repr

structure ParsedRoll where
  d1 : Option Int
  d2 : Option Int
deriving DecidableEq, Repr

/-- The record returned by `Serializer.parseSnapshot`. -/
structure Snapshot where
  computerSquares : List (Option Int)
  humanSquares : List (Option Int)
  computerScore : Int
  humanScore : Int
  firstTurnId : PlayerId
  nextTurnId : PlayerId
  phase : List Char
  currentDice : ParsedDice
  advantageLock : Option ParsedLock
  queuedRolls : List ParsedRoll
deriving DecidableEq, Repr

def showOptNat : Option Nat → List Char
  | none => "-".toList
  | some n => natToChars n

/-- One queued roll as serialized: `d1,d2` when `d2` is non-null, else `d1`. -/
def encodeRoll (r : QueuedRoll) : List Char :=
  natToChars r.d1 ++
    match r.d2 with
    | some d => ",".toList ++ natToChars d
    | none => []

/-- `compArr.join(" ")`. -/
def squaresLineContent (arr : List Nat) : List Char :=
  joinSep " ".toList (arr.map natToChars)

/-- `firstTurnId === "COMPUTER" ? "Computer" : "Human"`. -/
def turnLabel (p : PlayerId) : List Char :=
  if p = .COMPUTER then "Computer".toList else "Human".toList

def phaseLineOf (phase : List Char) : List Char :=
  "# Phase: ".toList ++ phase

def diceLineOf (d : DiceVal) : List Char :=
  "# CurrentDice: ".toList ++ showOptNat d.d1 ++ " ".toList ++
    showOptNat d.d2 ++ " (sum=".toList ++ showOptNat d.sum ++ ")".toList

def lockLineOf (lock : AdvantageLock) : List Char :=
  "# AdvantageLock: ".toList ++ playerIdChars lock.playerId ++ " ".toList ++
    natToChars lock.squareNumber ++ " unlocked=".toList ++
    (if lock.unlocked then "true".toList else "false".toList)

def rollsLineOf (queuedRolls : List QueuedRoll) : List Char :=
  "# QueuedRolls: ".toList ++ joinSep " | ".toList (queuedRolls.map encodeRoll)

/-- `Serializer.serializeSnapshot`, producing the same text as the JS
string concatenation, here assembled line by line (every line of `base`
and of the metadata block is `\n`-terminated; the metadata block is never
empty because the `Phase` and `CurrentDice` lines are always pushed, so
the `meta.length ? ... : ""` ternary always takes its first branch). -/
def serializeSnapshotChars (computerBoard humanBoard : Board)
    (computerScore humanScore : Int) (firstTurnId nextTurnId : PlayerId)
    (phase : List Char) (currentDice : DiceVal)
    (advantageLock : Option AdvantageLock) (queuedRolls : List QueuedRoll) :
    List Char :=
  let compArr := computerBoard.toNumberArrayFormat
  let humanArr := humanBoard.toNumberArrayFormat
  let baseLines : List (List Char) :=
    ["Computer:".toList,
     "   Squares: ".toList ++ squaresLineContent compArr,
     "   Score: ".toList ++ intToChars computerScore,
     [],
     "Human:".toList,
     "   Squares: ".toList ++ squaresLineContent humanArr,
     "   Score: ".toList ++ intToChars humanScore,
     [],
     "First Turn: ".toList ++ turnLabel firstTurnId,
     "Next Turn: ".toList ++ turnLabel nextTurnId]
  let metaLock : List (List Char) :=
    match advantageLock with
    | some lock =>
      if lock.squareNumber ≠ 0 then [lockLineOf lock] else []
    | none => []
  let metaRolls : List (List Char) :=
    if queuedRolls ≠ [] then [rollsLineOf queuedRolls] else []
  let meta : List (List Char) :=
    [phaseLineOf phase, diceLineOf currentDice] ++ metaLock ++ metaRolls
  joinNl (baseLines ++ [[]] ++ meta)

/-- The `/sum=([0-9\-]+)/i` regex: first case-insensitive occurrence of
`sum=` followed by at least one digit or minus character. -/
def findSumToken : List Char → Option (List Char)
  | [] => none
  | c :: rest =>
    if startsWithCI (c :: rest) "sum=".toList then
      let run := ((c :: rest).drop 4).takeWhile (fun ch => ch.isDigit || ch = '-')
      if run = [] then findSumToken rest
      else some run
    else findSumToken rest

def toLowerC (l : List Char) : List Char := l.map Char.toLower

/-- `/true/i.test(s)`: case-insensitive substring search for `true`. -/
def containsTrueCI : List Char → Bool
  | [] => false
  | c :: rest =>
    startsWithCI (c :: rest) "true".toList || containsTrueCI rest

def mapLabel (label : List Char) : Except String PlayerId :=
  if toLowerC label = "computer".toList then .ok .COMPUTER
  else if toLowerC label = "human".toList then .ok .HUMAN
  else .error "Unknown player label"

def findLineC (lines : List (List Char)) (pre : List Char) :
    Except String (List Char) :=
  match lines.find? (fun l => startsWithC l pre) with
  | some l => .ok l
  | none => .error "Cannot find line starting with prefix"

def parseSquaresC (line : List Char) : Except String (List (Option Int)) :=
  match (splitOnChar ':' line).get? 1 with
  | none => .error "Bad squares line"
  | some afterColon =>
    if afterColon = [] then .error "Bad squares line"
    else .ok ((splitWS (trimC afterColon)).map jsNumber)

def parseScoreC (line : List Char) : Except String Int :=
  match (splitOnChar ':' line).get? 1 with
  | none => .error "Bad score line"
  | some afterColon =>
    if afterColon = [] then .error "Bad score line"
    else
      match jsNumber (trimC afterColon) with
      | none => .error "Score is not a number"
      | some n => .ok n

/-- The accumulator of the `#`-metadata loop. -/
structure MetaState where
  phase : List Char
  currentDice : ParsedDice
  advantageLock : Option ParsedLock
  queuedRolls : List ParsedRoll
deriving DecidableEq, Repr

def parseMetaLine (st : MetaState) (metaLine : List Char) : MetaState :=
  let body := trimC (metaLine.drop 1)
  if startsWithC body "Phase:".toList then
    { st with phase := trimC (((splitOnChar ':' body).get? 1).getD []) }
  else if startsWithC body "CurrentDice:".toList then
    let parts := splitWSJS (trimC (body.drop "CurrentDice:".length))
    let d1 := match parts.get? 0 with
      | some p => if p = "-".toList then none else jsNumber p
      | none => none
    let d2 := match parts.get? 1 with
      | some p => if p = "-".toList then none else jsNumber p
      | none => none
    let sum := match findSumToken body with
      | some raw => if raw = "-".toList then none else jsNumber raw
      | none => none
    { st with currentDice := ⟨d1, d2, sum⟩ }
  else if startsWithC body "AdvantageLock:".toList then
    let parts := splitWSJS (trimC (body.drop "AdvantageLock:".length))
    if parts.length ≥ 3 then
      let lock : ParsedLock :=
        ⟨parts.getD 0 [], jsNumber (parts.getD 1 []),
          containsTrueCI (parts.getD 2 [])⟩
      { st with advantageLock := some lock }
    else st
  else if startsWithC body "QueuedRolls:".toList then
    let payload := trimC (body.drop "QueuedRolls:".length)
    let entries := ((splitOnChar '|' payload).map trimC).filter (· ≠ [])
    { st with queuedRolls :=
        entries.map (fun entry =>
          let vals := (splitOnChar ',' entry).map (fun v => jsNumber (trimC v))
          if vals.length = 1 then ⟨vals.getD 0 none, none⟩
          else ⟨vals.getD 0 none, vals.getD 1 none⟩) }
  else st

/-- Body of `Serializer.parseSnapshot`, operating on the already split and
trimmed line list. -/
def parseLinesC (lines : List (List Char)) : Except String Snapshot := do
  let compSquaresLine ← findLineC lines "Squares:".toList
  let compScoreLine ← findLineC lines "Score:".toList
  match lines.findIdx? (fun l => l = "Human:".toList) with
  | none => .error "Missing Human section"
  | some humanIdx =>
    let afterHuman := lines.drop (humanIdx + 1)
    match afterHuman.find? (fun l => startsWithC l "Squares:".toList),
        afterHuman.find? (fun l => startsWithC l "Score:".toList) with
    | some humanSquaresLine, some humanScoreLine => do
      let firstTurnLine ← findLineC lines "First Turn:".toList
      let nextTurnLine ← findLineC lines "Next Turn:".toList
      let computerSquares ← parseSquaresC compSquaresLine
      let humanSquares ← parseSquaresC humanSquaresLine
      let computerScore ← parseScoreC compScoreLine
      let humanScore ← parseScoreC humanScoreLine
      let firstTurnLabel := trimC (((splitOnChar ':' firstTurnLine).get? 1).getD [])
      let nextTurnLabel := trimC (((splitOnChar ':' nextTurnLine).get? 1).getD [])
      let firstTurnId ← mapLabel firstTurnLabel
      let nextTurnId ← mapLabel nextTurnLabel
      let st0 : MetaState :=
        ⟨"awaitingRoll".toList, ⟨none, none, none⟩, none, []⟩
      let st := (lines.filter (fun l => startsWithC l "#".toList)).foldl
        parseMetaLine st0
      return ⟨computerSquares, humanSquares, computerScore, humanScore,
        firstTurnId, nextTurnId, st.phase, st.currentDice,
        st.advantageLock, st.queuedRolls⟩
    | _, _ => .error "Cannot find human squares and score lines"

/-- `Serializer.parseSnapshot`: split on `/\r?\n/`, trim every line, then
parse. -/
def parseSnapshotC (text : List Char) : Except String Snapshot :=
  parseLinesC ((splitLinesC text).map trimC)

/-- `Board.loadFromNumberArrayFormat`'s entry loop: position `i` expects
`0` (covered) or `i + 1` (uncovered); anything else throws, the earlier
positions staying mutated (the model returns only the fully processed
result, which is all C8 needs). -/
def loadEntries : List Bool → List (Option Int) → Nat → Except String (List Bool)
  | covered, [], _ => .ok covered
  | covered, val :: rest, i =>
    let expectedNum := i + 1
    if val = some 0 then loadEntries (covered.set expectedNum true) rest (i + 1)
    else if val ≠ some (expectedNum : Int) then
      .error "Invalid board entry"
    else loadEntries (covered.set expectedNum false) rest (i + 1)

/-- `Board.loadFromNumberArrayFormat` (the parsed array entries are JS
numbers, hence `Option Int`; a `none` entry is `NaN`, which is neither
`0` nor its index and throws). -/
def Board.loadFromNumberArrayFormat (b : Board) (arr : List (Option Int)) :
    Except String Board :=
  if arr.length ≠ b.size then
    .error "Bad board array length in loadFromNumberArrayFormat"
  else do
    let covered ← loadEntries b.covered arr 0
    return { b with covered := covered }

/-! ### Toolbox lemmas: splitting, trimming, character classes, numbers -/

theorem splitOnChar_ne_nil (sep : Char) (l : List Char) :
    splitOnChar sep l ≠ [] := by
  cases l with
  | nil => simp [splitOnChar]
  | cons c rest =>
    simp only [splitOnChar]
    split
    · simp
    · cases h : splitOnChar sep rest <;> simp

theorem splitOnChar_cons_of_ne (sep c : Char) (l : List Char) (h : c ≠ sep)
    {hd : List Char} {tl : List (List Char)}
    (he : splitOnChar sep l = hd :: tl) :
    splitOnChar sep (c :: l) = (c :: hd) :: tl := by
  simp only [splitOnChar, if_neg h, he]

theorem splitOnChar_append_sep (sep : Char) (a b : List Char) (h : sep ∉ a) :
    splitOnChar sep (a ++ sep :: b) = a :: splitOnChar sep b := by
  induction a with
  | nil => simp [splitOnChar]
  | cons c rest ih =>
    have hc : c ≠ sep := fun hc => h (hc ▸ List.mem_cons_self c rest)
    have hrest : sep ∉ rest := fun hm => h (List.mem_cons_of_mem _ hm)
    exact splitOnChar_cons_of_ne sep c _ hc (ih hrest)

theorem splitOnChar_no_sep (sep : Char) (l : List Char) (h : sep ∉ l) :
    splitOnChar sep l = [l] := by
  induction l with
  | nil => rfl
  | cons c rest ih =>
    have hc : c ≠ sep := fun hc => h (hc ▸ List.mem_cons_self c rest)
    have hrest : sep ∉ rest := fun hm => h (List.mem_cons_of_mem _ hm)
    exact splitOnChar_cons_of_ne sep c rest hc (ih hrest)

theorem joinNl_nil : joinNl [] = [] := rfl

theorem joinNl_cons (l : List Char) (ls : List (List Char)) :
    joinNl (l :: ls) = l ++ '\n' :: joinNl ls := rfl

theorem stripCR_eq_self (l : List Char) (h : '\r' ∉ l) : stripCR l = l := by
  unfold stripCR
  rw [if_neg]
  intro hl
  exact h (List.mem_of_mem_getLast? (hl ▸ Option.mem_def.mpr rfl))

theorem splitLinesC_joinNl (lines : List (List Char))
    (h : ∀ l ∈ lines, '\n' ∉ l ∧ '\r' ∉ l) :
    splitLinesC (joinNl lines) = lines ++ [[]] := by
  induction lines with
  | nil => rfl
  | cons l ls ih =>
    have hl := h l (List.mem_cons_self l ls)
    have hls : ∀ x ∈ ls, '\n' ∉ x ∧ '\r' ∉ x :=
      fun x hx => h x (List.mem_cons_of_mem _ hx)
    unfold splitLinesC
    rw [joinNl_cons, splitOnChar_append_sep '\n' l (joinNl ls) hl.1,
      List.map_cons, stripCR_eq_self l hl.2]
    have := ih hls
    unfold splitLinesC at this
    rw [this]
    rfl

theorem dropWhile_ws_eq_of_head (l : List Char)
    (h : ∀ c, l.head? = some c → isWS c = false) :
    l.dropWhile isWS = l := by
  cases l with
  | nil => rfl
  | cons c rest =>
    rw [List.dropWhile_cons, if_neg]
    rw [h c rfl]
    simp

theorem trimC_eq_self (l : List Char)
    (hh : ∀ c, l.head? = some c → isWS c = false)
    (hl : ∀ c, l.getLast? = some c → isWS c = false) :
    trimC l = l := by
  unfold trimC
  rw [dropWhile_ws_eq_of_head l hh]
  have : l.reverse.dropWhile isWS = l.reverse := by
    apply dropWhile_ws_eq_of_head
    intro c hc
    rw [List.head?_reverse] at hc
    exact hl c hc
  rw [this, List.reverse_reverse]

theorem head?_lit (a X : List Char) (c : Char) (h : a.head? = some c) :
    (a ++ X).head? = some c := by
  rw [List.head?_append, h]; rfl

theorem getLast?_lit (a X : List Char) (hX : X ≠ []) :
    (a ++ X).getLast? = X.getLast? := by
  rw [List.getLast?_append]
  cases h : X.getLast? with
  | none => exact absurd (List.getLast?_eq_none_iff.mp h) hX
  | some d => rfl

/-- Trimming strips whitespace padding and nothing else. -/
theorem trimC_sandwich (sp1 l sp2 : List Char)
    (h1 : ∀ c ∈ sp1, isWS c = true) (h2 : ∀ c ∈ sp2, isWS c = true)
    (hne : l ≠ [])
    (hh : ∀ c, l.head? = some c → isWS c = false)
    (hl : ∀ c, l.getLast? = some c → isWS c = false) :
    trimC (sp1 ++ l ++ sp2) = l := by
  unfold trimC
  have hdl : l.dropWhile isWS = l := dropWhile_ws_eq_of_head l hh
  have h1' : (sp1.dropWhile isWS).isEmpty = true := by
    rw [List.isEmpty_iff, List.dropWhile_eq_nil_iff]
    exact h1
  have hstep1 : (sp1 ++ l ++ sp2).dropWhile isWS = l ++ sp2 := by
    rw [List.append_assoc, List.dropWhile_append, if_pos h1',
      List.dropWhile_append, hdl,
      if_neg (by simp [List.isEmpty_iff, hne])]
  rw [hstep1]
  have h2' : (sp2.reverse.dropWhile isWS).isEmpty = true := by
    rw [List.isEmpty_iff, List.dropWhile_eq_nil_iff]
    intro c hc
    exact h2 c (List.mem_reverse.mp hc)
  have hrl : l.reverse.dropWhile isWS = l.reverse := by
    apply dropWhile_ws_eq_of_head
    intro c hc
    rw [List.head?_reverse] at hc
    exact hl c hc
  rw [List.reverse_append, List.dropWhile_append, if_pos h2', hrl,
    List.reverse_reverse]

theorem trimC_nil : trimC [] = [] := rfl

/-! Character-class facts. -/

theorem ws_chars (c : Char) (h : isWS c = true) :
    c = ' ' ∨ c = '\t' ∨ c = '\r' ∨ c = '\n' := by
  unfold isWS Char.isWhitespace at h
  simp only [Bool.or_eq_true, decide_eq_true_iff] at h
  tauto

theorem digit_not_ws (c : Char) (h : c.isDigit = true) : isWS c = false := by
  rcases hws : isWS c with _ | _
  · rfl
  · rcases ws_chars c hws with h' | h' | h' | h' <;>
      (subst h'; exact absurd h (by decide))

theorem digit_ne (c d : Char) (h : c.isDigit = true) (hd : d.isDigit = false) :
    c ≠ d := by
  intro he; subst he; rw [h] at hd; simp at hd

theorem digit_bounds (c : Char) (h : c.isDigit = true) :
    48 ≤ c.toNat ∧ c.toNat ≤ 57 := by
  unfold Char.isDigit at h
  simp only [Bool.and_eq_true, decide_eq_true_iff] at h
  obtain ⟨h1, h2⟩ := h
  exact ⟨h1, h2⟩

theorem digit_toLower (c : Char) (h : c.isDigit = true) :
    c.toLower = c := by
  have hb := digit_bounds c h
  unfold Char.toLower
  rw [if_neg]
  omega

theorem digit_toLower_ne_s (c : Char) (h : c.isDigit = true) :
    Char.toLower c ≠ 's' := by
  rw [digit_toLower c h]
  exact digit_ne c 's' h (by decide)

theorem digitChar_isDigit (d : Nat) : (digitChar d).isDigit = true := by
  rcases d with _ | _ | _ | _ | _ | _ | _ | _ | _ | d <;> rfl

theorem digitChar_toNat (d : Nat) (h : d < 10) :
    (digitChar d).toNat = 48 + d := by
  interval_cases d <;> rfl

/-! `natToChars` / `natFromDigits` round trip. -/

theorem natToChars_ne_nil (n : Nat) : natToChars n ≠ [] := by
  rw [natToChars]
  split
  · simp
  · simp

theorem natToChars_all_digit (n : Nat) :
    ∀ c ∈ natToChars n, c.isDigit = true := by
  induction n using Nat.strong_induction_on with
  | _ n ih =>
    rw [natToChars]
    split
    · intro c hc
      simp only [List.mem_singleton] at hc
      subst hc
      exact digitChar_isDigit n
    · next hge =>
      intro c hc
      rw [List.mem_append] at hc
      rcases hc with hc | hc
      · exact ih (n / 10) (Nat.div_lt_self (by omega) (by norm_num)) c hc
      · simp only [List.mem_singleton] at hc
        subst hc
        exact digitChar_isDigit _

theorem natFromDigits_concat (l : List Char) (c : Char) :
    natFromDigits (l ++ [c]) = natFromDigits l * 10 + (c.toNat - 48) := by
  unfold natFromDigits
  rw [List.foldl_append]
  rfl

theorem natFromDigits_natToChars (n : Nat) :
    natFromDigits (natToChars n) = n := by
  induction n using Nat.strong_induction_on with
  | _ n ih =>
    rw [natToChars]
    split
    · next hlt =>
      show natFromDigits [digitChar n] = n
      unfold natFromDigits
      simp only [List.foldl_cons, List.foldl_nil]
      rw [digitChar_toNat n hlt]
      omega
    · next hge =>
      rw [natFromDigits_concat,
        ih (n / 10) (Nat.div_lt_self (by omega) (by norm_num)),
        digitChar_toNat (n % 10) (Nat.mod_lt n (by norm_num))]
      omega

theorem natToChars_head_digit (n : Nat) :
    ∃ c cs, natToChars n = c :: cs ∧ c.isDigit = true := by
  cases h : natToChars n with
  | nil => exact absurd h (natToChars_ne_nil n)
  | cons c cs =>
    refine ⟨c, cs, rfl, ?_⟩
    exact natToChars_all_digit n c (h ▸ List.mem_cons_self c cs)

theorem jsNumber_natToChars (n : Nat) :
    jsNumber (natToChars n) = some (n : Int) := by
  obtain ⟨c, cs, hcons, hdig⟩ := natToChars_head_digit n
  unfold jsNumber
  rw [hcons]
  rw [if_neg (by simp)]
  rw [if_neg (by
    simp only [List.head?_cons, Option.some.injEq]
    exact digit_ne c '-' hdig (by decide))]
  rw [if_pos (by
    rw [← hcons]
    rw [List.all_eq_true]
    exact fun c hc => natToChars_all_digit n c hc)]
  rw [← hcons, natFromDigits_natToChars]

theorem jsNumber_intToChars (i : Int) :
    jsNumber (intToChars i) = some i := by
  unfold intToChars
  split
  · next hneg =>
    unfold jsNumber
    rw [if_neg (by simp)]
    rw [if_pos (by simp)]
    rw [if_pos (by
      constructor
      · simp only [List.tail_cons]
        exact natToChars_ne_nil _
      · simp only [List.tail_cons]
        rw [List.all_eq_true]
        exact fun c hc => natToChars_all_digit _ c hc)]
    simp only [List.tail_cons, natFromDigits_natToChars]
    congr 1
    omega
  · next hpos =>
    rw [jsNumber_natToChars]
    congr 1
    omega

theorem natToChars_ne_dash (n : Nat) : natToChars n ≠ "-".toList := by
  obtain ⟨c, cs, hcons, hdig⟩ := natToChars_head_digit n
  rw [hcons]
  intro h
  have : c = '-' := by
    have := congrArg List.head? h
    simp at this
    exact this
  exact digit_ne c '-' hdig (by decide) this

/-! `startsWithC` evaluation helpers. -/

theorem startsWithC_lit_append (lit X pre : List Char)
    (h : pre.length ≤ lit.length) :
    startsWithC (lit ++ X) pre = startsWithC lit pre := by
  unfold startsWithC
  rw [List.take_append_of_le_length h]

theorem startsWithC_head_ne (l pre : List Char) (c p : Char)
    (hl : l.head? = some c) (hp : pre.head? = some p) (hne : c ≠ p) :
    startsWithC l pre = false := by
  unfold startsWithC
  rw [decide_eq_false_iff_not]
  intro heq
  have hlen : pre.length ≠ 0 := by
    cases pre with
    | nil => simp at hp
    | cons _ _ => simp
  have h1 : (l.take pre.length).head? = some c := by
    rw [List.head?_take, if_neg hlen, hl]
  rw [heq, hp] at h1
  exact hne (Option.some.injEq .. ▸ h1.symm ▸ rfl)

theorem drop_lit_append (lit X : List Char) (n : Nat) (h : n ≤ lit.length) :
    (lit ++ X).drop n = lit.drop n ++ X :=
  List.drop_append_of_le_length h

/-! `splitWS` evaluation on space-joined words. -/

theorem wordsAux_all (w : List Char) (acc : List Char)
    (hall : ∀ c ∈ w, isWS c = false) :
    wordsAux w acc =
      if acc.reverse ++ w = [] then [] else [acc.reverse ++ w] := by
  induction w generalizing acc with
  | nil =>
    show (if acc = [] then [] else [acc.reverse]) = _
    rcases Decidable.em (acc = []) with h | h
    · subst h; rfl
    · rw [if_neg h, if_neg (by simp [h])]
      simp
  | cons c rest ih =>
    have hc : isWS c = false := hall c (List.mem_cons_self c rest)
    show (if isWS c = true then _ else wordsAux rest (c :: acc)) = _
    rw [if_neg (by rw [hc]; exact Bool.false_ne_true)]
    rw [ih (c :: acc) (fun x hx => hall x (List.mem_cons_of_mem _ hx))]
    rw [if_neg (by simp), if_neg (by simp)]
    simp

theorem wordsAux_append_sp (w t acc : List Char)
    (hall : ∀ c ∈ w, isWS c = false) (hne : acc.reverse ++ w ≠ []) :
    wordsAux (w ++ ' ' :: t) acc = (acc.reverse ++ w) :: wordsAux t [] := by
  induction w generalizing acc with
  | nil =>
    have hacc : acc ≠ [] := by simpa using hne
    show (if isWS ' ' = true then _ else _) = _
    rw [if_pos (by decide), if_neg hacc]
    simp
  | cons c rest ih =>
    have hc : isWS c = false := hall c (List.mem_cons_self c rest)
    show (if isWS c = true then _ else wordsAux (rest ++ ' ' :: t) (c :: acc)) = _
    rw [if_neg (by rw [hc]; exact Bool.false_ne_true)]
    rw [ih (c :: acc) (fun x hx => hall x (List.mem_cons_of_mem _ hx))
      (by simp)]
    simp

theorem splitWS_single (w : List Char) (hw : w ≠ [])
    (hall : ∀ c ∈ w, isWS c = false) : splitWS w = [w] := by
  unfold splitWS
  rw [wordsAux_all w [] hall]
  simp [hw]

theorem splitWS_word_append (w t : List Char) (hw : w ≠ [])
    (hall : ∀ c ∈ w, isWS c = false) :
    splitWS (w ++ ' ' :: t) = w :: splitWS t := by
  unfold splitWS
  rw [wordsAux_append_sp w t [] hall (by simp [hw])]
  simp

theorem splitWS_joinSep (ws : List (List Char))
    (h : ∀ w ∈ ws, w ≠ [] ∧ ∀ c ∈ w, isWS c = false) :
    splitWS (joinSep " ".toList ws) = ws := by
  induction ws with
  | nil => rfl
  | cons w rest ih =>
    cases rest with
    | nil =>
      show splitWS w = [w]
      exact splitWS_single w (h w (List.mem_cons_self ..)).1
        (h w (List.mem_cons_self ..)).2
    | cons v rest' =>
      have hw := h w (List.mem_cons_self ..)
      have hrest : ∀ x ∈ v :: rest', x ≠ [] ∧ ∀ c ∈ x, isWS c = false :=
        fun x hx => h x (List.mem_cons_of_mem _ hx)
      show splitWS (w ++ " ".toList ++ joinSep " ".toList (v :: rest')) = _
      rw [List.append_assoc]
      have : (" ".toList : List Char) ++ joinSep " ".toList (v :: rest') =
          ' ' :: joinSep " ".toList (v :: rest') := rfl
      rw [this, splitWS_word_append w _ hw.1 hw.2, ih hrest]

theorem splitWSJS_of_ne_nil (l : List Char) (h : splitWS l ≠ []) :
    splitWSJS l = splitWS l := by
  unfold splitWSJS
  cases hs : splitWS l with
  | nil => exact absurd hs h
  | cons a b => rfl

/-! `startsWithCI` / `findSumToken` / `containsTrueCI`. -/

theorem startsWithCI_append_self (p X : List Char) :
    startsWithCI (p ++ X) p = true := by
  induction p with
  | nil =>
    rw [List.nil_append]
    cases X <;> rfl
  | cons c rest ih => simp [startsWithCI, ih]

theorem findSumToken_skip (a b : List Char)
    (h : ∀ c ∈ a, Char.toLower c ≠ 's') :
    findSumToken (a ++ b) = findSumToken b := by
  induction a with
  | nil => rfl
  | cons c rest ih =>
    have hc : Char.toLower c ≠ 's' := h c (List.mem_cons_self c rest)
    have hrest : ∀ x ∈ rest, Char.toLower x ≠ 's' :=
      fun x hx => h x (List.mem_cons_of_mem _ hx)
    rw [List.cons_append, findSumToken]
    have hfalse : startsWithCI (c :: (rest ++ b)) "sum=".toList = false := by
      have hlit : ("sum=".toList : List Char) = 's' :: "um=".toList := rfl
      rw [hlit]
      simp [startsWithCI, hc]
    rw [if_neg (by rw [hfalse]; exact Bool.false_ne_true)]
    exact ih hrest

theorem takeWhile_all_append (p : Char → Bool) (a b : List Char)
    (ha : ∀ c ∈ a, p c = true)
    (hb : ∀ c, b.head? = some c → p c = false) :
    (a ++ b).takeWhile p = a := by
  induction a with
  | nil =>
    cases b with
    | nil => rfl
    | cons c rest =>
      rw [List.nil_append, List.takeWhile_cons, hb c rfl]
      rfl
  | cons c rest ih =>
    rw [List.cons_append, List.takeWhile_cons, ha c (List.mem_cons_self ..)]
    rw [ih (fun x hx => ha x (List.mem_cons_of_mem _ hx))]
    simp

theorem findSumToken_hit (digits tail : List Char) (hd : digits ≠ [])
    (hcls : ∀ c ∈ digits, (c.isDigit || c = '-') = true)
    (htail : ∀ c, tail.head? = some c → (c.isDigit || c = '-') = false) :
    findSumToken ("sum=".toList ++ (digits ++ tail)) = some digits := by
  have hlit : ("sum=".toList : List Char) = 's' :: 'u' :: 'm' :: '=' :: [] := rfl
  rw [hlit]
  show findSumToken ('s' :: 'u' :: 'm' :: '=' :: (digits ++ tail)) = some digits
  rw [findSumToken]
  have htrue : startsWithCI ('s' :: 'u' :: 'm' :: '=' :: (digits ++ tail))
      "sum=".toList = true := by
    have : ('s' :: 'u' :: 'm' :: '=' :: (digits ++ tail) : List Char) =
        "sum=".toList ++ (digits ++ tail) := rfl
    rw [this]
    exact startsWithCI_append_self _ _
  rw [if_pos htrue]
  have hdrop : (('s' :: 'u' :: 'm' :: '=' :: (digits ++ tail) : List Char)).drop 4 =
      digits ++ tail := rfl
  rw [hdrop, takeWhile_all_append _ digits tail hcls htail, if_neg hd]

/-! ### Character classes of serialized fragments -/

def isNumChar (c : Char) : Bool := c.isDigit || c = '-'

def isSquaresChar (c : Char) : Bool := c.isDigit || c = ' '

def isRollsChar (c : Char) : Bool :=
  c.isDigit || c = ',' || c = ' ' || c = '|'

theorem head_prop_of_all {P : Char → Prop} (X : List Char)
    (hall : ∀ c ∈ X, P c) : ∀ c, X.head? = some c → P c :=
  fun c hc => hall c (List.mem_of_mem_head? (Option.mem_def.mpr hc))

theorem last_prop_of_all {P : Char → Prop} (X : List Char)
    (hall : ∀ c ∈ X, P c) : ∀ c, X.getLast? = some c → P c :=
  fun c hc => hall c (List.mem_of_mem_getLast? (Option.mem_def.mpr hc))

theorem not_mem_of_class (X : List Char) (P : Char → Bool)
    (hall : ∀ c ∈ X, P c = true) (d : Char) (hd : P d = false) : d ∉ X := by
  intro hm
  rw [hall d hm] at hd
  simp at hd

theorem isNumChar_not_ws (c : Char) (h : isNumChar c = true) :
    isWS c = false := by
  unfold isNumChar at h
  rw [Bool.or_eq_true] at h
  rcases h with h | h
  · exact digit_not_ws c h
  · rw [decide_eq_true_iff] at h
    subst h
    rfl

theorem isNumChar_toLower_ne_s (c : Char) (h : isNumChar c = true) :
    Char.toLower c ≠ 's' := by
  unfold isNumChar at h
  rw [Bool.or_eq_true] at h
  rcases h with h | h
  · exact digit_toLower_ne_s c h
  · rw [decide_eq_true_iff] at h
    subst h
    decide

theorem digit_isNumChar (c : Char) (h : c.isDigit = true) :
    isNumChar c = true := by
  unfold isNumChar
  rw [h]
  rfl

theorem intToChars_ne_nil (i : Int) : intToChars i ≠ [] := by
  unfold intToChars
  split
  · simp
  · exact natToChars_ne_nil _

theorem intToChars_class (i : Int) :
    ∀ c ∈ intToChars i, isNumChar c = true := by
  unfold intToChars
  split
  · intro c hc
    rcases List.mem_cons.mp hc with h | h
    · subst h; rfl
    · exact digit_isNumChar c (natToChars_all_digit _ c h)
  · exact fun c hc => digit_isNumChar c (natToChars_all_digit _ c hc)

theorem intToChars_last_digit (i : Int) :
    ∀ c, (intToChars i).getLast? = some c → c.isDigit = true := by
  unfold intToChars
  split
  · intro c hc
    have h2 : ('-' :: natToChars i.natAbs : List Char) =
        ['-'] ++ natToChars i.natAbs := rfl
    rw [h2, getLast?_lit _ _ (natToChars_ne_nil _)] at hc
    exact last_prop_of_all _ (natToChars_all_digit _) c hc
  · exact fun c hc => last_prop_of_all _ (natToChars_all_digit _) c hc

theorem intToChars_head_not_ws (i : Int) :
    ∀ c, (intToChars i).head? = some c → isWS c = false :=
  fun c hc =>
    isNumChar_not_ws c (head_prop_of_all _ (intToChars_class i) c hc)

theorem intToChars_last_not_ws (i : Int) :
    ∀ c, (intToChars i).getLast? = some c → isWS c = false :=
  fun c hc => digit_not_ws c (intToChars_last_digit i c hc)

theorem showOptNat_ne_nil (o : Option Nat) : showOptNat o ≠ [] := by
  cases o with
  | none => simp [showOptNat]
  | some n => exact natToChars_ne_nil n

theorem showOptNat_class (o : Option Nat) :
    ∀ c ∈ showOptNat o, isNumChar c = true := by
  cases o with
  | none =>
    intro c hc
    simp only [showOptNat] at hc
    rcases List.mem_cons.mp hc with h | h
    · subst h; rfl
    · simp at h
  | some n => exact fun c hc => digit_isNumChar c (natToChars_all_digit n c hc)

/-! joinSep structure lemmas. -/

theorem joinSep_ne_nil (sep : List Char) (ws : List (List Char))
    (hne : ws ≠ []) (hw : ∀ w ∈ ws, w ≠ []) : joinSep sep ws ≠ [] := by
  cases ws with
  | nil => exact absurd rfl hne
  | cons w rest =>
    cases rest with
    | nil => exact hw w (List.mem_cons_self ..)
    | cons v rest' =>
      show w ++ sep ++ joinSep sep (v :: rest') ≠ []
      have : w ≠ [] := hw w (List.mem_cons_self ..)
      simp [this]

theorem joinSep_mem (sep : List Char) (ws : List (List Char)) :
    ∀ c ∈ joinSep sep ws, c ∈ sep ∨ ∃ w ∈ ws, c ∈ w := by
  induction ws with
  | nil => intro c hc; simp [joinSep] at hc
  | cons w rest ih =>
    cases rest with
    | nil =>
      intro c hc
      exact Or.inr ⟨w, List.mem_cons_self .., hc⟩
    | cons v rest' =>
      intro c hc
      show _
      rcases List.mem_append.mp hc with hc' | hc'
      · rcases List.mem_append.mp hc' with hc'' | hc''
        · exact Or.inr ⟨w, List.mem_cons_self .., hc''⟩
        · exact Or.inl hc''
      · rcases ih c hc' with h | ⟨x, hx, hcx⟩
        · exact Or.inl h
        · exact Or.inr ⟨x, List.mem_cons_of_mem _ hx, hcx⟩

theorem joinSep_head_prop {P : Char → Prop} (sep : List Char)
    (ws : List (List Char)) (hw : ∀ w ∈ ws, w ≠ [])
    (hP : ∀ w ∈ ws, ∀ c, w.head? = some c → P c) :
    ∀ c, (joinSep sep ws).head? = some c → P c := by
  cases ws with
  | nil => intro c hc; simp [joinSep] at hc
  | cons w rest =>
    cases rest with
    | nil => exact hP w (List.mem_cons_self ..)
    | cons v rest' =>
      intro c hc
      rw [show joinSep sep (w :: v :: rest') =
        w ++ sep ++ joinSep sep (v :: rest') from rfl] at hc
      have hwne : w ≠ [] := hw w (List.mem_cons_self ..)
      obtain ⟨c0, cs0, hcons⟩ := List.exists_cons_of_ne_nil hwne
      have : (w ++ sep ++ joinSep sep (v :: rest')).head? = some c0 := by
        rw [List.append_assoc]
        exact head?_lit _ _ c0 (by rw [hcons]; rfl)
      rw [this] at hc
      have hc0 : c = c0 := by injection hc.symm
      subst hc0
      exact hP w (List.mem_cons_self ..) c (by rw [hcons]; rfl)

theorem joinSep_last_prop {P : Char → Prop} (sep : List Char)
    (ws : List (List Char)) (hw : ∀ w ∈ ws, w ≠ [])
    (hP : ∀ w ∈ ws, ∀ c, w.getLast? = some c → P c) :
    ∀ c, (joinSep sep ws).getLast? = some c → P c := by
  induction ws with
  | nil => intro c hc; simp [joinSep] at hc
  | cons w rest ih =>
    cases rest with
    | nil => exact hP w (List.mem_cons_self ..)
    | cons v rest' =>
      intro c hc
      rw [show joinSep sep (w :: v :: rest') =
        w ++ sep ++ joinSep sep (v :: rest') from rfl] at hc
      have hJ : joinSep sep (v :: rest') ≠ [] :=
        joinSep_ne_nil sep _ (by simp)
          (fun x hx => hw x (List.mem_cons_of_mem _ hx))
      have heq : (w ++ sep ++ joinSep sep (v :: rest')).getLast? =
          (joinSep sep (v :: rest')).getLast? := by
        rw [List.append_assoc, getLast?_lit _ _ (by simp [hJ]),
          getLast?_lit _ _ hJ]
      rw [heq] at hc
      exact ih (fun x hx => hw x (List.mem_cons_of_mem _ hx))
        (fun x hx => hP x (List.mem_cons_of_mem _ hx)) c hc

/-! `squaresLineContent` facts. -/

theorem squaresLineContent_class (arr : List Nat) :
    ∀ c ∈ squaresLineContent arr, isSquaresChar c = true := by
  intro c hc
  rcases joinSep_mem _ _ c hc with h | ⟨w, hw, hcw⟩
  · have : c = ' ' := by simpa using h
    subst this
    rfl
  · obtain ⟨n, _, rfl⟩ := List.mem_map.mp hw
    unfold isSquaresChar
    rw [natToChars_all_digit n c hcw]
    rfl

theorem squaresLineContent_ne_nil (arr : List Nat) (h : arr ≠ []) :
    squaresLineContent arr ≠ [] := by
  apply joinSep_ne_nil
  · simp [h]
  · intro w hw
    obtain ⟨n, _, rfl⟩ := List.mem_map.mp hw
    exact natToChars_ne_nil n

theorem squaresLineContent_head_not_ws (arr : List Nat) :
    ∀ c, (squaresLineContent arr).head? = some c → isWS c = false := by
  apply joinSep_head_prop
  · intro w hw
    obtain ⟨n, _, rfl⟩ := List.mem_map.mp hw
    exact natToChars_ne_nil n
  · intro w hw c hc
    obtain ⟨n, _, rfl⟩ := List.mem_map.mp hw
    exact digit_not_ws c (head_prop_of_all _ (natToChars_all_digit n) c hc)

theorem squaresLineContent_last_not_ws (arr : List Nat) :
    ∀ c, (squaresLineContent arr).getLast? = some c → isWS c = false := by
  apply joinSep_last_prop
  · intro w hw
    obtain ⟨n, _, rfl⟩ := List.mem_map.mp hw
    exact natToChars_ne_nil n
  · intro w hw c hc
    obtain ⟨n, _, rfl⟩ := List.mem_map.mp hw
    exact digit_not_ws c (last_prop_of_all _ (natToChars_all_digit n) c hc)

theorem splitWS_squaresLineContent (arr : List Nat) :
    splitWS (squaresLineContent arr) = arr.map natToChars := by
  apply splitWS_joinSep
  intro w hw
  obtain ⟨n, _, rfl⟩ := List.mem_map.mp hw
  exact ⟨natToChars_ne_nil n,
    fun c hc => digit_not_ws c (natToChars_all_digit n c hc)⟩

/-! `trimC` with an all-whitespace prefix. -/

theorem trimC_drop_ws (sp l : List Char) (hsp : ∀ c ∈ sp, isWS c = true) :
    trimC (sp ++ l) = trimC l := by
  unfold trimC
  rw [List.dropWhile_append, if_pos (by
    rw [List.isEmpty_iff, List.dropWhile_eq_nil_iff]
    exact hsp)]

theorem head_ws_false_of_lit (lit X : List Char) (c0 : Char)
    (h0 : lit.head? = some c0) (hc0 : isWS c0 = false) :
    ∀ c, (lit ++ X).head? = some c → isWS c = false := by
  intro c hc
  rw [head?_lit lit X c0 h0] at hc
  injection hc with h
  exact h ▸ hc0

theorem last_ws_false_of_append (lit X : List Char) (hne : X ≠ [])
    (hX : ∀ c, X.getLast? = some c → isWS c = false) :
    ∀ c, (lit ++ X).getLast? = some c → isWS c = false := by
  intro c hc
  rw [getLast?_lit _ _ hne] at hc
  exact hX c hc

theorem singleton_ws (c : Char) (h : isWS c = true) :
    ∀ x ∈ ([c] : List Char), isWS x = true := by
  intro x hx
  simp only [List.mem_singleton] at hx
  subst hx
  exact h

/-! ### Evaluating `parseMetaLine` on each serialized metadata line -/

theorem parseMetaLine_phase (st : MetaState) (phase : List Char)
    (hne : phase ≠ []) (hws : ∀ c ∈ phase, isWS c = false)
    (hcolon : ':' ∉ phase) :
    parseMetaLine st (phaseLineOf phase) = { st with phase := phase } := by
  have hlast : ∀ c, phase.getLast? = some c → isWS c = false :=
    last_prop_of_all phase hws
  have hhead : ∀ c, phase.head? = some c → isWS c = false :=
    head_prop_of_all phase hws
  have hdrop : (phaseLineOf phase).drop 1 = " Phase: ".toList ++ phase := by
    unfold phaseLineOf
    rw [drop_lit_append _ _ 1 (by decide)]
    have h1 : List.drop 1 "# Phase: ".toList = " Phase: ".toList := by decide
    rw [h1]
  have hbody : trimC ((phaseLineOf phase).drop 1) =
      "Phase: ".toList ++ phase := by
    rw [hdrop]
    have h2 : (" Phase: ".toList ++ phase : List Char) =
        [' '] ++ ("Phase: ".toList ++ phase) := by
      have h3 : (" Phase: ".toList : List Char) = [' '] ++ "Phase: ".toList :=
        by decide
      rw [h3, List.append_assoc]
    rw [h2, trimC_drop_ws _ _ (singleton_ws ' ' rfl)]
    exact trimC_eq_self _
      (head_ws_false_of_lit "Phase: ".toList phase 'P' rfl rfl)
      (last_ws_false_of_append "Phase: ".toList phase hne hlast)
  have hsw : startsWithC ("Phase: ".toList ++ phase) "Phase:".toList = true := by
    rw [startsWithC_lit_append _ _ _ (by decide)]
    decide
  have hsplit : splitOnChar ':' ("Phase: ".toList ++ phase) =
      ["Phase".toList, ' ' :: phase] := by
    have h1 : ("Phase: ".toList ++ phase : List Char) =
        "Phase".toList ++ ':' :: (' ' :: phase) := by
      have h3 : ("Phase: ".toList : List Char) =
          "Phase".toList ++ [':', ' '] := by decide
      rw [h3, List.append_assoc]
      rfl
    have hns : ':' ∉ (' ' :: phase : List Char) := by
      intro hm
      rcases List.mem_cons.mp hm with h | h
      · exact absurd h (by decide)
      · exact hcolon h
    rw [h1, splitOnChar_append_sep ':' _ _ (by decide),
      splitOnChar_no_sep ':' _ hns]
  have htrim : trimC (' ' :: phase) = phase := by
    have h1 : (' ' :: phase : List Char) = [' '] ++ phase := rfl
    rw [h1, trimC_drop_ws _ _ (singleton_ws ' ' rfl),
      trimC_eq_self phase hhead hlast]
  unfold parseMetaLine
  rw [hbody]
  simp only [hsw, if_true, hsplit, List.get?_cons_succ, List.get?_cons_zero,
    Option.getD_some, htrim]

theorem showOptNat_parse (o : Option Nat) :
    (if showOptNat o = "-".toList then none else jsNumber (showOptNat o)) =
      o.map Int.ofNat := by
  cases o with
  | none =>
    simp [showOptNat]
  | some n =>
    simp only [showOptNat]
    rw [if_neg (natToChars_ne_dash n), jsNumber_natToChars]
    rfl

theorem lit_no_lower_s : ∀ c ∈ "CurrentDice: ".toList, Char.toLower c ≠ 's' :=
  by decide

theorem parseMetaLine_dice (st : MetaState) (d : DiceVal) :
    parseMetaLine st (diceLineOf d) =
      { st with currentDice :=
          ⟨d.d1.map Int.ofNat, d.d2.map Int.ofNat, d.sum.map Int.ofNat⟩ } := by
  have hs1ne := showOptNat_ne_nil d.d1
  have hs2ne := showOptNat_ne_nil d.d2
  have hs3ne := showOptNat_ne_nil d.sum
  have hs1c := showOptNat_class d.d1
  have hs2c := showOptNat_class d.d2
  have hs3c := showOptNat_class d.sum
  -- the right-associated payload after the `CurrentDice:` label
  have hform : diceLineOf d = "# CurrentDice: ".toList ++
      (showOptNat d.d1 ++ (' ' :: (showOptNat d.d2 ++
        (' ' :: ("(sum=".toList ++ (showOptNat d.sum ++ [')'])))))) := by
    unfold diceLineOf
    simp only [List.append_assoc]
    rfl
  have hw3ne : ("(sum=".toList ++ (showOptNat d.sum ++ [')']) : List Char) ≠ [] := by
    simp
  have hw3ws : ∀ c ∈ ("(sum=".toList ++ (showOptNat d.sum ++ [')']) : List Char),
      isWS c = false := by
    intro c hc
    rcases List.mem_append.mp hc with h | h
    · have hlit : ∀ x ∈ "(sum=".toList, isWS x = false := by decide
      exact hlit c h
    · rcases List.mem_append.mp h with h' | h'
      · exact isNumChar_not_ws c (hs3c c h')
      · simp only [List.mem_singleton] at h'
        subst h'
        rfl
  have hTlast : ∀ c,
      (showOptNat d.d1 ++ (' ' :: (showOptNat d.d2 ++
        (' ' :: ("(sum=".toList ++ (showOptNat d.sum ++ [')']))))) :
        List Char).getLast? = some c → isWS c = false := by
    intro c hc
    rw [getLast?_lit _ _ (by simp)] at hc
    rw [show (' ' :: (showOptNat d.d2 ++
      (' ' :: ("(sum=".toList ++ (showOptNat d.sum ++ [')'])))) : List Char) =
      [' '] ++ (showOptNat d.d2 ++
        (' ' :: ("(sum=".toList ++ (showOptNat d.sum ++ [')'])))) from rfl,
      getLast?_lit _ _ (by simp), getLast?_lit _ _ (by simp)] at hc
    rw [show (' ' :: ("(sum=".toList ++ (showOptNat d.sum ++ [')'])) : List Char) =
      [' '] ++ ("(sum=".toList ++ (showOptNat d.sum ++ [')'])) from rfl,
      getLast?_lit _ _ hw3ne, getLast?_lit _ _ (by simp),
      getLast?_lit _ _ (by simp), List.getLast?_singleton] at hc
    injection hc with h
    exact h ▸ rfl
  have hThead : ∀ c,
      (showOptNat d.d1 ++ (' ' :: (showOptNat d.d2 ++
        (' ' :: ("(sum=".toList ++ (showOptNat d.sum ++ [')']))))) :
        List Char).head? = some c → isWS c = false := by
    intro c hc
    obtain ⟨c0, cs0, hcons⟩ := List.exists_cons_of_ne_nil hs1ne
    rw [head?_lit _ _ c0 (by rw [hcons]; rfl)] at hc
    injection hc with h
    subst h
    exact isNumChar_not_ws c0 (hs1c c0 (by rw [hcons]; exact List.mem_cons_self ..))
  have hbody : trimC ((diceLineOf d).drop 1) = "CurrentDice: ".toList ++
      (showOptNat d.d1 ++ (' ' :: (showOptNat d.d2 ++
        (' ' :: ("(sum=".toList ++ (showOptNat d.sum ++ [')'])))))) := by
    rw [hform, drop_lit_append _ _ 1 (by decide)]
    rw [show List.drop 1 "# CurrentDice: ".toList = " CurrentDice: ".toList
      from by decide]
    rw [show (" CurrentDice: ".toList : List Char) ++
      (showOptNat d.d1 ++ (' ' :: (showOptNat d.d2 ++
        (' ' :: ("(sum=".toList ++ (showOptNat d.sum ++ [')'])))))) =
      [' '] ++ ("CurrentDice: ".toList ++
        (showOptNat d.d1 ++ (' ' :: (showOptNat d.d2 ++
          (' ' :: ("(sum=".toList ++ (showOptNat d.sum ++ [')'])))))))
      from by rw [show (" CurrentDice: ".toList : List Char) =
        [' '] ++ "CurrentDice: ".toList from by decide, List.append_assoc]]
    rw [trimC_drop_ws _ _ (singleton_ws ' ' rfl)]
    exact trimC_eq_self _
      (head_ws_false_of_lit "CurrentDice: ".toList _ 'C' rfl rfl)
      (last_ws_false_of_append "CurrentDice: ".toList _ (by simp) hTlast)
  have hnotPhase : startsWithC ("CurrentDice: ".toList ++
      (showOptNat d.d1 ++ (' ' :: (showOptNat d.d2 ++
        (' ' :: ("(sum=".toList ++ (showOptNat d.sum ++ [')'])))))))
      "Phase:".toList = false :=
    startsWithC_head_ne _ _ 'C' 'P' (head?_lit _ _ 'C' rfl) rfl (by decide)
  have hyes : startsWithC ("CurrentDice: ".toList ++
      (showOptNat d.d1 ++ (' ' :: (showOptNat d.d2 ++
        (' ' :: ("(sum=".toList ++ (showOptNat d.sum ++ [')'])))))))
      "CurrentDice:".toList = true := by
    rw [startsWithC_lit_append _ _ _ (by decide)]
    decide
  have hdrop12 : trimC (List.drop "CurrentDice:".length
      ("CurrentDice: ".toList ++
        (showOptNat d.d1 ++ (' ' :: (showOptNat d.d2 ++
          (' ' :: ("(sum=".toList ++ (showOptNat d.sum ++ [')']))))))) ) =
      showOptNat d.d1 ++ (' ' :: (showOptNat d.d2 ++
        (' ' :: ("(sum=".toList ++ (showOptNat d.sum ++ [')']))))) := by
    rw [drop_lit_append _ _ _ (by decide)]
    rw [show List.drop "CurrentDice:".length "CurrentDice: ".toList = [' ']
      from by decide]
    rw [trimC_drop_ws _ _ (singleton_ws ' ' rfl)]
    exact trimC_eq_self _ hThead hTlast
  have hsplitT : splitWS (showOptNat d.d1 ++ (' ' :: (showOptNat d.d2 ++
      (' ' :: ("(sum=".toList ++ (showOptNat d.sum ++ [')'])))))) =
      [showOptNat d.d1, showOptNat d.d2,
        "(sum=".toList ++ (showOptNat d.sum ++ [')'])] := by
    rw [splitWS_word_append _ _ hs1ne
      (fun c hc => isNumChar_not_ws c (hs1c c hc))]
    rw [splitWS_word_append _ _ hs2ne
      (fun c hc => isNumChar_not_ws c (hs2c c hc))]
    rw [splitWS_single _ hw3ne hw3ws]
  have hsum : findSumToken ("CurrentDice: ".toList ++
      (showOptNat d.d1 ++ (' ' :: (showOptNat d.d2 ++
        (' ' :: ("(sum=".toList ++ (showOptNat d.sum ++ [')']))))))) =
      some (showOptNat d.sum) := by
    rw [show ("CurrentDice: ".toList ++
      (showOptNat d.d1 ++ (' ' :: (showOptNat d.d2 ++
        (' ' :: ("(sum=".toList ++ (showOptNat d.sum ++ [')']))))))
      : List Char) =
      ("CurrentDice: ".toList ++ showOptNat d.d1 ++ [' '] ++
        showOptNat d.d2 ++ [' ', '(']) ++
        ("sum=".toList ++ (showOptNat d.sum ++ [')']))
      from by simp only [List.append_assoc]; rfl]
    rw [findSumToken_skip _ _ (by
      intro c hc
      simp only [List.append_assoc, List.mem_append] at hc
      rcases hc with hc | hc | hc | hc | hc
      · exact lit_no_lower_s c hc
      · exact isNumChar_toLower_ne_s c (hs1c c hc)
      · simp only [List.mem_singleton] at hc; subst hc; decide
      · exact isNumChar_toLower_ne_s c (hs2c c hc)
      · rcases List.mem_cons.mp hc with h | h
        · subst h; decide
        · simp only [List.mem_singleton] at h; subst h; decide)]
    rw [findSumToken_hit _ _ hs3ne (by
      intro c hc
      have := hs3c c hc
      unfold isNumChar at this
      exact this) (by
      intro c hc
      injection hc with h
      subst h
      decide)]
  have hval1 := showOptNat_parse d.d1
  have hval2 := showOptNat_parse d.d2
  have hval3 := showOptNat_parse d.sum
  have hw3dash : ("(sum=".toList ++ (showOptNat d.sum ++ [')']) : List Char) ≠
      "-".toList := by
    intro h
    have := congrArg List.head? h
    rw [head?_lit "(sum=".toList _ '(' rfl] at this
    simp at this
  have hjs : splitWSJS (trimC (List.drop "CurrentDice:".length
      ("CurrentDice: ".toList ++ (showOptNat d.d1 ++ (' ' :: (showOptNat d.d2 ++
        (' ' :: ("(sum=".toList ++ (showOptNat d.sum ++ [')']))))))))) =
      [showOptNat d.d1, showOptNat d.d2,
        "(sum=".toList ++ (showOptNat d.sum ++ [')'])] := by
    rw [hdrop12, splitWSJS_of_ne_nil _ (by rw [hsplitT]; simp), hsplitT]
  unfold parseMetaLine
  rw [hbody]
  simp only [hnotPhase, hyes, Bool.false_eq_true, if_false, if_true,
    eq_self_iff_true, hjs, List.get?_cons_succ, List.get?_cons_zero, hsum,
    hval1, hval2, hval3]

theorem trimC_ws_suffix (l sp : List Char) (hsp : ∀ c ∈ sp, isWS c = true)
    (hne : l ≠ [])
    (hh : ∀ c, l.head? = some c → isWS c = false)
    (hl : ∀ c, l.getLast? = some c → isWS c = false) :
    trimC (l ++ sp) = l := by
  have := trimC_sandwich [] l sp (by intro c hc; simp at hc) hsp hne hh hl
  simpa using this

/-- The lock record produced by parsing a serialized advantage lock. -/
def parsedLockOf (lock : AdvantageLock) : ParsedLock :=
  ⟨playerIdChars lock.playerId, some (lock.squareNumber : Int), lock.unlocked⟩

theorem parseMetaLine_lock (st : MetaState) (lock : AdvantageLock) :
    parseMetaLine st (lockLineOf lock) =
      { st with advantageLock := some (parsedLockOf lock) } := by
  unfold parsedLockOf
  obtain ⟨bl, hbleq, hblne, hblws, hbllast, hblct⟩ :
      ∃ bl : List Char,
        (if lock.unlocked then "true".toList else "false".toList) = bl ∧
        bl ≠ [] ∧ (∀ c ∈ bl, isWS c = false) ∧ bl.getLast? = some 'e' ∧
        containsTrueCI ("unlocked=".toList ++ bl) = lock.unlocked := by
    cases h : lock.unlocked
    · exact ⟨"false".toList, by simp, by decide, by decide, by decide,
        by decide⟩
    · exact ⟨"true".toList, by simp, by decide, by decide, by decide,
        by decide⟩
  have hpidne : playerIdChars lock.playerId ≠ [] := by
    cases lock.playerId <;> decide
  have hpidws : ∀ c ∈ playerIdChars lock.playerId, isWS c = false := by
    cases lock.playerId <;> decide
  have hncne := natToChars_ne_nil lock.squareNumber
  have hncws : ∀ c ∈ natToChars lock.squareNumber, isWS c = false :=
    fun c hc => digit_not_ws c (natToChars_all_digit _ c hc)
  have hw3ne : ("unlocked=".toList ++ bl : List Char) ≠ [] := by simp
  have hw3ws : ∀ c ∈ ("unlocked=".toList ++ bl : List Char),
      isWS c = false := by
    intro c hc
    rcases List.mem_append.mp hc with h | h
    · have hlit : ∀ x ∈ "unlocked=".toList, isWS x = false := by decide
      exact hlit c h
    · exact hblws c h
  have hform : lockLineOf lock = "# AdvantageLock: ".toList ++
      (playerIdChars lock.playerId ++ (' ' :: (natToChars lock.squareNumber ++
        (' ' :: ("unlocked=".toList ++ bl))))) := by
    unfold lockLineOf
    rw [hbleq]
    simp only [List.append_assoc]
    rfl
  have hTlast : ∀ c,
      (playerIdChars lock.playerId ++ (' ' :: (natToChars lock.squareNumber ++
        (' ' :: ("unlocked=".toList ++ bl)))) : List Char).getLast? =
        some c → isWS c = false := by
    intro c hc
    rw [getLast?_lit _ _ (by simp)] at hc
    rw [show (' ' :: (natToChars lock.squareNumber ++
      (' ' :: ("unlocked=".toList ++ bl))) : List Char) =
      [' '] ++ (natToChars lock.squareNumber ++
        (' ' :: ("unlocked=".toList ++ bl))) from rfl,
      getLast?_lit _ _ (by simp), getLast?_lit _ _ (by simp)] at hc
    rw [show (' ' :: ("unlocked=".toList ++ bl) : List Char) =
      [' '] ++ ("unlocked=".toList ++ bl) from rfl,
      getLast?_lit _ _ hw3ne, getLast?_lit _ _ hblne, hbllast] at hc
    injection hc with h
    exact h ▸ rfl
  have hThead : ∀ c,
      (playerIdChars lock.playerId ++ (' ' :: (natToChars lock.squareNumber ++
        (' ' :: ("unlocked=".toList ++ bl)))) : List Char).head? =
        some c → isWS c = false := by
    intro c hc
    obtain ⟨c0, cs0, hcons⟩ := List.exists_cons_of_ne_nil hpidne
    rw [head?_lit _ _ c0 (by rw [hcons]; rfl)] at hc
    injection hc with h
    subst h
    exact hpidws c0 (by rw [hcons]; exact List.mem_cons_self ..)
  have hbody : trimC ((lockLineOf lock).drop 1) = "AdvantageLock: ".toList ++
      (playerIdChars lock.playerId ++ (' ' :: (natToChars lock.squareNumber ++
        (' ' :: ("unlocked=".toList ++ bl))))) := by
    rw [hform, drop_lit_append _ _ 1 (by decide)]
    rw [show List.drop 1 "# AdvantageLock: ".toList =
      " AdvantageLock: ".toList from by decide]
    rw [show (" AdvantageLock: ".toList : List Char) ++
      (playerIdChars lock.playerId ++ (' ' :: (natToChars lock.squareNumber ++
        (' ' :: ("unlocked=".toList ++ bl))))) =
      [' '] ++ ("AdvantageLock: ".toList ++
        (playerIdChars lock.playerId ++ (' ' ::
          (natToChars lock.squareNumber ++
            (' ' :: ("unlocked=".toList ++ bl))))))
      from by rw [show (" AdvantageLock: ".toList : List Char) =
        [' '] ++ "AdvantageLock: ".toList from by decide, List.append_assoc]]
    rw [trimC_drop_ws _ _ (singleton_ws ' ' rfl)]
    exact trimC_eq_self _
      (head_ws_false_of_lit "AdvantageLock: ".toList _ 'A' rfl rfl)
      (last_ws_false_of_append "AdvantageLock: ".toList _ (by simp) hTlast)
  have hnotPhase : startsWithC ("AdvantageLock: ".toList ++
      (playerIdChars lock.playerId ++ (' ' :: (natToChars lock.squareNumber ++
        (' ' :: ("unlocked=".toList ++ bl)))))) "Phase:".toList = false :=
    startsWithC_head_ne _ _ 'A' 'P' (head?_lit _ _ 'A' rfl) rfl (by decide)
  have hnotDice : startsWithC ("AdvantageLock: ".toList ++
      (playerIdChars lock.playerId ++ (' ' :: (natToChars lock.squareNumber ++
        (' ' :: ("unlocked=".toList ++ bl)))))) "CurrentDice:".toList = false :=
    startsWithC_head_ne _ _ 'A' 'C' (head?_lit _ _ 'A' rfl) rfl (by decide)
  have hyes : startsWithC ("AdvantageLock: ".toList ++
      (playerIdChars lock.playerId ++ (' ' :: (natToChars lock.squareNumber ++
        (' ' :: ("unlocked=".toList ++ bl)))))) "AdvantageLock:".toList =
      true := by
    rw [startsWithC_lit_append _ _ _ (by decide)]
    decide
  have hsplitT : splitWS (playerIdChars lock.playerId ++
      (' ' :: (natToChars lock.squareNumber ++
        (' ' :: ("unlocked=".toList ++ bl))))) =
      [playerIdChars lock.playerId, natToChars lock.squareNumber,
        "unlocked=".toList ++ bl] := by
    rw [splitWS_word_append _ _ hpidne hpidws,
      splitWS_word_append _ _ hncne hncws,
      splitWS_single _ hw3ne hw3ws]
  have hjs : splitWSJS (trimC (List.drop "AdvantageLock:".length
      ("AdvantageLock: ".toList ++
        (playerIdChars lock.playerId ++ (' ' ::
          (natToChars lock.squareNumber ++
            (' ' :: ("unlocked=".toList ++ bl)))))))) =
      [playerIdChars lock.playerId, natToChars lock.squareNumber,
        "unlocked=".toList ++ bl] := by
    rw [drop_lit_append _ _ _ (by decide)]
    rw [show List.drop "AdvantageLock:".length "AdvantageLock: ".toList = [' ']
      from by decide]
    rw [trimC_drop_ws _ _ (singleton_ws ' ' rfl),
      trimC_eq_self _ hThead hTlast,
      splitWSJS_of_ne_nil _ (by rw [hsplitT]; simp), hsplitT]
  unfold parseMetaLine
  rw [hbody]
  simp only [hnotPhase, hnotDice, hyes, Bool.false_eq_true, if_false, if_true,
    eq_self_iff_true, hjs]
  rw [if_pos (by simp)]
  simp only [List.getD_cons_zero, List.getD_cons_succ,
    jsNumber_natToChars, hblct]

/-! `encodeRoll` character facts. -/

def isEntryChar (c : Char) : Bool := c.isDigit || c = ','

theorem encodeRoll_ne_nil (r : QueuedRoll) : encodeRoll r ≠ [] := by
  unfold encodeRoll
  cases r.d2 <;> simp [natToChars_ne_nil]

theorem encodeRoll_class (r : QueuedRoll) :
    ∀ c ∈ encodeRoll r, isEntryChar c = true := by
  unfold encodeRoll
  cases r.d2 with
  | none =>
    intro c hc
    rw [List.append_nil] at hc
    unfold isEntryChar
    rw [natToChars_all_digit _ c hc]
    rfl
  | some d =>
    intro c hc
    rcases List.mem_append.mp hc with h | h
    · unfold isEntryChar
      rw [natToChars_all_digit _ c h]
      rfl
    · rcases List.mem_cons.mp h with h' | h'
      · subst h'; rfl
      · unfold isEntryChar
        rw [natToChars_all_digit _ c h']
        rfl

theorem isEntryChar_not_ws (c : Char) (h : isEntryChar c = true) :
    isWS c = false := by
  unfold isEntryChar at h
  rw [Bool.or_eq_true] at h
  rcases h with h | h
  · exact digit_not_ws c h
  · rw [decide_eq_true_iff] at h
    subst h
    rfl

theorem encodeRoll_head (r : QueuedRoll) :
    ∀ c, (encodeRoll r).head? = some c → isWS c = false := by
  intro c hc
  unfold encodeRoll at hc
  obtain ⟨c0, cs0, hcons, hdig0⟩ := natToChars_head_digit r.d1
  rw [head?_lit _ _ c0 (by rw [hcons]; rfl)] at hc
  injection hc with h
  subst h
  exact digit_not_ws c0 hdig0

theorem encodeRoll_last (r : QueuedRoll) :
    ∀ c, (encodeRoll r).getLast? = some c → isWS c = false := by
  intro c hc
  cases hd2 : r.d2 with
  | none =>
    rw [show encodeRoll r = natToChars r.d1 from by
      unfold encodeRoll; rw [hd2, List.append_nil]] at hc
    exact digit_not_ws c
      (last_prop_of_all _ (natToChars_all_digit r.d1) c hc)
  | some d =>
    rw [show encodeRoll r = natToChars r.d1 ++ (',' :: natToChars d) from by
      unfold encodeRoll; rw [hd2]; rfl] at hc
    rw [getLast?_lit _ _ (by simp)] at hc
    rw [show (',' :: natToChars d : List Char) = [','] ++ natToChars d
      from rfl, getLast?_lit _ _ (natToChars_ne_nil d)] at hc
    exact digit_not_ws c
      (last_prop_of_all _ (natToChars_all_digit d) c hc)

theorem encodeRoll_no_bar (r : QueuedRoll) : '|' ∉ encodeRoll r :=
  not_mem_of_class _ isEntryChar (encodeRoll_class r) '|' (by decide)

/-- Splitting the `" | "`-joined entries on `|`, trimming, and dropping the
empty pieces recovers the entries. -/
theorem split_join_bar (es : List (List Char))
    (h : ∀ e ∈ es, e ≠ [] ∧ '|' ∉ e ∧
      (∀ c, e.head? = some c → isWS c = false) ∧
      (∀ c, e.getLast? = some c → isWS c = false))
    (hne : es ≠ []) :
    ((splitOnChar '|' (joinSep " | ".toList es)).map trimC).filter
      (· ≠ []) = es := by
  induction es with
  | nil => exact absurd rfl hne
  | cons e rest ih =>
    obtain ⟨hene, hebar, hehead, helast⟩ := h e (List.mem_cons_self ..)
    cases rest with
    | nil =>
      show ((splitOnChar '|' e).map trimC).filter (· ≠ []) = [e]
      rw [splitOnChar_no_sep '|' e hebar, List.map_cons, List.map_nil,
        trimC_eq_self e hehead helast, List.filter_cons_of_pos (by simp [hene]),
        List.filter_nil]
    | cons e' rest' =>
      have hrest : ∀ x ∈ e' :: rest', x ≠ [] ∧ '|' ∉ x ∧
          (∀ c, x.head? = some c → isWS c = false) ∧
          (∀ c, x.getLast? = some c → isWS c = false) :=
        fun x hx => h x (List.mem_cons_of_mem _ hx)
      have hform : joinSep " | ".toList (e :: e' :: rest') =
          (e ++ [' ']) ++ '|' :: (' ' :: joinSep " | ".toList (e' :: rest')) := by
        rw [show joinSep " | ".toList (e :: e' :: rest') =
          e ++ " | ".toList ++ joinSep " | ".toList (e' :: rest') from rfl]
        simp only [List.append_assoc]
        rfl
      have hJne := splitOnChar_ne_nil '|' (joinSep " | ".toList (e' :: rest'))
      obtain ⟨hd, tl, hJ⟩ : ∃ hd tl,
          splitOnChar '|' (joinSep " | ".toList (e' :: rest')) = hd :: tl := by
        cases hJ : splitOnChar '|' (joinSep " | ".toList (e' :: rest')) with
        | nil => exact absurd hJ hJne
        | cons a b => exact ⟨a, b, rfl⟩
      have hbar2 : '|' ∉ e ++ [' '] := by
        intro hm
        rcases List.mem_append.mp hm with h' | h'
        · exact hebar h'
        · simp at h'
      rw [hform, splitOnChar_append_sep '|' _ _ hbar2,
        splitOnChar_cons_of_ne '|' ' ' _ (by decide) hJ,
        List.map_cons, List.map_cons,
        trimC_ws_suffix e [' '] (singleton_ws ' ' rfl) hene hehead helast,
        show (' ' :: hd : List Char) = [' '] ++ hd from rfl,
        trimC_drop_ws _ _ (singleton_ws ' ' rfl),
        List.filter_cons_of_pos (by simp [hene])]
      have := ih hrest (by simp)
      rw [hJ, List.map_cons] at this
      rw [this]

theorem parseMetaLine_rolls (st : MetaState) (rolls : List QueuedRoll)
    (hne : rolls ≠ []) :
    parseMetaLine st (rollsLineOf rolls) =
      { st with queuedRolls :=
          rolls.map (fun r => ⟨some (r.d1 : Int), r.d2.map Int.ofNat⟩) } := by
  have hentries : ∀ e ∈ rolls.map encodeRoll, e ≠ [] ∧ '|' ∉ e ∧
      (∀ c, e.head? = some c → isWS c = false) ∧
      (∀ c, e.getLast? = some c → isWS c = false) := by
    intro e he
    obtain ⟨r, _, rfl⟩ := List.mem_map.mp he
    exact ⟨encodeRoll_ne_nil r, encodeRoll_no_bar r, encodeRoll_head r,
      encodeRoll_last r⟩
  have hR := split_join_bar (rolls.map encodeRoll) hentries (by simp [hne])
  have hRne : joinSep " | ".toList (rolls.map encodeRoll) ≠ [] :=
    joinSep_ne_nil _ _ (by simp [hne])
      (fun w hw => (hentries w hw).1)
  have hRhead : ∀ c,
      (joinSep " | ".toList (rolls.map encodeRoll)).head? = some c →
        isWS c = false :=
    joinSep_head_prop _ _ (fun w hw => (hentries w hw).1)
      (fun w hw => (hentries w hw).2.2.1)
  have hRlast : ∀ c,
      (joinSep " | ".toList (rolls.map encodeRoll)).getLast? = some c →
        isWS c = false :=
    joinSep_last_prop _ _ (fun w hw => (hentries w hw).1)
      (fun w hw => (hentries w hw).2.2.2)
  have hbody : trimC ((rollsLineOf rolls).drop 1) = "QueuedRolls: ".toList ++
      joinSep " | ".toList (rolls.map encodeRoll) := by
    unfold rollsLineOf
    rw [drop_lit_append _ _ 1 (by decide)]
    rw [show List.drop 1 "# QueuedRolls: ".toList = " QueuedRolls: ".toList
      from by decide]
    rw [show (" QueuedRolls: ".toList : List Char) ++
      joinSep " | ".toList (rolls.map encodeRoll) =
      [' '] ++ ("QueuedRolls: ".toList ++
        joinSep " | ".toList (rolls.map encodeRoll))
      from by rw [show (" QueuedRolls: ".toList : List Char) =
        [' '] ++ "QueuedRolls: ".toList from by decide, List.append_assoc]]
    rw [trimC_drop_ws _ _ (singleton_ws ' ' rfl)]
    exact trimC_eq_self _
      (head_ws_false_of_lit "QueuedRolls: ".toList _ 'Q' rfl rfl)
      (last_ws_false_of_append "QueuedRolls: ".toList _ hRne hRlast)
  have hnotPhase : startsWithC ("QueuedRolls: ".toList ++
      joinSep " | ".toList (rolls.map encodeRoll)) "Phase:".toList = false :=
    startsWithC_head_ne _ _ 'Q' 'P' (head?_lit _ _ 'Q' rfl) rfl (by decide)
  have hnotDice : startsWithC ("QueuedRolls: ".toList ++
      joinSep " | ".toList (rolls.map encodeRoll)) "CurrentDice:".toList =
      false :=
    startsWithC_head_ne _ _ 'Q' 'C' (head?_lit _ _ 'Q' rfl) rfl (by decide)
  have hnotLock : startsWithC ("QueuedRolls: ".toList ++
      joinSep " | ".toList (rolls.map encodeRoll)) "AdvantageLock:".toList =
      false :=
    startsWithC_head_ne _ _ 'Q' 'A' (head?_lit _ _ 'Q' rfl) rfl (by decide)
  have hyes : startsWithC ("QueuedRolls: ".toList ++
      joinSep " | ".toList (rolls.map encodeRoll)) "QueuedRolls:".toList =
      true := by
    rw [startsWithC_lit_append _ _ _ (by decide)]
    decide
  have hpayload : trimC (List.drop "QueuedRolls:".length
      ("QueuedRolls: ".toList ++
        joinSep " | ".toList (rolls.map encodeRoll))) =
      joinSep " | ".toList (rolls.map encodeRoll) := by
    rw [drop_lit_append _ _ _ (by decide)]
    rw [show List.drop "QueuedRolls:".length "QueuedRolls: ".toList = [' ']
      from by decide]
    rw [trimC_drop_ws _ _ (singleton_ws ' ' rfl)]
    exact trimC_eq_self _ hRhead hRlast
  unfold parseMetaLine
  rw [hbody]
  simp only [hnotPhase, hnotDice, hnotLock, hyes, Bool.false_eq_true,
    if_false, if_true, eq_self_iff_true, hpayload, hR]
  rw [List.map_map]
  congr 1
  apply List.map_congr_left
  intro r _
  simp only [Function.comp_apply]
  have hnc1 : trimC (natToChars r.d1) = natToChars r.d1 :=
    trimC_eq_self _
      (fun c hc => digit_not_ws c
        (head_prop_of_all _ (natToChars_all_digit r.d1) c hc))
      (fun c hc => digit_not_ws c
        (last_prop_of_all _ (natToChars_all_digit r.d1) c hc))
  cases hd2 : r.d2 with
  | none =>
    have he : encodeRoll r = natToChars r.d1 := by
      unfold encodeRoll
      rw [hd2, List.append_nil]
    rw [he, splitOnChar_no_sep ',' _
      (not_mem_of_class _ Char.isDigit (natToChars_all_digit r.d1) ','
        (by decide))]
    simp only [List.map_cons, List.map_nil, hnc1, jsNumber_natToChars, hd2]
    rfl
  | some d =>
    have hnc2 : trimC (natToChars d) = natToChars d :=
      trimC_eq_self _
        (fun c hc => digit_not_ws c
          (head_prop_of_all _ (natToChars_all_digit d) c hc))
        (fun c hc => digit_not_ws c
          (last_prop_of_all _ (natToChars_all_digit d) c hc))
    have he : encodeRoll r = natToChars r.d1 ++ ',' :: natToChars d := by
      unfold encodeRoll
      rw [hd2]
      rfl
    rw [he, splitOnChar_append_sep ',' _ _
      (not_mem_of_class _ Char.isDigit (natToChars_all_digit r.d1) ','
        (by decide)),
      splitOnChar_no_sep ',' _
      (not_mem_of_class _ Char.isDigit (natToChars_all_digit d) ','
        (by decide))]
    simp only [List.map_cons, List.map_nil, hnc1, hnc2, jsNumber_natToChars,
      hd2]
    rfl

/-! ### Parsing the serialized base lines -/

theorem except_bind_ok {α β : Type} (a : α) (f : α → Except String β) :
    (Except.ok a >>= f : Except String β) = f a := rfl

theorem except_pure {α : Type} (a : α) :
    (pure a : Except String α) = Except.ok a := rfl

theorem append_ne_of_longer (lit X tgt : List Char)
    (h : tgt.length < lit.length) : lit ++ X ≠ tgt := by
  intro he
  have := congrArg List.length he
  rw [List.length_append] at this
  omega

theorem parseSquaresC_content (arr : List Nat) (hne : arr ≠ []) :
    parseSquaresC ("Squares: ".toList ++ squaresLineContent arr) =
      .ok (arr.map (fun n => some (Int.ofNat n))) := by
  have hXne := squaresLineContent_ne_nil arr hne
  have hdecomp : ("Squares: ".toList ++ squaresLineContent arr : List Char) =
      "Squares".toList ++ ':' :: (' ' :: squaresLineContent arr) := by
    rw [show ("Squares: ".toList : List Char) =
      "Squares".toList ++ [':', ' '] from by decide, List.append_assoc]
    rfl
  have hns : ':' ∉ (' ' :: squaresLineContent arr : List Char) := by
    intro hm
    rcases List.mem_cons.mp hm with h | h
    · exact absurd h (by decide)
    · exact not_mem_of_class _ isSquaresChar (squaresLineContent_class arr) ':'
        (by decide) h
  have htrim : trimC (' ' :: squaresLineContent arr) =
      squaresLineContent arr := by
    rw [show (' ' :: squaresLineContent arr : List Char) =
      [' '] ++ squaresLineContent arr from rfl,
      trimC_drop_ws _ _ (singleton_ws ' ' rfl),
      trimC_eq_self _ (squaresLineContent_head_not_ws arr)
        (squaresLineContent_last_not_ws arr)]
  unfold parseSquaresC
  rw [hdecomp, splitOnChar_append_sep ':' _ _ (by decide),
    splitOnChar_no_sep ':' _ hns]
  simp only [List.get?_cons_succ, List.get?_cons_zero]
  rw [if_neg (by simp)]
  rw [htrim, splitWS_squaresLineContent arr, List.map_map]
  have : (jsNumber ∘ natToChars) = fun n : Nat => some (Int.ofNat n) := by
    funext n
    exact jsNumber_natToChars n
  rw [this]

theorem parseScoreC_content (s : Int) :
    parseScoreC ("Score: ".toList ++ intToChars s) = .ok s := by
  have hdecomp : ("Score: ".toList ++ intToChars s : List Char) =
      "Score".toList ++ ':' :: (' ' :: intToChars s) := by
    rw [show ("Score: ".toList : List Char) =
      "Score".toList ++ [':', ' '] from by decide, List.append_assoc]
    rfl
  have hns : ':' ∉ (' ' :: intToChars s : List Char) := by
    intro hm
    rcases List.mem_cons.mp hm with h | h
    · exact absurd h (by decide)
    · exact not_mem_of_class _ isNumChar (intToChars_class s) ':'
        (by decide) h
  have htrim : trimC (' ' :: intToChars s) = intToChars s := by
    rw [show (' ' :: intToChars s : List Char) = [' '] ++ intToChars s
      from rfl,
      trimC_drop_ws _ _ (singleton_ws ' ' rfl),
      trimC_eq_self _ (intToChars_head_not_ws s) (intToChars_last_not_ws s)]
  unfold parseScoreC
  rw [hdecomp, splitOnChar_append_sep ':' _ _ (by decide),
    splitOnChar_no_sep ':' _ hns]
  simp only [List.get?_cons_succ, List.get?_cons_zero]
  rw [if_neg (by simp)]
  rw [htrim, jsNumber_intToChars]

theorem turnLabel_maps (p : PlayerId) :
    mapLabel (trimC (((splitOnChar ':'
      ("First Turn: ".toList ++ turnLabel p)).get? 1).getD [])) =
      Except.ok p := by
  cases p <;> rfl

theorem turnLabel_maps_next (p : PlayerId) :
    mapLabel (trimC (((splitOnChar ':'
      ("Next Turn: ".toList ++ turnLabel p)).get? 1).getD [])) =
      Except.ok p := by
  cases p <;> rfl

theorem sw_lit_head_ne (lit X pre : List Char) (c p : Char)
    (hl : lit.head? = some c) (hp : pre.head? = some p) (hne : c ≠ p) :
    startsWithC (lit ++ X) pre = false :=
  startsWithC_head_ne _ _ c p (head?_lit _ _ c hl) hp hne

theorem ne_human_of_longer (lit X : List Char)
    (h : ("Human:".toList : List Char).length < lit.length) :
    ¬(decide (lit ++ X = "Human:".toList) = true) := by
  intro hd
  rw [decide_eq_true_iff] at hd
  exact append_ne_of_longer _ _ _ h hd

/-- Parsing the trimmed serialized base lines followed by any remainder
`rest` (the blank separator, metadata lines, trailing empty piece):
the base fields parse back and the `#`-metadata fold runs over `rest`. -/
theorem parseLinesC_serialized (cArr hArr : List Nat) (cs hs : Int)
    (ft nt : PlayerId) (rest : List (List Char)) (st : MetaState)
    (hc : cArr ≠ []) (hh : hArr ≠ [])
    (hst : (rest.filter (fun l => startsWithC l "#".toList)).foldl
      parseMetaLine ⟨"awaitingRoll".toList, ⟨none, none, none⟩, none, []⟩ =
      st) :
    parseLinesC
      ("Computer:".toList ::
        ("Squares: ".toList ++ squaresLineContent cArr) ::
        ("Score: ".toList ++ intToChars cs) ::
        [] ::
        "Human:".toList ::
        ("Squares: ".toList ++ squaresLineContent hArr) ::
        ("Score: ".toList ++ intToChars hs) ::
        [] ::
        ("First Turn: ".toList ++ turnLabel ft) ::
        ("Next Turn: ".toList ++ turnLabel nt) ::
        [] :: rest) =
      Except.ok ⟨cArr.map (fun n => some (Int.ofNat n)),
        hArr.map (fun n => some (Int.ofNat n)), cs, hs, ft, nt,
        st.phase, st.currentDice, st.advantageLock, st.queuedRolls⟩ := by
  have hswsq1 : startsWithC ("Squares: ".toList ++ squaresLineContent cArr)
      "Squares:".toList = true := by
    rw [startsWithC_lit_append _ _ _ (by decide)]; decide
  have hfl1 : findLineC
      ("Computer:".toList ::
        ("Squares: ".toList ++ squaresLineContent cArr) ::
        ("Score: ".toList ++ intToChars cs) ::
        [] ::
        "Human:".toList ::
        ("Squares: ".toList ++ squaresLineContent hArr) ::
        ("Score: ".toList ++ intToChars hs) ::
        [] ::
        ("First Turn: ".toList ++ turnLabel ft) ::
        ("Next Turn: ".toList ++ turnLabel nt) ::
        [] :: rest) "Squares:".toList =
      Except.ok ("Squares: ".toList ++ squaresLineContent cArr) := by
    unfold findLineC
    rw [List.find?_cons_of_neg _ (by decide),
      List.find?_cons_of_pos _ (by exact hswsq1)]
  have hfl2 : findLineC
      ("Computer:".toList ::
        ("Squares: ".toList ++ squaresLineContent cArr) ::
        ("Score: ".toList ++ intToChars cs) ::
        [] ::
        "Human:".toList ::
        ("Squares: ".toList ++ squaresLineContent hArr) ::
        ("Score: ".toList ++ intToChars hs) ::
        [] ::
        ("First Turn: ".toList ++ turnLabel ft) ::
        ("Next Turn: ".toList ++ turnLabel nt) ::
        [] :: rest) "Score:".toList =
      Except.ok ("Score: ".toList ++ intToChars cs) := by
    unfold findLineC
    rw [List.find?_cons_of_neg _ (by decide),
      List.find?_cons_of_neg _ (by
        rw [startsWithC_lit_append _ _ _ (by decide)]
        decide),
      List.find?_cons_of_pos _ (by
        rw [startsWithC_lit_append _ _ _ (by decide)]
        decide)]
  have hidx : List.findIdx? (fun l => l = "Human:".toList)
      ("Computer:".toList ::
        ("Squares: ".toList ++ squaresLineContent cArr) ::
        ("Score: ".toList ++ intToChars cs) ::
        [] ::
        "Human:".toList ::
        ("Squares: ".toList ++ squaresLineContent hArr) ::
        ("Score: ".toList ++ intToChars hs) ::
        [] ::
        ("First Turn: ".toList ++ turnLabel ft) ::
        ("Next Turn: ".toList ++ turnLabel nt) ::
        [] :: rest) = some 4 := by
    rw [List.findIdx?_cons, if_neg (by decide), List.findIdx?_cons,
      if_neg (ne_human_of_longer _ _ (by decide)), List.findIdx?_cons,
      if_neg (ne_human_of_longer _ _ (by decide)), List.findIdx?_cons,
      if_neg (by decide), List.findIdx?_cons, if_pos (by decide)]
  have hfhsq : List.find? (fun l => startsWithC l "Squares:".toList)
      (("Squares: ".toList ++ squaresLineContent hArr) ::
        ("Score: ".toList ++ intToChars hs) ::
        [] ::
        ("First Turn: ".toList ++ turnLabel ft) ::
        ("Next Turn: ".toList ++ turnLabel nt) ::
        [] :: rest) =
      some ("Squares: ".toList ++ squaresLineContent hArr) := by
    rw [List.find?_cons_of_pos _ (by
      rw [startsWithC_lit_append _ _ _ (by decide)]
      decide)]
  have hfhsc : List.find? (fun l => startsWithC l "Score:".toList)
      (("Squares: ".toList ++ squaresLineContent hArr) ::
        ("Score: ".toList ++ intToChars hs) ::
        [] ::
        ("First Turn: ".toList ++ turnLabel ft) ::
        ("Next Turn: ".toList ++ turnLabel nt) ::
        [] :: rest) =
      some ("Score: ".toList ++ intToChars hs) := by
    rw [List.find?_cons_of_neg _ (by
        rw [startsWithC_lit_append _ _ _ (by decide)]
        decide),
      List.find?_cons_of_pos _ (by
        rw [startsWithC_lit_append _ _ _ (by decide)]
        decide)]
  have hfl3 : findLineC
      ("Computer:".toList ::
        ("Squares: ".toList ++ squaresLineContent cArr) ::
        ("Score: ".toList ++ intToChars cs) ::
        [] ::
        "Human:".toList ::
        ("Squares: ".toList ++ squaresLineContent hArr) ::
        ("Score: ".toList ++ intToChars hs) ::
        [] ::
        ("First Turn: ".toList ++ turnLabel ft) ::
        ("Next Turn: ".toList ++ turnLabel nt) ::
        [] :: rest) "First Turn:".toList =
      Except.ok ("First Turn: ".toList ++ turnLabel ft) := by
    unfold findLineC
    rw [List.find?_cons_of_neg _ (by decide),
      List.find?_cons_of_neg _ (by
        rw [sw_lit_head_ne _ _ _ 'S' 'F' (by rfl) (by rfl) (by decide)]
        exact Bool.false_ne_true),
      List.find?_cons_of_neg _ (by
        rw [sw_lit_head_ne _ _ _ 'S' 'F' (by rfl) (by rfl) (by decide)]
        exact Bool.false_ne_true),
      List.find?_cons_of_neg _ (by decide),
      List.find?_cons_of_neg _ (by decide),
      List.find?_cons_of_neg _ (by
        rw [sw_lit_head_ne _ _ _ 'S' 'F' (by rfl) (by rfl) (by decide)]
        exact Bool.false_ne_true),
      List.find?_cons_of_neg _ (by
        rw [sw_lit_head_ne _ _ _ 'S' 'F' (by rfl) (by rfl) (by decide)]
        exact Bool.false_ne_true),
      List.find?_cons_of_neg _ (by decide),
      List.find?_cons_of_pos _ (by
        rw [startsWithC_lit_append _ _ _ (by decide)]
        decide)]
  have hfl4 : findLineC
      ("Computer:".toList ::
        ("Squares: ".toList ++ squaresLineContent cArr) ::
        ("Score: ".toList ++ intToChars cs) ::
        [] ::
        "Human:".toList ::
        ("Squares: ".toList ++ squaresLineContent hArr) ::
        ("Score: ".toList ++ intToChars hs) ::
        [] ::
        ("First Turn: ".toList ++ turnLabel ft) ::
        ("Next Turn: ".toList ++ turnLabel nt) ::
        [] :: rest) "Next Turn:".toList =
      Except.ok ("Next Turn: ".toList ++ turnLabel nt) := by
    unfold findLineC
    rw [List.find?_cons_of_neg _ (by decide),
      List.find?_cons_of_neg _ (by
        rw [sw_lit_head_ne _ _ _ 'S' 'N' (by rfl) (by rfl) (by decide)]
        exact Bool.false_ne_true),
      List.find?_cons_of_neg _ (by
        rw [sw_lit_head_ne _ _ _ 'S' 'N' (by rfl) (by rfl) (by decide)]
        exact Bool.false_ne_true),
      List.find?_cons_of_neg _ (by decide),
      List.find?_cons_of_neg _ (by decide),
      List.find?_cons_of_neg _ (by
        rw [sw_lit_head_ne _ _ _ 'S' 'N' (by rfl) (by rfl) (by decide)]
        exact Bool.false_ne_true),
      List.find?_cons_of_neg _ (by
        rw [sw_lit_head_ne _ _ _ 'S' 'N' (by rfl) (by rfl) (by decide)]
        exact Bool.false_ne_true),
      List.find?_cons_of_neg _ (by decide),
      List.find?_cons_of_neg _ (by
        rw [sw_lit_head_ne _ _ _ 'F' 'N' (by rfl) (by rfl) (by decide)]
        exact Bool.false_ne_true),
      List.find?_cons_of_pos _ (by
        rw [startsWithC_lit_append _ _ _ (by decide)]
        decide)]
  have hfilter : List.filter (fun l => startsWithC l "#".toList)
      ("Computer:".toList ::
        ("Squares: ".toList ++ squaresLineContent cArr) ::
        ("Score: ".toList ++ intToChars cs) ::
        [] ::
        "Human:".toList ::
        ("Squares: ".toList ++ squaresLineContent hArr) ::
        ("Score: ".toList ++ intToChars hs) ::
        [] ::
        ("First Turn: ".toList ++ turnLabel ft) ::
        ("Next Turn: ".toList ++ turnLabel nt) ::
        [] :: rest) =
      rest.filter (fun l => startsWithC l "#".toList) := by
    rw [List.filter_cons_of_neg (by decide),
      List.filter_cons_of_neg (by
        rw [sw_lit_head_ne _ _ _ 'S' '#' (by rfl) (by rfl) (by decide)]
        exact Bool.false_ne_true),
      List.filter_cons_of_neg (by
        rw [sw_lit_head_ne _ _ _ 'S' '#' (by rfl) (by rfl) (by decide)]
        exact Bool.false_ne_true),
      List.filter_cons_of_neg (by decide),
      List.filter_cons_of_neg (by decide),
      List.filter_cons_of_neg (by
        rw [sw_lit_head_ne _ _ _ 'S' '#' (by rfl) (by rfl) (by decide)]
        exact Bool.false_ne_true),
      List.filter_cons_of_neg (by
        rw [sw_lit_head_ne _ _ _ 'S' '#' (by rfl) (by rfl) (by decide)]
        exact Bool.false_ne_true),
      List.filter_cons_of_neg (by decide),
      List.filter_cons_of_neg (by
        rw [sw_lit_head_ne _ _ _ 'F' '#' (by rfl) (by rfl) (by decide)]
        exact Bool.false_ne_true),
      List.filter_cons_of_neg (by
        rw [sw_lit_head_ne _ _ _ 'N' '#' (by rfl) (by rfl) (by decide)]
        exact Bool.false_ne_true),
      List.filter_cons_of_neg (by decide)]
  unfold parseLinesC
  rw [hfl1, except_bind_ok, hfl2, except_bind_ok, hidx]
  have hfhsq' : List.find? (fun l => startsWithC l "Squares:".toList)
      (List.drop (4 + 1)
        ("Computer:".toList ::
          ("Squares: ".toList ++ squaresLineContent cArr) ::
          ("Score: ".toList ++ intToChars cs) ::
          [] ::
          "Human:".toList ::
          ("Squares: ".toList ++ squaresLineContent hArr) ::
          ("Score: ".toList ++ intToChars hs) ::
          [] ::
          ("First Turn: ".toList ++ turnLabel ft) ::
          ("Next Turn: ".toList ++ turnLabel nt) ::
          [] :: rest)) =
      some ("Squares: ".toList ++ squaresLineContent hArr) := hfhsq
  have hfhsc' : List.find? (fun l => startsWithC l "Score:".toList)
      (List.drop (4 + 1)
        ("Computer:".toList ::
          ("Squares: ".toList ++ squaresLineContent cArr) ::
          ("Score: ".toList ++ intToChars cs) ::
          [] ::
          "Human:".toList ::
          ("Squares: ".toList ++ squaresLineContent hArr) ::
          ("Score: ".toList ++ intToChars hs) ::
          [] ::
          ("First Turn: ".toList ++ turnLabel ft) ::
          ("Next Turn: ".toList ++ turnLabel nt) ::
          [] :: rest)) =
      some ("Score: ".toList ++ intToChars hs) := hfhsc
  simp only [hfhsq', hfhsc', hfl3, hfl4, except_bind_ok,
    parseSquaresC_content cArr hc, parseSquaresC_content hArr hh,
    parseScoreC_content cs, parseScoreC_content hs,
    turnLabel_maps ft, turnLabel_maps_next nt, hfilter, hst, except_pure]

/-! ### Per-line facts needed to assemble the round trip -/

theorem startsWithC_single (l : List Char) (c : Char) (h : l.head? = some c) :
    startsWithC l [c] = true := by
  cases l with
  | nil => simp at h
  | cons a t =>
    injection h with h
    subst h
    unfold startsWithC
    simp

theorem turnLabel_ne_nil (p : PlayerId) : turnLabel p ≠ [] := by
  cases p <;> decide

theorem turnLabel_not_ws (p : PlayerId) :
    ∀ c ∈ turnLabel p, isWS c = false := by
  cases p <;> decide

theorem phaseLineOf_head (phase : List Char) :
    (phaseLineOf phase).head? = some '#' :=
  head?_lit _ _ '#' rfl

theorem diceLineOf_head (d : DiceVal) : (diceLineOf d).head? = some '#' := by
  unfold diceLineOf
  exact head?_lit _ _ '#' (head?_lit _ _ '#' (head?_lit _ _ '#'
    (head?_lit _ _ '#' (head?_lit _ _ '#' (head?_lit _ _ '#' rfl)))))

theorem lockLineOf_head (lock : AdvantageLock) :
    (lockLineOf lock).head? = some '#' := by
  unfold lockLineOf
  exact head?_lit _ _ '#' (head?_lit _ _ '#' (head?_lit _ _ '#'
    (head?_lit _ _ '#' (head?_lit _ _ '#' rfl))))

theorem rollsLineOf_head (rolls : List QueuedRoll) :
    (rollsLineOf rolls).head? = some '#' :=
  head?_lit _ _ '#' rfl

theorem phaseLineOf_last (phase : List Char) (hne : phase ≠ [])
    (hws : ∀ c ∈ phase, isWS c = false) :
    ∀ c, (phaseLineOf phase).getLast? = some c → isWS c = false := by
  intro c hc
  unfold phaseLineOf at hc
  rw [getLast?_lit _ _ hne] at hc
  exact last_prop_of_all phase hws c hc

theorem diceLineOf_last (d : DiceVal) :
    ∀ c, (diceLineOf d).getLast? = some c → isWS c = false := by
  intro c hc
  unfold diceLineOf at hc
  rw [getLast?_lit _ _ (by decide)] at hc
  rw [show ((")".toList : List Char)).getLast? = some ')' from rfl] at hc
  injection hc with h
  exact h ▸ rfl

theorem lockLineOf_last (lock : AdvantageLock) :
    ∀ c, (lockLineOf lock).getLast? = some c → isWS c = false := by
  intro c hc
  unfold lockLineOf at hc
  cases hu : lock.unlocked <;> rw [hu] at hc
  · rw [if_neg (by simp)] at hc
    rw [getLast?_lit _ _ (by decide)] at hc
    rw [show (("false".toList : List Char)).getLast? = some 'e' from rfl] at hc
    injection hc with h
    exact h ▸ rfl
  · rw [if_pos rfl] at hc
    rw [getLast?_lit _ _ (by decide)] at hc
    rw [show (("true".toList : List Char)).getLast? = some 'e' from rfl] at hc
    injection hc with h
    exact h ▸ rfl

theorem rollsLineOf_last (rolls : List QueuedRoll) (hne : rolls ≠ []) :
    ∀ c, (rollsLineOf rolls).getLast? = some c → isWS c = false := by
  intro c hc
  unfold rollsLineOf at hc
  rw [getLast?_lit _ _ (joinSep_ne_nil _ _ (by simp [hne])
    (fun w hw => by
      obtain ⟨r, _, rfl⟩ := List.mem_map.mp hw
      exact encodeRoll_ne_nil r))] at hc
  exact joinSep_last_prop _ _
    (fun w hw => by
      obtain ⟨r, _, rfl⟩ := List.mem_map.mp hw
      exact encodeRoll_ne_nil r)
    (fun w hw => by
      obtain ⟨r, _, rfl⟩ := List.mem_map.mp hw
      exact encodeRoll_last r) c hc

theorem head_not_ws_of_hash {l : List Char} (h : l.head? = some '#') :
    ∀ c, l.head? = some c → isWS c = false := by
  intro c hc
  rw [h] at hc
  injection hc with hc
  exact hc ▸ rfl

/-! Safe-character facts for the newline-freedom of every serialized line. -/

theorem mem_diceLineOf (d : DiceVal) :
    ∀ c ∈ diceLineOf d, c ∈ "# CurentDice: (sum=)".toList ∨
      isNumChar c = true := by
  intro c hc
  unfold diceLineOf at hc
  simp only [List.append_assoc, List.mem_append] at hc
  rcases hc with hc | hc | hc | hc | hc | hc | hc
  · exact Or.inl (by
      have : ∀ x ∈ "# CurrentDice: ".toList,
        x ∈ "# CurentDice: (sum=)".toList := by decide
      exact this c hc)
  · exact Or.inr (showOptNat_class d.d1 c hc)
  · exact Or.inl (by
      have : ∀ x ∈ " ".toList, x ∈ "# CurentDice: (sum=)".toList := by decide
      exact this c hc)
  · exact Or.inr (showOptNat_class d.d2 c hc)
  · exact Or.inl (by
      have : ∀ x ∈ " (sum=".toList, x ∈ "# CurentDice: (sum=)".toList := by
        decide
      exact this c hc)
  · exact Or.inr (showOptNat_class d.sum c hc)
  · exact Or.inl (by
      have : ∀ x ∈ ")".toList, x ∈ "# CurentDice: (sum=)".toList := by decide
      exact this c hc)

theorem mem_lockLineOf (lock : AdvantageLock) :
    ∀ c ∈ lockLineOf lock,
      c ∈ "# AdvantageLock: unlocked=truefalseHUMANCOMPUTER".toList ∨
        c.isDigit = true := by
  intro c hc
  unfold lockLineOf at hc
  simp only [List.append_assoc, List.mem_append] at hc
  rcases hc with hc | hc | hc | hc | hc | hc
  · exact Or.inl (by
      have : ∀ x ∈ "# AdvantageLock: ".toList,
        x ∈ "# AdvantageLock: unlocked=truefalseHUMANCOMPUTER".toList := by
        decide
      exact this c hc)
  · refine Or.inl ?_
    cases hp : lock.playerId <;> rw [hp] at hc
    · have : ∀ x ∈ playerIdChars .HUMAN,
        x ∈ "# AdvantageLock: unlocked=truefalseHUMANCOMPUTER".toList := by
        decide
      exact this c hc
    · have : ∀ x ∈ playerIdChars .COMPUTER,
        x ∈ "# AdvantageLock: unlocked=truefalseHUMANCOMPUTER".toList := by
        decide
      exact this c hc
  · exact Or.inl (by
      have : ∀ x ∈ " ".toList,
        x ∈ "# AdvantageLock: unlocked=truefalseHUMANCOMPUTER".toList := by
        decide
      exact this c hc)
  · exact Or.inr (natToChars_all_digit _ c hc)
  · exact Or.inl (by
      have : ∀ x ∈ " unlocked=".toList,
        x ∈ "# AdvantageLock: unlocked=truefalseHUMANCOMPUTER".toList := by
        decide
      exact this c hc)
  · refine Or.inl ?_
    cases hu : lock.unlocked <;> rw [hu] at hc
    · rw [if_neg (by simp)] at hc
      have : ∀ x ∈ "false".toList,
        x ∈ "# AdvantageLock: unlocked=truefalseHUMANCOMPUTER".toList := by
        decide
      exact this c hc
    · rw [if_pos rfl] at hc
      have : ∀ x ∈ "true".toList,
        x ∈ "# AdvantageLock: unlocked=truefalseHUMANCOMPUTER".toList := by
        decide
      exact this c hc

theorem mem_rollsLineOf (rolls : List QueuedRoll) :
    ∀ c ∈ rollsLineOf rolls,
      c ∈ "# QueuedRols: |".toList ∨ isEntryChar c = true := by
  intro c hc
  unfold rollsLineOf at hc
  rcases List.mem_append.mp hc with hc | hc
  · exact Or.inl (by
      have : ∀ x ∈ "# QueuedRolls: ".toList, x ∈ "# QueuedRols: |".toList := by
        decide
      exact this c hc)
  · rcases joinSep_mem _ _ c hc with h | ⟨w, hw, hcw⟩
    · exact Or.inl (by
        have : ∀ x ∈ " | ".toList, x ∈ "# QueuedRols: |".toList := by decide
        exact this c h)
    · obtain ⟨r, _, rfl⟩ := List.mem_map.mp hw
      exact Or.inr (encodeRoll_class r c hcw)

theorem trim_squares_line (arr : List Nat) (hne : arr ≠ []) :
    trimC ("   Squares: ".toList ++ squaresLineContent arr) =
      "Squares: ".toList ++ squaresLineContent arr := by
  rw [show ("   Squares: ".toList ++ squaresLineContent arr : List Char) =
    "   ".toList ++ ("Squares: ".toList ++ squaresLineContent arr) from by
    rw [show ("   Squares: ".toList : List Char) =
      "   ".toList ++ "Squares: ".toList from by decide, List.append_assoc]]
  rw [trimC_drop_ws _ _ (by decide)]
  exact trimC_eq_self _
    (head_ws_false_of_lit "Squares: ".toList _ 'S' rfl rfl)
    (last_ws_false_of_append "Squares: ".toList _
      (squaresLineContent_ne_nil arr hne) (squaresLineContent_last_not_ws arr))

theorem trim_score_line (s : Int) :
    trimC ("   Score: ".toList ++ intToChars s) =
      "Score: ".toList ++ intToChars s := by
  rw [show ("   Score: ".toList ++ intToChars s : List Char) =
    "   ".toList ++ ("Score: ".toList ++ intToChars s) from by
    rw [show ("   Score: ".toList : List Char) =
      "   ".toList ++ "Score: ".toList from by decide, List.append_assoc]]
  rw [trimC_drop_ws _ _ (by decide)]
  exact trimC_eq_self _
    (head_ws_false_of_lit "Score: ".toList _ 'S' rfl rfl)
    (last_ws_false_of_append "Score: ".toList _ (intToChars_ne_nil s)
      (intToChars_last_not_ws s))

theorem trim_first_turn_line (p : PlayerId) :
    trimC ("First Turn: ".toList ++ turnLabel p) =
      "First Turn: ".toList ++ turnLabel p :=
  trimC_eq_self _ (head_ws_false_of_lit "First Turn: ".toList _ 'F' rfl rfl)
    (last_ws_false_of_append _ _ (turnLabel_ne_nil p)
      (last_prop_of_all _ (turnLabel_not_ws p)))

theorem trim_next_turn_line (p : PlayerId) :
    trimC ("Next Turn: ".toList ++ turnLabel p) =
      "Next Turn: ".toList ++ turnLabel p :=
  trimC_eq_self _ (head_ws_false_of_lit "Next Turn: ".toList _ 'N' rfl rfl)
    (last_ws_false_of_append _ _ (turnLabel_ne_nil p)
      (last_prop_of_all _ (turnLabel_not_ws p)))

theorem trim_phase_line (phase : List Char) (hne : phase ≠ [])
    (hws : ∀ c ∈ phase, isWS c = false) :
    trimC (phaseLineOf phase) = phaseLineOf phase :=
  trimC_eq_self _ (head_not_ws_of_hash (phaseLineOf_head phase))
    (phaseLineOf_last phase hne hws)

theorem trim_dice_line (d : DiceVal) : trimC (diceLineOf d) = diceLineOf d :=
  trimC_eq_self _ (head_not_ws_of_hash (diceLineOf_head d))
    (diceLineOf_last d)

theorem trim_lock_line (lock : AdvantageLock) :
    trimC (lockLineOf lock) = lockLineOf lock :=
  trimC_eq_self _ (head_not_ws_of_hash (lockLineOf_head lock))
    (lockLineOf_last lock)

theorem trim_rolls_line (rolls : List QueuedRoll) (hne : rolls ≠ []) :
    trimC (rollsLineOf rolls) = rollsLineOf rolls :=
  trimC_eq_self _ (head_not_ws_of_hash (rollsLineOf_head rolls))
    (rollsLineOf_last rolls hne)

theorem safe_of_class (lit X : List Char) (P : Char → Bool)
    (hX : ∀ c ∈ X, P c = true) (h1 : '\n' ∉ lit) (h2 : '\r' ∉ lit)
    (hP1 : P '\n' = false) (hP2 : P '\r' = false) :
    '\n' ∉ lit ++ X ∧ '\r' ∉ lit ++ X := by
  constructor
  · intro hm
    rcases List.mem_append.mp hm with h | h
    · exact h1 h
    · exact not_mem_of_class X P hX _ hP1 h
  · intro hm
    rcases List.mem_append.mp hm with h | h
    · exact h2 h
    · exact not_mem_of_class X P hX _ hP2 h

theorem safe_of_not_ws (lit X : List Char)
    (hX : ∀ c ∈ X, isWS c = false) (h1 : '\n' ∉ lit) (h2 : '\r' ∉ lit) :
    '\n' ∉ lit ++ X ∧ '\r' ∉ lit ++ X := by
  refine safe_of_class lit X (fun c => !isWS c) ?_ h1 h2 (by decide) (by decide)
  intro c hc
  show (!isWS c) = true
  rw [hX c hc]
  rfl

theorem safe_dice_line (dv : DiceVal) :
    '\n' ∉ diceLineOf dv ∧ '\r' ∉ diceLineOf dv := by
  constructor <;>
    (intro hm
     rcases mem_diceLineOf dv _ hm with h | h
     · revert h; decide
     · exact absurd h (by decide))

theorem safe_lock_line (lock : AdvantageLock) :
    '\n' ∉ lockLineOf lock ∧ '\r' ∉ lockLineOf lock := by
  constructor <;>
    (intro hm
     rcases mem_lockLineOf lock _ hm with h | h
     · revert h; decide
     · exact absurd h (by decide))

theorem safe_rolls_line (rolls : List QueuedRoll) :
    '\n' ∉ rollsLineOf rolls ∧ '\r' ∉ rollsLineOf rolls := by
  constructor <;>
    (intro hm
     rcases mem_rollsLineOf rolls _ hm with h | h
     · revert h; decide
     · exact absurd h (by decide))

/-- The core round trip: parsing the serialized text made of the base lines,
the blank separator, the `Phase`/`CurrentDice` lines and any further
`#`-metadata lines recovers the base fields and the metadata fold. -/
theorem C5_core (cArr hArr : List Nat) (cs hs : Int) (ft nt : PlayerId)
    (phase : List Char) (d : DiceVal) (extra : List (List Char))
    (stF : MetaState)
    (hc : cArr ≠ []) (hh : hArr ≠ [])
    (hph1 : phase ≠ []) (hphws : ∀ c ∈ phase, isWS c = false)
    (hphcol : ':' ∉ phase)
    (hex_nl : ∀ l ∈ extra, '\n' ∉ l ∧ '\r' ∉ l)
    (hex_trim : ∀ l ∈ extra, trimC l = l)
    (hex_hash : ∀ l ∈ extra, startsWithC l "#".toList = true)
    (hfold : extra.foldl parseMetaLine
      ⟨phase, ⟨d.d1.map Int.ofNat, d.d2.map Int.ofNat, d.sum.map Int.ofNat⟩,
        none, []⟩ = stF) :
    parseSnapshotC (joinNl
      (["Computer:".toList,
        "   Squares: ".toList ++ squaresLineContent cArr,
        "   Score: ".toList ++ intToChars cs,
        [],
        "Human:".toList,
        "   Squares: ".toList ++ squaresLineContent hArr,
        "   Score: ".toList ++ intToChars hs,
        [],
        "First Turn: ".toList ++ turnLabel ft,
        "Next Turn: ".toList ++ turnLabel nt] ++ [[]] ++
       ([phaseLineOf phase, diceLineOf d] ++ extra))) =
      Except.ok ⟨cArr.map (fun n => some (Int.ofNat n)),
        hArr.map (fun n => some (Int.ofNat n)), cs, hs, ft, nt,
        stF.phase, stF.currentDice, stF.advantageLock, stF.queuedRolls⟩ := by
  have hsafe : ∀ l ∈
      (["Computer:".toList,
        "   Squares: ".toList ++ squaresLineContent cArr,
        "   Score: ".toList ++ intToChars cs,
        [],
        "Human:".toList,
        "   Squares: ".toList ++ squaresLineContent hArr,
        "   Score: ".toList ++ intToChars hs,
        [],
        "First Turn: ".toList ++ turnLabel ft,
        "Next Turn: ".toList ++ turnLabel nt] ++ [[]] ++
       ([phaseLineOf phase, diceLineOf d] ++ extra)),
      '\n' ∉ l ∧ '\r' ∉ l := by
    intro l hl
    simp only [List.append_assoc, List.cons_append, List.nil_append,
      List.mem_cons] at hl
    rcases hl with rfl | rfl | rfl | rfl | rfl | rfl | rfl | rfl | rfl | rfl
      | rfl | rfl | rfl | hl
    · exact ⟨by decide, by decide⟩
    · exact safe_of_class _ _ isSquaresChar (squaresLineContent_class cArr)
        (by decide) (by decide) (by decide) (by decide)
    · exact safe_of_class _ _ isNumChar (intToChars_class cs)
        (by decide) (by decide) (by decide) (by decide)
    · exact ⟨by simp, by simp⟩
    · exact ⟨by decide, by decide⟩
    · exact safe_of_class _ _ isSquaresChar (squaresLineContent_class hArr)
        (by decide) (by decide) (by decide) (by decide)
    · exact safe_of_class _ _ isNumChar (intToChars_class hs)
        (by decide) (by decide) (by decide) (by decide)
    · exact ⟨by simp, by simp⟩
    · exact safe_of_not_ws _ _ (turnLabel_not_ws ft) (by decide) (by decide)
    · exact safe_of_not_ws _ _ (turnLabel_not_ws nt) (by decide) (by decide)
    · exact ⟨by simp, by simp⟩
    · exact safe_of_not_ws _ _ hphws (by decide) (by decide)
    · exact safe_dice_line d
    · exact hex_nl l hl
  have hmap_extra : extra.map trimC = extra := by
    have h1 : extra.map trimC = extra.map id :=
      List.map_congr_left (fun a ha => hex_trim a ha)
    rw [h1, List.map_id]
  have htc : trimC "Computer:".toList = "Computer:".toList := by decide
  have hth : trimC "Human:".toList = "Human:".toList := by decide
  have hst : ((phaseLineOf phase :: diceLineOf d :: (extra ++ [[]])).filter
      (fun l => startsWithC l "#".toList)).foldl parseMetaLine
      ⟨"awaitingRoll".toList, ⟨none, none, none⟩, none, []⟩ = stF := by
    rw [List.filter_cons_of_pos
        (by exact startsWithC_single _ '#' (phaseLineOf_head phase)),
      List.filter_cons_of_pos
        (by exact startsWithC_single _ '#' (diceLineOf_head d)),
      List.filter_append,
      List.filter_eq_self.mpr hex_hash,
      List.filter_cons_of_neg (by decide), List.filter_nil, List.append_nil]
    rw [List.foldl_cons,
      parseMetaLine_phase _ phase hph1 hphws hphcol,
      List.foldl_cons, parseMetaLine_dice _ d]
    exact hfold
  unfold parseSnapshotC
  rw [show ((["Computer:".toList,
        "   Squares: ".toList ++ squaresLineContent cArr,
        "   Score: ".toList ++ intToChars cs,
        [],
        "Human:".toList,
        "   Squares: ".toList ++ squaresLineContent hArr,
        "   Score: ".toList ++ intToChars hs,
        [],
        "First Turn: ".toList ++ turnLabel ft,
        "Next Turn: ".toList ++ turnLabel nt] ++ [[]] ++
       ([phaseLineOf phase, diceLineOf d] ++ extra)) : List (List Char)) =
    ("Computer:".toList ::
      ("   Squares: ".toList ++ squaresLineContent cArr) ::
      ("   Score: ".toList ++ intToChars cs) ::
      [] ::
      "Human:".toList ::
      ("   Squares: ".toList ++ squaresLineContent hArr) ::
      ("   Score: ".toList ++ intToChars hs) ::
      [] ::
      ("First Turn: ".toList ++ turnLabel ft) ::
      ("Next Turn: ".toList ++ turnLabel nt) ::
      [] ::
      phaseLineOf phase :: diceLineOf d :: extra) from by
    simp only [List.append_assoc, List.cons_append, List.nil_append]]
  rw [show splitLinesC (joinNl
      ("Computer:".toList ::
        ("   Squares: ".toList ++ squaresLineContent cArr) ::
        ("   Score: ".toList ++ intToChars cs) ::
        [] ::
        "Human:".toList ::
        ("   Squares: ".toList ++ squaresLineContent hArr) ::
        ("   Score: ".toList ++ intToChars hs) ::
        [] ::
        ("First Turn: ".toList ++ turnLabel ft) ::
        ("Next Turn: ".toList ++ turnLabel nt) ::
        [] ::
        phaseLineOf phase :: diceLineOf d :: extra)) =
      ("Computer:".toList ::
        ("   Squares: ".toList ++ squaresLineContent cArr) ::
        ("   Score: ".toList ++ intToChars cs) ::
        [] ::
        "Human:".toList ::
        ("   Squares: ".toList ++ squaresLineContent hArr) ::
        ("   Score: ".toList ++ intToChars hs) ::
        [] ::
        ("First Turn: ".toList ++ turnLabel ft) ::
        ("Next Turn: ".toList ++ turnLabel nt) ::
        [] ::
        phaseLineOf phase :: diceLineOf d :: extra) ++ [[]] from by
    have := splitLinesC_joinNl
      ("Computer:".toList ::
        ("   Squares: ".toList ++ squaresLineContent cArr) ::
        ("   Score: ".toList ++ intToChars cs) ::
        [] ::
        "Human:".toList ::
        ("   Squares: ".toList ++ squaresLineContent hArr) ::
        ("   Score: ".toList ++ intToChars hs) ::
        [] ::
        ("First Turn: ".toList ++ turnLabel ft) ::
        ("Next Turn: ".toList ++ turnLabel nt) ::
        [] ::
        phaseLineOf phase :: diceLineOf d :: extra)
      (by
        intro l hl
        apply hsafe
        simp only [List.append_assoc, List.cons_append, List.nil_append]
        exact hl)
    exact this]
  simp only [List.cons_append, List.map_cons, List.map_append, List.map_nil,
    htc, hth, trimC_nil, trim_squares_line cArr hc, trim_score_line cs,
    trim_squares_line hArr hh, trim_score_line hs, trim_first_turn_line,
    trim_next_turn_line, trim_phase_line phase hph1 hphws, trim_dice_line,
    hmap_extra]
  exact parseLinesC_serialized cArr hArr cs hs ft nt
    (phaseLineOf phase :: diceLineOf d :: (extra ++ [[]])) stF hc hh hst

theorem toNumberArrayFormat_ne_nil (b : Board) (h : 1 ≤ b.size) :
    b.toNumberArrayFormat ≠ [] := by
  intro he
  have := congrArg List.length he
  simp only [Board.toNumberArrayFormat, List.length_map, List.length_range',
    List.length_nil] at this
  omega

/-- The dice record produced by parsing serialized dice. -/
def parsedDiceOf (d : DiceVal) : ParsedDice :=
  ⟨d.d1.map Int.ofNat, d.d2.map Int.ofNat, d.sum.map Int.ofNat⟩

/-- The roll record produced by parsing a serialized queued roll. -/
def parsedRollOf (r : QueuedRoll) : ParsedRoll :=
  ⟨some (Int.ofNat r.d1), r.d2.map Int.ofNat⟩

/-- C5: serializeSnapshot followed by parseSnapshot reproduces every
component of the snapshot — board arrays, scores, first/next turn, phase,
pending dice, advantage lock (played-id string, square, unlocked flag)
and queued rolls — for any round state whose boards are non-empty, whose
phase is a nonempty colon-free token, and whose advantage lock (if any)
names a nonzero square. -/
theorem C5_roundtrip (cb hb : Board) (cs hs : Int) (ft nt : PlayerId)
    (phase : List Char) (d : DiceVal) (lock : Option AdvantageLock)
    (rolls : List QueuedRoll)
    (hcb : 1 ≤ cb.size) (hhb : 1 ≤ hb.size)
    (hph1 : phase ≠ [])
    (hph2 : ∀ c ∈ phase, isWS c = false ∧ c ≠ ':')
    (hlk : ∀ l, lock = some l → l.squareNumber ≠ 0) :
    parseSnapshotC
      (serializeSnapshotChars cb hb cs hs ft nt phase d lock rolls) =
      Except.ok
        ⟨cb.toNumberArrayFormat.map (fun n => some (Int.ofNat n)),
          hb.toNumberArrayFormat.map (fun n => some (Int.ofNat n)),
          cs, hs, ft, nt, phase, parsedDiceOf d, lock.map parsedLockOf,
          rolls.map parsedRollOf⟩ := by
  have hcne := toNumberArrayFormat_ne_nil cb hcb
  have hhne := toNumberArrayFormat_ne_nil hb hhb
  have hphws : ∀ c ∈ phase, isWS c = false := fun c hc => (hph2 c hc).1
  have hphcol : ':' ∉ phase := fun hm => (hph2 ':' hm).2 rfl
  rcases lock with _ | l
  · cases rolls with
    | nil =>
      exact C5_core cb.toNumberArrayFormat hb.toNumberArrayFormat cs hs ft nt
        phase d [] ⟨phase, parsedDiceOf d, none, []⟩ hcne hhne hph1 hphws
        hphcol (by simp) (by simp) (by simp) rfl
    | cons r0 rs =>
      refine C5_core cb.toNumberArrayFormat hb.toNumberArrayFormat cs hs ft nt
        phase d [rollsLineOf (r0 :: rs)]
        ⟨phase, parsedDiceOf d, none, (r0 :: rs).map parsedRollOf⟩
        hcne hhne hph1 hphws hphcol ?_ ?_ ?_ ?_
      · intro x hx
        rw [List.mem_singleton] at hx
        subst hx
        exact safe_rolls_line (r0 :: rs)
      · intro x hx
        rw [List.mem_singleton] at hx
        subst hx
        exact trim_rolls_line (r0 :: rs) (by simp)
      · intro x hx
        rw [List.mem_singleton] at hx
        subst hx
        exact startsWithC_single _ '#' (rollsLineOf_head (r0 :: rs))
      · rw [List.foldl_cons, parseMetaLine_rolls _ (r0 :: rs) (by simp),
          List.foldl_nil]
        rfl
  · have hsq : l.squareNumber ≠ 0 := hlk l rfl
    rw [show serializeSnapshotChars cb hb cs hs ft nt phase d (some l) rolls =
      joinNl
        (["Computer:".toList,
          "   Squares: ".toList ++
            squaresLineContent cb.toNumberArrayFormat,
          "   Score: ".toList ++ intToChars cs,
          [],
          "Human:".toList,
          "   Squares: ".toList ++
            squaresLineContent hb.toNumberArrayFormat,
          "   Score: ".toList ++ intToChars hs,
          [],
          "First Turn: ".toList ++ turnLabel ft,
          "Next Turn: ".toList ++ turnLabel nt] ++ [[]] ++
         ([phaseLineOf phase, diceLineOf d] ++
          (if l.squareNumber ≠ 0 then [lockLineOf l] else []) ++
          (if rolls ≠ [] then [rollsLineOf rolls] else []))) from rfl]
    rw [if_pos hsq]
    cases rolls with
    | nil =>
      rw [if_neg (by simp)]
      refine C5_core cb.toNumberArrayFormat hb.toNumberArrayFormat cs hs ft nt
        phase d [lockLineOf l]
        ⟨phase, parsedDiceOf d, some (parsedLockOf l), []⟩
        hcne hhne hph1 hphws hphcol ?_ ?_ ?_ ?_
      · intro x hx
        rw [List.mem_singleton] at hx
        subst hx
        exact safe_lock_line l
      · intro x hx
        rw [List.mem_singleton] at hx
        subst hx
        exact trim_lock_line l
      · intro x hx
        rw [List.mem_singleton] at hx
        subst hx
        exact startsWithC_single _ '#' (lockLineOf_head l)
      · rw [List.foldl_cons, parseMetaLine_lock _ l, List.foldl_nil]
        rfl
    | cons r0 rs =>
      rw [if_pos (by simp)]
      refine C5_core cb.toNumberArrayFormat hb.toNumberArrayFormat cs hs ft nt
        phase d [lockLineOf l, rollsLineOf (r0 :: rs)]
        ⟨phase, parsedDiceOf d, some (parsedLockOf l),
          (r0 :: rs).map parsedRollOf⟩
        hcne hhne hph1 hphws hphcol ?_ ?_ ?_ ?_
      · intro x hx
        rcases List.mem_cons.mp hx with rfl | hx
        · exact safe_lock_line l
        rw [List.mem_singleton] at hx
        subst hx
        exact safe_rolls_line (r0 :: rs)
      · intro x hx
        rcases List.mem_cons.mp hx with rfl | hx
        · exact trim_lock_line l
        rw [List.mem_singleton] at hx
        subst hx
        exact trim_rolls_line (r0 :: rs) (by simp)
      · intro x hx
        rcases List.mem_cons.mp hx with rfl | hx
        · exact startsWithC_single _ '#' (lockLineOf_head l)
        rw [List.mem_singleton] at hx
        subst hx
        exact startsWithC_single _ '#' (rollsLineOf_head (r0 :: rs))
      · rw [List.foldl_cons, parseMetaLine_lock _ l, List.foldl_cons,
          parseMetaLine_rolls _ (r0 :: rs) (by simp), List.foldl_nil]
        rfl

/-- Witness for C5: a full concrete snapshot (scores, dice, an advantage
lock and two queued rolls) survives the round trip. -/
theorem C5_witness :
    (1 ≤ (mkBoard 2).size ∧ ("roundOver".toList : List Char) ≠ [] ∧
      (∀ c ∈ "roundOver".toList, isWS c = false ∧ c ≠ ':')) ∧
    parseSnapshotC (serializeSnapshotChars (mkBoard 2) (mkBoard 2) 5 (-2)
      .COMPUTER .HUMAN "roundOver".toList ⟨some 1, some 2, some 3⟩
      (some ⟨.HUMAN, 4, true⟩) [⟨6, some 1⟩, ⟨2, none⟩]) =
      Except.ok ⟨(mkBoard 2).toNumberArrayFormat.map
          (fun n => some (Int.ofNat n)),
        (mkBoard 2).toNumberArrayFormat.map (fun n => some (Int.ofNat n)),
        5, -2, .COMPUTER, .HUMAN, "roundOver".toList,
        parsedDiceOf ⟨some 1, some 2, some 3⟩,
        (some (AdvantageLock.mk .HUMAN 4 true)).map parsedLockOf,
        ([⟨6, some 1⟩, ⟨2, none⟩] : List QueuedRoll).map parsedRollOf⟩ :=
  ⟨⟨by decide, by decide, by decide⟩,
    C5_roundtrip (mkBoard 2) (mkBoard 2) 5 (-2) .COMPUTER .HUMAN
      "roundOver".toList ⟨some 1, some 2, some 3⟩
      (some ⟨.HUMAN, 4, true⟩) [⟨6, some 1⟩, ⟨2, none⟩]
      (by decide) (by decide) (by decide) (by decide)
      (fun l hl => by injection hl with h; rw [← h]; decide)⟩

/-! ### C8: which snapshot texts are rejected -/

/-- A snapshot text whose `Computer:` block (header, squares and score
lines) is entirely absent: only the `Human:` block and the two turn lines
are present. -/
def c8NoComputerText : List Char :=
  ("Human:\nSquares: 1 2 3\nScore: 0\nFirst Turn: Human\nNext Turn: Human\n"
    ).toList

/-- C8 counterexample: the parser does not reject a snapshot missing the
whole `Computer:` block — it silently reuses the human section's
`Squares:`/`Score:` lines as the computer's and succeeds. -/
theorem C8_counterexample :
    parseSnapshotC c8NoComputerText =
      Except.ok ⟨[some 1, some 2, some 3], [some 1, some 2, some 3], 0, 0,
        .HUMAN, .HUMAN, "awaitingRoll".toList, ⟨none, none, none⟩, none,
        []⟩ := by
  rfl

/-! Success/failure characterization of `loadFromNumberArrayFormat`. -/

theorem loadEntries_ok_entries (arr : List (Option Int)) :
    ∀ (covered c' : List Bool) (i : Nat),
      loadEntries covered arr i = .ok c' →
      ∀ j (hj : j < arr.length),
        arr.get ⟨j, hj⟩ = some 0 ∨
        arr.get ⟨j, hj⟩ = some ((i + j + 1 : Nat) : Int) := by
  induction arr with
  | nil =>
    intro covered c' i _ j hj
    simp at hj
  | cons val rest ih =>
    intro covered c' i h j hj
    unfold loadEntries at h
    rcases Decidable.em (val = some 0) with hv | hv
    · rw [if_pos hv] at h
      cases j with
      | zero => exact Or.inl hv
      | succ j' =>
        have := ih _ _ _ h j' (by simpa using hj)
        rcases this with h' | h'
        · exact Or.inl h'
        · refine Or.inr ?_
          rw [List.get_cons_succ]
          rw [show (i + (j' + 1) + 1 : Nat) = ((i + 1) + j' + 1 : Nat)
            from by omega]
          exact h'
    · rw [if_neg hv] at h
      rcases Decidable.em (val = some ((i + 1 : Nat) : Int)) with hv2 | hv2
      · rw [if_neg (fun hne => hne hv2)] at h
        cases j with
        | zero => exact Or.inr hv2
        | succ j' =>
          have := ih _ _ _ h j' (by simpa using hj)
          rcases this with h' | h'
          · exact Or.inl h'
          · refine Or.inr ?_
            rw [List.get_cons_succ]
            rw [show (i + (j' + 1) + 1 : Nat) = ((i + 1) + j' + 1 : Nat)
              from by omega]
            exact h'
      · rw [if_pos hv2] at h
        exact absurd h (by simp)

theorem loadEntries_error_of_bad (arr : List (Option Int)) :
    ∀ (covered : List Bool) (i : Nat) (j : Nat) (hj : j < arr.length),
      arr.get ⟨j, hj⟩ ≠ some 0 →
      arr.get ⟨j, hj⟩ ≠ some ((i + j + 1 : Nat) : Int) →
      loadEntries covered arr i = .error "Invalid board entry" := by
  induction arr with
  | nil =>
    intro covered i j hj
    simp at hj
  | cons val rest ih =>
    intro covered i j hj h0 hidx
    unfold loadEntries
    show (if val = some 0 then
        loadEntries (covered.set (i + 1) true) rest (i + 1)
      else if val ≠ some ((i + 1 : Nat) : Int) then
        (Except.error "Invalid board entry" : Except String (List Bool))
      else loadEntries (covered.set (i + 1) false) rest (i + 1)) =
      Except.error "Invalid board entry"
    cases j with
    | zero =>
      have h0' : val ≠ some 0 := h0
      have hidx' : val ≠ some ((i + 1 : Nat) : Int) := hidx
      rw [if_neg h0', if_pos hidx']
    | succ j' =>
      rw [List.get_cons_succ] at h0 hidx
      rw [show (i + (j' + 1) + 1 : Nat) = ((i + 1) + j' + 1 : Nat)
        from by omega] at hidx
      rcases Decidable.em (val = some 0) with hv | hv
      · rw [if_pos hv]
        exact ih _ _ j' (by simpa using hj) h0 hidx
      · rw [if_neg hv]
        rcases Decidable.em (val = some ((i + 1 : Nat) : Int)) with hv2 | hv2
        · rw [if_neg (fun hne => hne hv2)]
          exact ih _ _ j' (by simpa using hj) h0 hidx
        · rw [if_pos hv2]

theorem except_error_bind {α β : Type} (e : String)
    (f : α → Except String β) :
    (Except.error e >>= f : Except String β) = Except.error e := rfl

theorem findIdx?_exists {α : Type} (p : α → Bool) :
    ∀ (l : List α) (i0 k : Nat), List.findIdx? p l i0 = some k →
      ∃ x ∈ l, p x = true := by
  intro l
  induction l with
  | nil => intro i0 k h; simp [List.findIdx?] at h
  | cons a t ih =>
    intro i0 k h
    rw [List.findIdx?_cons] at h
    rcases Decidable.em (p a = true) with hp | hp
    · exact ⟨a, List.mem_cons_self .., hp⟩
    · rw [if_neg hp] at h
      obtain ⟨x, hx, hpx⟩ := ih _ _ h
      exact ⟨x, List.mem_cons_of_mem _ hx, hpx⟩

/-- Anatomy of a successful parse: the mandatory lines must all be present,
and the metadata fields of the result are exactly the `#`-line fold. -/
theorem parse_ok_anatomy (text : List Char) (snap : Snapshot)
    (h : parseSnapshotC text = Except.ok snap) :
    (∃ l ∈ (splitLinesC text).map trimC,
      startsWithC l "Squares:".toList = true) ∧
    (∃ l ∈ (splitLinesC text).map trimC,
      startsWithC l "Score:".toList = true) ∧
    "Human:".toList ∈ (splitLinesC text).map trimC ∧
    (∃ l ∈ (splitLinesC text).map trimC,
      startsWithC l "First Turn:".toList = true) ∧
    (∃ l ∈ (splitLinesC text).map trimC,
      startsWithC l "Next Turn:".toList = true) ∧
    (snap.phase = ((((splitLinesC text).map trimC).filter
        (fun l => startsWithC l "#".toList)).foldl parseMetaLine
        ⟨"awaitingRoll".toList, ⟨none, none, none⟩, none, []⟩).phase ∧
      snap.currentDice = ((((splitLinesC text).map trimC).filter
        (fun l => startsWithC l "#".toList)).foldl parseMetaLine
        ⟨"awaitingRoll".toList, ⟨none, none, none⟩, none, []⟩).currentDice ∧
      snap.advantageLock = ((((splitLinesC text).map trimC).filter
        (fun l => startsWithC l "#".toList)).foldl parseMetaLine
        ⟨"awaitingRoll".toList, ⟨none, none, none⟩, none, []⟩).advantageLock ∧
      snap.queuedRolls = ((((splitLinesC text).map trimC).filter
        (fun l => startsWithC l "#".toList)).foldl parseMetaLine
        ⟨"awaitingRoll".toList, ⟨none, none, none⟩, none, []⟩).queuedRolls) := by
  unfold parseSnapshotC parseLinesC findLineC at h
  cases h1 : ((splitLinesC text).map trimC).find?
      (fun l => startsWithC l "Squares:".toList) with
  | none => simp only [h1, except_error_bind] at h; exact Except.noConfusion h
  | some l1 =>
  simp only [h1, except_bind_ok] at h
  cases h2 : ((splitLinesC text).map trimC).find?
      (fun l => startsWithC l "Score:".toList) with
  | none => simp only [h2, except_error_bind] at h; exact Except.noConfusion h
  | some l2 =>
  simp only [h2, except_bind_ok] at h
  cases h3 : ((splitLinesC text).map trimC).findIdx?
      (fun l => l = "Human:".toList) with
  | none => simp only [h3] at h; exact Except.noConfusion h
  | some humanIdx =>
  simp only [h3] at h
  cases h4 : (((splitLinesC text).map trimC).drop (humanIdx + 1)).find?
      (fun l => startsWithC l "Squares:".toList) with
  | none => simp only [h4] at h; exact Except.noConfusion h
  | some l4 =>
  simp only [h4] at h
  cases h5 : (((splitLinesC text).map trimC).drop (humanIdx + 1)).find?
      (fun l => startsWithC l "Score:".toList) with
  | none => simp only [h5] at h; exact Except.noConfusion h
  | some l5 =>
  simp only [h5] at h
  cases h6 : ((splitLinesC text).map trimC).find?
      (fun l => startsWithC l "First Turn:".toList) with
  | none => simp only [h6, except_error_bind] at h; exact Except.noConfusion h
  | some l6 =>
  simp only [h6, except_bind_ok] at h
  cases h7 : ((splitLinesC text).map trimC).find?
      (fun l => startsWithC l "Next Turn:".toList) with
  | none => simp only [h7, except_error_bind] at h; exact Except.noConfusion h
  | some l7 =>
  simp only [h7, except_bind_ok] at h
  cases h8 : parseSquaresC l1 with
  | error e => simp only [h8, except_error_bind] at h; exact Except.noConfusion h
  | ok v8 =>
  simp only [h8, except_bind_ok] at h
  cases h9 : parseSquaresC l4 with
  | error e => simp only [h9, except_error_bind] at h; exact Except.noConfusion h
  | ok v9 =>
  simp only [h9, except_bind_ok] at h
  cases h10 : parseScoreC l2 with
  | error e => simp only [h10, except_error_bind] at h; exact Except.noConfusion h
  | ok v10 =>
  simp only [h10, except_bind_ok] at h
  cases h11 : parseScoreC l5 with
  | error e => simp only [h11, except_error_bind] at h; exact Except.noConfusion h
  | ok v11 =>
  simp only [h11, except_bind_ok] at h
  cases h12 : mapLabel (trimC (((splitOnChar ':' l6).get? 1).getD [])) with
  | error e => simp only [h12, except_error_bind] at h; exact Except.noConfusion h
  | ok v12 =>
  simp only [h12, except_bind_ok] at h
  cases h13 : mapLabel (trimC (((splitOnChar ':' l7).get? 1).getD [])) with
  | error e => simp only [h13, except_error_bind] at h; exact Except.noConfusion h
  | ok v13 =>
  simp only [h13, except_bind_ok, except_pure] at h
  injection h with h
  refine ⟨⟨l1, List.mem_of_find?_eq_some h1,
      @List.find?_some _ (fun l => startsWithC l "Squares:".toList) _ _ h1⟩,
    ⟨l2, List.mem_of_find?_eq_some h2,
      @List.find?_some _ (fun l => startsWithC l "Score:".toList) _ _ h2⟩, ?_,
    ⟨l6, List.mem_of_find?_eq_some h6,
      @List.find?_some _ (fun l => startsWithC l "First Turn:".toList) _ _ h6⟩,
    ⟨l7, List.mem_of_find?_eq_some h7,
      @List.find?_some _ (fun l => startsWithC l "Next Turn:".toList) _ _ h7⟩, ?_⟩
  · obtain ⟨x, hx, hpx⟩ := findIdx?_exists _ _ _ _ h3
    rw [decide_eq_true_iff] at hpx
    rw [← hpx]
    exact hx
  · rw [← h]
    exact ⟨rfl, rfl, rfl, rfl⟩

/-- C8 (amended): a successful parse requires a `Squares:` line, a
`Score:` line, an exact `Human:` line and `First Turn:`/`Next Turn:`
lines — but nothing requires a `Computer:` header (see the
counterexample); when no `#`-metadata lines are present the parse result
carries the defaults (awaiting roll, no dice, no lock, empty queue); and
`loadFromNumberArrayFormat` rejects a wrong-length array, rejects any
entry that is neither `0` nor its own 1-based index, and conversely only
succeeds when the length matches and every entry is well-formed. -/
theorem C8_parse_load_validation :
    (∀ text snap, parseSnapshotC text = Except.ok snap →
      (∃ l ∈ (splitLinesC text).map trimC,
        startsWithC l "Squares:".toList = true) ∧
      (∃ l ∈ (splitLinesC text).map trimC,
        startsWithC l "Score:".toList = true) ∧
      "Human:".toList ∈ (splitLinesC text).map trimC ∧
      (∃ l ∈ (splitLinesC text).map trimC,
        startsWithC l "First Turn:".toList = true) ∧
      (∃ l ∈ (splitLinesC text).map trimC,
        startsWithC l "Next Turn:".toList = true)) ∧
    (∀ text snap, parseSnapshotC text = Except.ok snap →
      (∀ l ∈ (splitLinesC text).map trimC,
        startsWithC l "#".toList = false) →
      snap.phase = "awaitingRoll".toList ∧
      snap.currentDice = ⟨none, none, none⟩ ∧
      snap.advantageLock = none ∧ snap.queuedRolls = []) ∧
    (∀ (b : Board) (arr : List (Option Int)), arr.length ≠ b.size →
      b.loadFromNumberArrayFormat arr =
        .error "Bad board array length in loadFromNumberArrayFormat") ∧
    (∀ (b : Board) (arr : List (Option Int)) (j : Nat)
      (hj : j < arr.length), arr.length = b.size →
      arr.get ⟨j, hj⟩ ≠ some 0 →
      arr.get ⟨j, hj⟩ ≠ some ((j + 1 : Nat) : Int) →
      b.loadFromNumberArrayFormat arr = .error "Invalid board entry") ∧
    (∀ (b : Board) (arr : List (Option Int)) (b' : Board),
      b.loadFromNumberArrayFormat arr = .ok b' →
      arr.length = b.size ∧ ∀ j (hj : j < arr.length),
        arr.get ⟨j, hj⟩ = some 0 ∨
        arr.get ⟨j, hj⟩ = some ((j + 1 : Nat) : Int)) := by
  refine ⟨?_, ?_, ?_, ?_, ?_⟩
  · intro text snap h
    obtain ⟨a1, a2, a3, a4, a5, _⟩ := parse_ok_anatomy text snap h
    exact ⟨a1, a2, a3, a4, a5⟩
  · intro text snap h hno
    obtain ⟨_, _, _, _, _, hphase, hdice, hlock, hrolls⟩ :=
      parse_ok_anatomy text snap h
    have hfil : ((splitLinesC text).map trimC).filter
        (fun l => startsWithC l "#".toList) = [] :=
      List.filter_eq_nil.mpr (fun a ha => by
        rw [hno a ha]
        exact Bool.false_ne_true)
    rw [hfil] at hphase hdice hlock hrolls
    exact ⟨hphase, hdice, hlock, hrolls⟩
  · intro b arr h
    unfold Board.loadFromNumberArrayFormat
    rw [if_pos h]
  · intro b arr j hj hlen h0 hidx
    unfold Board.loadFromNumberArrayFormat
    rw [if_neg (fun hne => hne hlen)]
    rw [loadEntries_error_of_bad arr b.covered 0 j hj h0 (by
      rw [show (0 + j + 1 : Nat) = j + 1 from by omega]
      exact hidx)]
    rfl
  · intro b arr b' h
    unfold Board.loadFromNumberArrayFormat at h
    rcases Decidable.em (arr.length = b.size) with hlen | hlen
    · rw [if_neg (fun hne => hne hlen)] at h
      refine ⟨hlen, ?_⟩
      cases he : loadEntries b.covered arr 0 with
      | error e =>
        rw [he] at h
        exact absurd h (by simp [except_error_bind])
      | ok c' =>
        intro j hj
        have := loadEntries_ok_entries arr b.covered c' 0 he j hj
        rw [show (0 + j + 1 : Nat) = j + 1 from by omega] at this
        exact this
    · rw [if_pos hlen] at h
      exact Except.noConfusion h

/-- Witness for C8: a one-entry array on a size-9 board is rejected for
its length, and the entry `5` at position 2 of a size-3 board is rejected
as corrupt. -/
theorem C8_witness :
    (([some 1] : List (Option Int)).length ≠ (mkBoard 9).size ∧
      (mkBoard 9).loadFromNumberArrayFormat [some 1] =
        .error "Bad board array length in loadFromNumberArrayFormat") ∧
    ((mkBoard 3).loadFromNumberArrayFormat [some 1, some 5, some 0] =
      .error "Invalid board entry") :=
  ⟨⟨by decide, C8_parse_load_validation.2.2.1 (mkBoard 9) [some 1]
      (by decide)⟩,
    C8_parse_load_validation.2.2.2.1 (mkBoard 3) [some 1, some 5, some 0] 1
      (by decide) (by decide) (by decide) (by decide)⟩

/-! ## GameSession history and rewind (`src/unnamed/part_002`)

`_captureSnapshot` / `_restoreSnapshot` / `rewindTo`.  The session's
tournament is modelled by its observable fields (the two players' total
scores, the pending advantage, the round number).  In the JS code the
tournament's player objects and the round's player objects are the *same*
objects, so `_restoreSnapshot`'s later write of `snap.round.humanScore`
into `currentRound.human.totalScore` also overwrites the tournament-level
score written just before; the model reflects that final state. -/

structure SnapTournament where
  humanScore : Int
  computerScore : Int
  nextRoundAdvantage : Option AdvantageInfo
  roundNumber : Nat
deriving DecidableEq, Repr

structure SnapRound where
  boardSize : Nat
  firstPlayerId : PlayerId
  currentPlayerId : PlayerId
  advantageInfo : Option AdvantageInfo
  advantageLock : Option AdvantageLock
  roundOver : Bool
  roundWinnerId : Option PlayerId
  winType : Option WinType
  roundScore : Int
  humanBoard : List Nat
  computerBoard : List Nat
  humanScore : Int
  computerScore : Int
deriving DecidableEq, Repr

structure SessSnapshot where
  gameMode : String
  currentPlayerId : PlayerId
  phase : String
  currentDice : DiceVal
  lastAction : Option String
  tournament : SnapTournament
  round : SnapRound
deriving DecidableEq, Repr

structure HistoryEntry where
  label : String
  snapshot : SessSnapshot
  lastAction : Option String
deriving DecidableEq, Repr

structure SessionState where
  gameMode : String
  currentPlayerId : PlayerId
  phase : String
  currentDice : DiceVal
  tournamentHumanScore : Int
  tournamentComputerScore : Int
  nextRoundAdvantage : Option AdvantageInfo
  roundNumber : Nat
  currentRound : GameRound
  history : List HistoryEntry
deriving DecidableEq, Repr

/-- `GameSession._captureSnapshot(lastAction)` (the round and tournament
are present in every rewindable state, so the `null` guard is vacuous
here). -/
def _captureSnapshot (s : SessionState) (lastAction : Option String) :
    SessSnapshot :=
  { gameMode := s.gameMode
    currentPlayerId := s.currentPlayerId
    phase := s.phase
    currentDice := s.currentDice
    lastAction := lastAction
    tournament :=
      ⟨s.tournamentHumanScore, s.tournamentComputerScore,
        s.nextRoundAdvantage, s.roundNumber⟩
    round :=
      ⟨s.currentRound.boardSize, s.currentRound.firstPlayerId,
        s.currentRound.currentPlayerId, s.currentRound.advantageInfo,
        s.currentRound.advantageLock, s.currentRound.roundOver,
        s.currentRound.roundWinnerId, s.currentRound.winType,
        s.currentRound.roundScore,
        s.currentRound.humanBoard.toNumberArrayFormat,
        s.currentRound.computerBoard.toNumberArrayFormat,
        s.currentRound.humanTotalScore,
        s.currentRound.computerTotalScore⟩ }

/-- `GameSession._pushHistory(label, lastAction)`. -/
def _pushHistory (s : SessionState) (label : String)
    (lastAction : Option String) : SessionState :=
  { s with history :=
      s.history ++ [⟨label, _captureSnapshot s lastAction, lastAction⟩] }

/-- `GameSession._restoreSnapshot(snap)`: rebuild the tournament and round
from the snapshot, load both boards from their number arrays (which can
throw on corrupt data), recompute the `everCovered` flags from the loaded
boards, then restore the scalar round and session fields. -/
def _restoreSnapshot (s : SessionState) (snap : SessSnapshot) :
    Except String SessionState := do
  let round0 := GameRound.mkGameRound snap.round.boardSize
    snap.tournament.humanScore
    snap.tournament.computerScore snap.round.firstPlayerId
    snap.round.advantageInfo
  let round1 := { round0 with advantageLock := snap.round.advantageLock }
  let humanBoard ← round1.humanBoard.loadFromNumberArrayFormat
    (snap.round.humanBoard.map (fun n => some (Int.ofNat n)))
  let computerBoard ← round1.computerBoard.loadFromNumberArrayFormat
    (snap.round.computerBoard.map (fun n => some (Int.ofNat n)))
  let round2 :=
    { round1 with
        humanBoard := humanBoard
        computerBoard := computerBoard
        humanTotalScore := snap.round.humanScore
        computerTotalScore := snap.round.computerScore
        humanEverCovered := humanBoard.getCoveredNumbers.length > 0
        computerEverCovered := computerBoard.getCoveredNumbers.length > 0
        currentPlayerId := snap.round.currentPlayerId
        roundOver := snap.round.roundOver
        roundWinnerId := snap.round.roundWinnerId
        winType := snap.round.winType
        roundScore := snap.round.roundScore }
  return { s with
      gameMode := snap.gameMode
      roundNumber := snap.tournament.roundNumber
      nextRoundAdvantage := snap.tournament.nextRoundAdvantage
      tournamentHumanScore := snap.round.humanScore
      tournamentComputerScore := snap.round.computerScore
      currentRound := round2
      currentPlayerId := snap.currentPlayerId
      phase := snap.phase
      currentDice := snap.currentDice }

/-- `GameSession.rewindTo(index)`: invalid index is an error; otherwise
restore the selected snapshot (history untouched), then force the session
back to the awaiting-roll phase with the dice cleared. -/
def rewindTo (s : SessionState) (index : Int) : Except String SessionState :=
  if h : 0 ≤ index ∧ index.toNat < s.history.length then do
    let entry := s.history.get ⟨index.toNat, h.2⟩
    let s1 ← _restoreSnapshot s entry.snapshot
    return { s1 with
        phase := "awaitingRoll"
        currentDice := ⟨none, none, none⟩ }
  else .error "Invalid rewind selection."

/-! Loading well-formed arrays succeeds and reproduces the array. -/

theorem loadEntries_ok_of_good (arr : List (Option Int)) :
    ∀ (covered : List Bool) (i : Nat),
      (∀ j (hj : j < arr.length),
        arr.get ⟨j, hj⟩ = some 0 ∨
        arr.get ⟨j, hj⟩ = some ((i + j + 1 : Nat) : Int)) →
      ∃ c', loadEntries covered arr i = .ok c' := by
  induction arr with
  | nil => intro covered i _; exact ⟨covered, rfl⟩
  | cons val rest ih =>
    intro covered i hgood
    show ∃ c', (if val = some 0 then
        loadEntries (covered.set (i + 1) true) rest (i + 1)
      else if val ≠ some ((i + 1 : Nat) : Int) then
        (Except.error "Invalid board entry" : Except String (List Bool))
      else loadEntries (covered.set (i + 1) false) rest (i + 1)) =
      .ok c'
    have hrest : ∀ j (hj : j < rest.length),
        rest.get ⟨j, hj⟩ = some 0 ∨
        rest.get ⟨j, hj⟩ = some (((i + 1) + j + 1 : Nat) : Int) := by
      intro j hj
      have := hgood (j + 1) (by simpa using hj)
      rw [List.get_cons_succ] at this
      rw [show ((i + 1) + j + 1 : Nat) = (i + (j + 1) + 1 : Nat) from by omega]
      exact this
    rcases hgood 0 (by simp) with h0 | h0
    · have h0' : val = some 0 := h0
      rw [if_pos h0']
      exact ih _ _ hrest
    · have h0' : val = some ((i + 0 + 1 : Nat) : Int) := h0
      rcases Decidable.em (val = some 0) with hv | hv
      · rw [if_pos hv]
        exact ih _ _ hrest
      · rw [if_neg hv, if_neg (fun hne => hne (by rw [h0']))]
        exact ih _ _ hrest

theorem loadEntries_getD (arr : List (Option Int)) :
    ∀ (covered c' : List Bool) (i : Nat),
      i + 1 + arr.length ≤ covered.length →
      loadEntries covered arr i = .ok c' →
      c'.length = covered.length ∧
      ∀ k, c'.getD k false =
        if i + 1 ≤ k ∧ k < i + 1 + arr.length
        then decide (arr.getD (k - (i + 1)) none = some 0)
        else covered.getD k false := by
  induction arr with
  | nil =>
    intro covered c' i _ h
    have : covered = c' := by
      simpa [loadEntries] using h
    subst this
    refine ⟨rfl, fun k => ?_⟩
    rw [if_neg (by simp only [List.length_nil]; omega)]
  | cons val rest ih =>
    intro covered c' i hlen h
    unfold loadEntries at h
    have hset : ∀ (x : Bool),
        (covered.set (i + 1) x).getD (i + 1) false = x := by
      intro x
      rw [List.getD_eq_getElem?_getD, List.getElem?_set]
      rw [if_pos rfl]
      rw [if_pos (by simp only [List.length_cons] at hlen; omega)]
      rfl
    have hsetne : ∀ (x : Bool) (k : Nat), k ≠ i + 1 →
        (covered.set (i + 1) x).getD k false = covered.getD k false := by
      intro x k hk
      rw [List.getD_eq_getElem?_getD, List.getElem?_set,
        if_neg (fun he => hk he.symm), List.getD_eq_getElem?_getD]
    have hstep : ∀ (x : Bool),
        loadEntries (covered.set (i + 1) x) rest (i + 1) = .ok c' →
        (val = some 0 → x = true) →
        decide (val = some 0) = x →
        c'.length = covered.length ∧
        ∀ k, c'.getD k false =
          if i + 1 ≤ k ∧ k < i + 1 + (val :: rest).length
          then decide ((val :: rest).getD (k - (i + 1)) none = some 0)
          else covered.getD k false := by
      intro x hrec _ hdec
      obtain ⟨hlen', hspec⟩ := ih (covered.set (i + 1) x) c' (i + 1)
        (by rw [List.length_set]; simp at hlen ⊢; omega) hrec
      refine ⟨by rw [hlen', List.length_set], fun k => ?_⟩
      rcases Decidable.em (k = i + 1) with hk | hk
      · subst hk
        rw [hspec (i + 1), if_neg (by omega), hset x,
          if_pos (by simp)]
        rw [show (i + 1 - (i + 1) : Nat) = 0 from by omega, List.getD_cons_zero]
        exact hdec.symm
      · rcases Decidable.em (i + 1 + 1 ≤ k ∧ k < i + 1 + 1 + rest.length)
          with hr | hr
        · rw [hspec k, if_pos hr, if_pos (by simp; omega)]
          rw [show (k - (i + 1) : Nat) = (k - (i + 1 + 1)) + 1 from by omega,
            List.getD_cons_succ]
        · rw [hspec k, if_neg hr, hsetne x k hk,
            if_neg (by simp; omega)]
    rcases Decidable.em (val = some 0) with hv | hv
    · rw [if_pos hv] at h
      exact hstep true h (fun _ => rfl) (by simp [hv])
    · rw [if_neg hv] at h
      rcases Decidable.em (val = some ((i + 1 : Nat) : Int)) with hv2 | hv2
      · rw [if_neg (fun hne => hne hv2)] at h
        exact hstep false h (fun he => absurd he hv) (by simp [hv])
      · rw [if_pos hv2] at h
        exact absurd h (by simp)

theorem coverTrace_shape (nums : List Nat) :
    ∀ b : Board, ((b.coverSquaresTrace nums).1.size = b.size) ∧
      ((b.coverSquaresTrace nums).1.covered.length = b.covered.length) := by
  induction nums with
  | nil => intro b; exact ⟨rfl, rfl⟩
  | cons n rest ih =>
    intro b
    have hunfold : b.coverSquaresTrace (n :: rest) =
        (match b.cover n with
        | .ok b' => b'.coverSquaresTrace rest
        | .error e => (b, some e)) := rfl
    cases hc : b.cover n with
    | ok b' =>
      have hb' : b'.size = b.size ∧ b'.covered.length = b.covered.length := by
        unfold Board.cover at hc
        rcases Decidable.em ((!b.validSquare n) = true) with hg | hg
        · rw [if_pos hg] at hc; exact absurd hc (by simp)
        · rw [if_neg hg] at hc
          rcases Decidable.em (b.coveredAt n = true) with hg2 | hg2
          · rw [if_pos hg2] at hc; exact absurd hc (by simp)
          · rw [if_neg hg2] at hc
            injection hc with hc
            rw [← hc]
            exact ⟨rfl, List.length_set ..⟩
      obtain ⟨ihs, ihl⟩ := ih b'
      simp only [hunfold, hc]
      exact ⟨ihs.trans hb'.1, ihl.trans hb'.2⟩
    | error e =>
      rw [hunfold, hc]
      exact ⟨rfl, rfl⟩

theorem mkGameRound_board_shape (size : Nat) (hts cts : Int)
    (fp : PlayerId) (adv : Option AdvantageInfo) :
    ((GameRound.mkGameRound size hts cts fp adv).humanBoard.size = size ∧
      (GameRound.mkGameRound size hts cts fp adv).humanBoard.covered.length =
        size + 1) ∧
    ((GameRound.mkGameRound size hts cts fp adv).computerBoard.size = size ∧
      (GameRound.mkGameRound size hts cts fp adv).computerBoard.covered.length
        = size + 1) := by
  have hh : (GameRound.mkGameRound size hts cts fp adv).humanBoard =
      (GameRound._applyAdvantageIfAny
        ⟨size, mkBoard size, mkBoard size, hts, cts, fp, fp, adv, none,
          false, none, none, 0, false, false⟩).humanBoard := rfl
  have hcc : (GameRound.mkGameRound size hts cts fp adv).computerBoard =
      (GameRound._applyAdvantageIfAny
        ⟨size, mkBoard size, mkBoard size, hts, cts, fp, fp, adv, none,
          false, none, none, 0, false, false⟩).computerBoard := rfl
  rw [hh, hcc]
  cases adv with
  | none =>
    rw [applyAdv_none ⟨size, mkBoard size, mkBoard size, hts, cts, fp, fp,
      none, none, false, none, none, 0, false, false⟩ rfl]
    exact ⟨⟨rfl, by simp [mkBoard]⟩, rfl, by simp [mkBoard]⟩
  | some info =>
    rcases Decidable.em
        (info.digitSum < 1 ∨ info.digitSum > (size : Int)) with hr | hr
    · rw [applyAdv_skip ⟨size, mkBoard size, mkBoard size, hts, cts, fp, fp,
        some info, none, false, none, none, 0, false, false⟩ info rfl hr]
      exact ⟨⟨rfl, by simp [mkBoard]⟩, rfl, by simp [mkBoard]⟩
    · rw [applyAdv_apply ⟨size, mkBoard size, mkBoard size, hts, cts, fp, fp,
        some info, none, false, none, none, 0, false, false⟩ info rfl hr]
      obtain ⟨hs, hl⟩ := coverTrace_shape [info.digitSum.toNat] (mkBoard size)
      cases hp : info.playerId with
      | HUMAN =>
        refine ⟨⟨?_, ?_⟩, ?_, ?_⟩
        · show (((mkBoard size).coverSquaresTrace
            [info.digitSum.toNat]).1).size = size
          exact hs
        · show (((mkBoard size).coverSquaresTrace
            [info.digitSum.toNat]).1).covered.length = size + 1
          rw [hl]; simp [mkBoard]
        · show (mkBoard size).size = size
          rfl
        · show (mkBoard size).covered.length = size + 1
          simp [mkBoard]
      | COMPUTER =>
        refine ⟨⟨?_, ?_⟩, ?_, ?_⟩
        · show (mkBoard size).size = size
          rfl
        · show (mkBoard size).covered.length = size + 1
          simp [mkBoard]
        · show (((mkBoard size).coverSquaresTrace
            [info.digitSum.toNat]).1).size = size
          exact hs
        · show (((mkBoard size).coverSquaresTrace
            [info.digitSum.toNat]).1).covered.length = size + 1
          rw [hl]; simp [mkBoard]

theorem load_roundtrip_board (b0 : Board) (natArr : List Nat) (size : Nat)
    (hb0size : b0.size = size) (hb0len : b0.covered.length = size + 1)
    (hlen : natArr.length = size)
    (hgood : ∀ j (hj : j < natArr.length),
      natArr.get ⟨j, hj⟩ = 0 ∨ natArr.get ⟨j, hj⟩ = j + 1) :
    ∃ b', b0.loadFromNumberArrayFormat
        (natArr.map (fun n => some (Int.ofNat n))) = .ok b' ∧
      b'.size = size ∧ b'.toNumberArrayFormat = natArr := by
  have hmaplen : (natArr.map (fun n => some (Int.ofNat n))).length = size := by
    rw [List.length_map, hlen]
  have hgood' : ∀ j (hj : j < (natArr.map
      (fun n => some (Int.ofNat n))).length),
      (natArr.map (fun n => some (Int.ofNat n))).get ⟨j, hj⟩ = some 0 ∨
      (natArr.map (fun n => some (Int.ofNat n))).get ⟨j, hj⟩ =
        some ((0 + j + 1 : Nat) : Int) := by
    intro j hj
    have hj' : j < natArr.length := by simpa using hj
    rw [List.get_map]
    rcases hgood j hj' with h | h
    · exact Or.inl (by rw [h]; rfl)
    · refine Or.inr ?_
      rw [h]
      rw [show (0 + j + 1 : Nat) = j + 1 from by omega]
      rfl
  obtain ⟨c', hok⟩ := loadEntries_ok_of_good _ b0.covered 0 hgood'
  obtain ⟨hclen, hcspec⟩ := loadEntries_getD _ b0.covered c' 0
    (by rw [hmaplen, hb0len]; omega) hok
  refine ⟨{ b0 with covered := c' }, ?_, hb0size, ?_⟩
  · unfold Board.loadFromNumberArrayFormat
    rw [if_neg (fun hne => hne (by rw [hmaplen, hb0size])), hok]
    rfl
  · apply List.ext_get
    · simp [Board.toNumberArrayFormat, hb0size, hlen]
    · intro idx h1 h2
      have hidx : idx < size := by
        simpa [Board.toNumberArrayFormat, hb0size] using h1
      have hrg : ∀ (h : idx < (List.range' 1
          ({ b0 with covered := c' } : Board).size).length),
          (List.range' 1 ({ b0 with covered := c' } : Board).size).get
            ⟨idx, h⟩ = 1 + idx := by
        intro h
        rw [List.get_range']
        omega
      have hget : (({ b0 with covered := c' } : Board).toNumberArrayFormat
          ).get ⟨idx, h1⟩ =
          if ({ b0 with covered := c' } : Board).coveredAt (1 + idx)
          then 0 else 1 + idx := by
        unfold Board.toNumberArrayFormat
        rw [List.get_map, hrg]
      have hcov : ({ b0 with covered := c' } : Board).coveredAt (1 + idx) =
          decide (natArr.get ⟨idx, h2⟩ = 0) := by
        show c'.getD (1 + idx) false = _
        rw [hcspec (1 + idx), if_pos (by rw [hmaplen]; omega)]
        rw [show (1 + idx - (0 + 1) : Nat) = idx from by omega]
        rw [List.getD_eq_getElem?_getD, List.getElem?_map]
        rw [List.getElem?_eq_getElem h2]
        simp
      rw [hget, hcov]
      rcases hgood idx h2 with h | h
      · rw [h]
        simp
      · rw [h]
        rw [if_neg (by simp)]
        omega

theorem goodEntries_get (l : List Nat)
    (h : ∀ j, j < l.length → l.getD j 0 = 0 ∨ l.getD j 0 = j + 1) :
    ∀ j (hj : j < l.length), l.get ⟨j, hj⟩ = 0 ∨ l.get ⟨j, hj⟩ = j + 1 := by
  intro j hj
  have hg := h j hj
  rw [List.getD_eq_getElem?_getD, List.getElem?_eq_getElem hj,
    Option.getD_some] at hg
  simp only [List.get_eq_getElem]
  exact hg

/-- C10: for every session state, history list and valid index, `rewindTo`
succeeds and (a) leaves the history list itself completely unchanged (no
entries are removed), (b) forces the restored session into the
`awaitingRoll` phase with the current dice cleared regardless of the phase
and dice recorded in the snapshot, and (c) restores the selected entry's
snapshot as the live state: game mode, current player, round number,
pending advantage, both boards (their number-array form reproduces the
snapshot's arrays), the round's current player, advantage lock, round-over
data and scores.  The tournament-level scores end up equal to the
snapshot's round scores because the JS tournament and round share the same
player objects, so the round-score write is the last one to land.  The
board arrays are assumed well-formed (length = board size, each entry 0 or
its own 1-based index), which `_captureSnapshot` guarantees for every
entry it records. -/
theorem C10_rewind (s : SessionState) (index : Nat)
    (hi : index < s.history.length) (entry : HistoryEntry)
    (he : s.history.get ⟨index, hi⟩ = entry)
    (hhlen : entry.snapshot.round.humanBoard.length =
      entry.snapshot.round.boardSize)
    (hclen : entry.snapshot.round.computerBoard.length =
      entry.snapshot.round.boardSize)
    (hhgood : ∀ j, j < entry.snapshot.round.humanBoard.length →
      entry.snapshot.round.humanBoard.getD j 0 = 0 ∨
      entry.snapshot.round.humanBoard.getD j 0 = j + 1)
    (hcgood : ∀ j, j < entry.snapshot.round.computerBoard.length →
      entry.snapshot.round.computerBoard.getD j 0 = 0 ∨
      entry.snapshot.round.computerBoard.getD j 0 = j + 1) :
    ∃ s', rewindTo s (index : Int) = Except.ok s' ∧
      s'.history = s.history ∧
      s'.phase = "awaitingRoll" ∧
      s'.currentDice = DiceVal.mk none none none ∧
      s'.gameMode = entry.snapshot.gameMode ∧
      s'.currentPlayerId = entry.snapshot.currentPlayerId ∧
      s'.roundNumber = entry.snapshot.tournament.roundNumber ∧
      s'.nextRoundAdvantage = entry.snapshot.tournament.nextRoundAdvantage ∧
      s'.tournamentHumanScore = entry.snapshot.round.humanScore ∧
      s'.tournamentComputerScore = entry.snapshot.round.computerScore ∧
      s'.currentRound.humanBoard.toNumberArrayFormat =
        entry.snapshot.round.humanBoard ∧
      s'.currentRound.computerBoard.toNumberArrayFormat =
        entry.snapshot.round.computerBoard ∧
      s'.currentRound.humanBoard.size = entry.snapshot.round.boardSize ∧
      s'.currentRound.computerBoard.size = entry.snapshot.round.boardSize ∧
      s'.currentRound.currentPlayerId =
        entry.snapshot.round.currentPlayerId ∧
      s'.currentRound.advantageLock = entry.snapshot.round.advantageLock ∧
      s'.currentRound.roundOver = entry.snapshot.round.roundOver ∧
      s'.currentRound.roundWinnerId = entry.snapshot.round.roundWinnerId ∧
      s'.currentRound.winType = entry.snapshot.round.winType ∧
      s'.currentRound.roundScore = entry.snapshot.round.roundScore ∧
      s'.currentRound.humanTotalScore = entry.snapshot.round.humanScore ∧
      s'.currentRound.computerTotalScore =
        entry.snapshot.round.computerScore := by
  obtain ⟨⟨hsh, hsc⟩, ⟨hch, hcc⟩⟩ := mkGameRound_board_shape
    entry.snapshot.round.boardSize entry.snapshot.tournament.humanScore
    entry.snapshot.tournament.computerScore
    entry.snapshot.round.firstPlayerId entry.snapshot.round.advantageInfo
  obtain ⟨bh, hbh_ok, hbh_size, hbh_arr⟩ :=
    load_roundtrip_board
      (GameRound.mkGameRound entry.snapshot.round.boardSize
        entry.snapshot.tournament.humanScore
        entry.snapshot.tournament.computerScore
        entry.snapshot.round.firstPlayerId
        entry.snapshot.round.advantageInfo).humanBoard
      entry.snapshot.round.humanBoard entry.snapshot.round.boardSize
      hsh hsc hhlen
      (goodEntries_get entry.snapshot.round.humanBoard hhgood)
  obtain ⟨bc, hbc_ok, hbc_size, hbc_arr⟩ :=
    load_roundtrip_board
      (GameRound.mkGameRound entry.snapshot.round.boardSize
        entry.snapshot.tournament.humanScore
        entry.snapshot.tournament.computerScore
        entry.snapshot.round.firstPlayerId
        entry.snapshot.round.advantageInfo).computerBoard
      entry.snapshot.round.computerBoard entry.snapshot.round.boardSize
      hch hcc hclen
      (goodEntries_get entry.snapshot.round.computerBoard hcgood)
  have hcond : 0 ≤ (index : Int) ∧
      ((index : Int)).toNat < s.history.length := ⟨by omega, by omega⟩
  have hge : s.history.get ⟨((index : Int)).toNat, hcond.2⟩ = entry := he
  refine ⟨{ s with
      gameMode := entry.snapshot.gameMode
      roundNumber := entry.snapshot.tournament.roundNumber
      nextRoundAdvantage := entry.snapshot.tournament.nextRoundAdvantage
      tournamentHumanScore := entry.snapshot.round.humanScore
      tournamentComputerScore := entry.snapshot.round.computerScore
      currentRound := { GameRound.mkGameRound entry.snapshot.round.boardSize
          entry.snapshot.tournament.humanScore
          entry.snapshot.tournament.computerScore
          entry.snapshot.round.firstPlayerId
          entry.snapshot.round.advantageInfo with
        advantageLock := entry.snapshot.round.advantageLock
        humanBoard := bh
        computerBoard := bc
        humanTotalScore := entry.snapshot.round.humanScore
        computerTotalScore := entry.snapshot.round.computerScore
        humanEverCovered := decide (bh.getCoveredNumbers.length > 0)
        computerEverCovered := decide (bc.getCoveredNumbers.length > 0)
        currentPlayerId := entry.snapshot.round.currentPlayerId
        roundOver := entry.snapshot.round.roundOver
        roundWinnerId := entry.snapshot.round.roundWinnerId
        winType := entry.snapshot.round.winType
        roundScore := entry.snapshot.round.roundScore }
      currentPlayerId := entry.snapshot.currentPlayerId
      phase := "awaitingRoll"
      currentDice := DiceVal.mk none none none },
    ?_, rfl, rfl, rfl, rfl, rfl, rfl, rfl, rfl, rfl,
    hbh_arr, hbc_arr, hbh_size, hbc_size,
    rfl, rfl, rfl, rfl, rfl, rfl, rfl, rfl⟩
  unfold rewindTo
  rw [dif_pos hcond]
  unfold _restoreSnapshot
  simp only [hge, hbh_ok, hbc_ok, except_bind_ok, except_pure]

/-! Concrete session for exercising the rewind theorem. -/

def c10Snap : SessSnapshot :=
  { gameMode := "solo"
    currentPlayerId := PlayerId.HUMAN
    phase := "awaitingMove"
    currentDice := DiceVal.mk (some 1) (some 2) (some 3)
    lastAction := some "roll"
    tournament := SnapTournament.mk 10 20 none 2
    round := SnapRound.mk 3 PlayerId.HUMAN PlayerId.COMPUTER none none
      false none none 0 [1, 0, 3] [0, 2, 3] 7 9 }

def c10Entry : HistoryEntry := HistoryEntry.mk "start" c10Snap none

def c10Session : SessionState :=
  { gameMode := "solo"
    currentPlayerId := PlayerId.COMPUTER
    phase := "roundOver"
    currentDice := DiceVal.mk none none none
    tournamentHumanScore := 0
    tournamentComputerScore := 0
    nextRoundAdvantage := none
    roundNumber := 5
    currentRound := GameRound.mkGameRound 3 0 0 PlayerId.HUMAN none
    history := [c10Entry] }

/-- C10 witness: the rewind theorem applied to a concrete one-entry
history, with every hypothesis discharged by computation. -/
theorem C10_witness :
    (0 : Nat) < c10Session.history.length ∧
    (∃ s', rewindTo c10Session ((0 : Nat) : Int) = Except.ok s' ∧
      s'.history = c10Session.history ∧
      s'.phase = "awaitingRoll" ∧
      s'.currentDice = DiceVal.mk none none none ∧
      s'.gameMode = c10Entry.snapshot.gameMode ∧
      s'.currentPlayerId = c10Entry.snapshot.currentPlayerId ∧
      s'.roundNumber = c10Entry.snapshot.tournament.roundNumber ∧
      s'.nextRoundAdvantage =
        c10Entry.snapshot.tournament.nextRoundAdvantage ∧
      s'.tournamentHumanScore = c10Entry.snapshot.round.humanScore ∧
      s'.tournamentComputerScore = c10Entry.snapshot.round.computerScore ∧
      s'.currentRound.humanBoard.toNumberArrayFormat =
        c10Entry.snapshot.round.humanBoard ∧
      s'.currentRound.computerBoard.toNumberArrayFormat =
        c10Entry.snapshot.round.computerBoard ∧
      s'.currentRound.humanBoard.size =
        c10Entry.snapshot.round.boardSize ∧
      s'.currentRound.computerBoard.size =
        c10Entry.snapshot.round.boardSize ∧
      s'.currentRound.currentPlayerId =
        c10Entry.snapshot.round.currentPlayerId ∧
      s'.currentRound.advantageLock =
        c10Entry.snapshot.round.advantageLock ∧
      s'.currentRound.roundOver = c10Entry.snapshot.round.roundOver ∧
      s'.currentRound.roundWinnerId =
        c10Entry.snapshot.round.roundWinnerId ∧
      s'.currentRound.winType = c10Entry.snapshot.round.winType ∧
      s'.currentRound.roundScore = c10Entry.snapshot.round.roundScore ∧
      s'.currentRound.humanTotalScore =
        c10Entry.snapshot.round.humanScore ∧
      s'.currentRound.computerTotalScore =
        c10Entry.snapshot.round.computerScore) :=
  ⟨by decide,
    C10_rewind c10Session 0 (by decide) c10Entry rfl rfl rfl
      (by decide) (by decide)⟩

end Canoga
